import Mathlib

/-!
todo-cli-go: the task store, its filter engine and the import reconciler.

A shallow embedding of `src/main.go` and `src/import.go`.

Conventions of the embedding.

* Go strings are Lean strings (sequences of code points); Go `int` is `Int`,
  and the increments of ids and of the counter `NextID` are written `+ 1`.
  The `int` of the program has 64 bits: `tm.NextID++` is `incrInt`, which is
  `+ 1` for every counter below `maxInt` = 9223372036854775807 and wraps to
  `minInt` there. The embedding follows the program while the counter is
  below `maxInt`. A store grown from the empty store stays below it for 2^63
  appends; a store file may carry any 64-bit counter, so what is proved of
  the counter of an arbitrary store is proved of the program for the
  counters below `maxInt`.
* Everything the process reads from its environment is an explicit argument:
  each `time.Now()` call is its own formatted clock reading, `rand.Read` is a
  byte source, the answer to the confirmation prompt is a boolean.
* `tm.save()` and the messages printed on standard output do not feed back
  into the store and are left out.
* `unicode.ToLower` (the table behind `strings.ToLower`) belongs to the Go
  standard library; it is the parameter `lower` wherever a function
  lower-cases a string.
-/

namespace Todo

/-! ## Data model (main.go, lines 23-41) -/

/-- The record `Task` of main.go. -/
structure Task where
  ID : Int
  UUID : String
  Text : String
  Done : Bool
  Priority : String
  Due : String
  Tags : List String
  Created : String
  Updated : String
deriving DecidableEq, Repr

/-- The record `TodoManager` of main.go: the task slice and the id counter
(the file name plays no part in the in-memory behaviour). -/
structure TodoManager where
  Tasks : List Task
  NextID : Int
deriving DecidableEq, Repr

/-- The manager built by `NewTodoManager` before `load`: no task, counter 1. -/
def TodoManager.empty : TodoManager := { Tasks := [], NextID := 1 }

/-! ## generateUUID (main.go, lines 43-54) -/

/-- One lowercase hexadecimal digit, as printed by the verb `%x`. -/
def hexDigit (n : Nat) : Char :=
  if n < 10 then Char.ofNat (48 + n) else Char.ofNat (87 + n)

/-- A byte printed by `%x`: two lowercase hexadecimal digits. -/
def hexByte (b : Nat) : List Char := [hexDigit (b / 16 % 16), hexDigit (b % 16)]

/-- A byte slice printed by `%x`. -/
def hexBytes (bs : List Nat) : List Char := bs.flatMap hexByte

/-- The function `generateUUID`: `rnd i` is the byte `rand.Read` stored at index `i`. -/
def generateUUID (rnd : Nat → Nat) : String :=
  let bytes : List Nat := (List.range 16).map (fun i => rnd i % 256)
  let bytes := bytes.set 6 (((bytes.getD 6 0) &&& 0x0f) ||| 0x40)
  let bytes := bytes.set 8 (((bytes.getD 8 0) &&& 0x3f) ||| 0x80)
  String.mk (hexBytes (bytes.take 4) ++ '-' :: hexBytes ((bytes.drop 4).take 2)
    ++ '-' :: hexBytes ((bytes.drop 6).take 2) ++ '-' :: hexBytes ((bytes.drop 8).take 2)
    ++ '-' :: hexBytes ((bytes.drop 10).take 6))

/-! ## Store operations (main.go, lines 110-134 and 259-299) -/

/-- The largest value of a Go `int` on a 64-bit platform. -/
def maxInt : Int := 9223372036854775807

/-- The least value of a Go `int` on a 64-bit platform. -/
def minInt : Int := -9223372036854775808

/-- The statement `n++` on a Go `int`: addition of one in 64-bit two's
complement, which takes `maxInt` to `minInt` without any error. -/
def incrInt (n : Int) : Int := (n + 1 + 2 ^ 63) % 2 ^ 64 - 2 ^ 63

/-- The method `Add`. `now1` and `now2` are the two clock readings taken while
the task literal is built (lines 120 and 121); the third reading (line 126) is
written to the local copy after the append and never reaches the store. The
statement `tm.NextID++` (line 125) is written `+ 1`: that is the value the
program computes, `incrInt tm.NextID`, for every counter below `maxInt`
(`incrInt_below`). At `maxInt`, a counter `load` accepts from the store file,
the program wraps to `minInt` (`incrInt_maxInt`) and this definition does not
follow it. -/
def TodoManager.Add (tm : TodoManager) (rnd : Nat → Nat) (text : String)
    (tags : List String) (priority due now1 now2 : String) : TodoManager :=
  let task : Task :=
    { ID := tm.NextID
      UUID := generateUUID rnd
      Text := text
      Done := false
      Priority := priority
      Due := due
      Tags := tags
      Created := now1
      Updated := now2 }
  { Tasks := tm.Tasks ++ [task], NextID := tm.NextID + 1 }

/-- The loop of `Done`: the first task whose id matches is marked and stamped,
then the loop returns. -/
def doneLoop (id : Int) (now : String) : List Task → List Task
  | [] => []
  | task :: rest =>
    if task.ID = id then { task with Done := true, Updated := now } :: rest
    else task :: doneLoop id now rest

/-- The method `Done`. -/
def TodoManager.Done (tm : TodoManager) (id : Int) (now : String) : TodoManager :=
  { tm with Tasks := doneLoop id now tm.Tasks }

/-- The loop of `Remove`: the first task whose id matches is cut out of the
slice, then the loop returns. -/
def removeLoop (id : Int) : List Task → List Task
  | [] => []
  | task :: rest => if task.ID = id then rest else task :: removeLoop id rest

/-- The method `Remove`. -/
def TodoManager.Remove (tm : TodoManager) (id : Int) : TodoManager :=
  { tm with Tasks := removeLoop id tm.Tasks }

/-- The loop of `Edit`: the first task whose id matches gets the new text and
tags and is stamped, then the loop returns. -/
def editLoop (id : Int) (newText : String) (tags : List String) (now : String) :
    List Task → List Task
  | [] => []
  | task :: rest =>
    if task.ID = id then { task with Text := newText, Tags := tags, Updated := now } :: rest
    else task :: editLoop id newText tags now rest

/-- The method `Edit`. -/
def TodoManager.Edit (tm : TodoManager) (id : Int) (newText : String)
    (tags : List String) (now : String) : TodoManager :=
  { tm with Tasks := editLoop id newText tags now tm.Tasks }

/-! ## The filter engine (main.go, lines 159-206) -/

/-- The library function `strings.HasPrefix`. -/
def HasPrefix (s pre : String) : Bool := pre.data.isPrefixOf s.data

/-- The library function `strings.Contains`: `sub` occurs in `s` as a contiguous run. -/
def Contains (s sub : String) : Bool := decide (sub.data <:+: s.data)

/-- The library function `strings.ToLower`, over the rune mapping `lower`. -/
def ToLower (lower : Char → Char) (s : String) : String := String.mk (s.data.map lower)

/-- The inner loop of the project and context filters (lines 172-177 and
186-191): some tag starts with `sigil` and, lower-cased, contains the
lower-cased filter. -/
def hasTag (lower : Char → Char) (sigil filter : String) (tags : List String) : Bool :=
  tags.any (fun tag => HasPrefix tag sigil && Contains (ToLower lower tag) (ToLower lower filter))

/-- The body of the loop of `filterTasks`: `false` where the source reaches a
`continue`, `true` where it reaches the append. -/
def keepTask (lower : Char → Char) (showDone : Bool)
    (projectFilter contextFilter priorityFilter : String) (task : Task) : Bool :=
  if !showDone && task.Done then false
  else if projectFilter ≠ "" && !hasTag lower "+" projectFilter task.Tags then false
  else if contextFilter ≠ "" && !hasTag lower "@" contextFilter task.Tags then false
  else if priorityFilter ≠ "" && task.Priority ≠ priorityFilter then false
  else true

/-- The method `filterTasks`: one pass over the store, appending the tasks kept. -/
def TodoManager.filterTasks (tm : TodoManager) (lower : Char → Char) (showDone : Bool)
    (projectFilter contextFilter priorityFilter : String) : List Task :=
  tm.Tasks.foldl
    (fun filtered task =>
      if keepTask lower showDone projectFilter contextFilter priorityFilter task
      then filtered ++ [task] else filtered)
    []

/-- The rule for the project and context filters as the specification words
it: some tag starts with `sigil` and its remainder after the sigil,
lower-cased, contains the lower-cased filter. -/
def specHasTag (lower : Char → Char) (sigil filter : String) (tags : List String) : Bool :=
  tags.any (fun tag =>
    HasPrefix tag sigil &&
      Contains (ToLower lower (String.mk (tag.data.drop sigil.length))) (ToLower lower filter))

/-! ## CSV import: reconciliation (import.go, lines 14-100 and 260-326) -/

/-- The record `ImportOptions` of import.go. -/
structure ImportOptions where
  DryRun : Bool
  Verbose : Bool
deriving DecidableEq, Repr

/-- The record `ImportResult` of import.go. -/
structure ImportResult where
  NewTasks : Int
  UpdatedTasks : Int
  SkippedTasks : Int
  Errors : List String
  Warnings : List String
deriving DecidableEq, Repr

/-- The method `isNewer`. `parseTime` is the library call
`time.Parse("2006-01-02 15:04:05", ·)`: the parsed instant, or nothing when
the call returns an error. -/
def isNewer (parseTime : String → Option Int) (date1 date2 : String) : Bool :=
  match parseTime date1, parseTime date2 with
  | some time1, some time2 => decide (time2 < time1)
  | _, _ => false

/-- The method `updateExistingTask`, applied to the task the pointer addresses. -/
def updateExistingTask (existing csvTask : Task) (now : String) : Task :=
  { existing with
    Text := csvTask.Text
    Done := csvTask.Done
    Priority := csvTask.Priority
    Due := csvTask.Due
    Tags := csvTask.Tags
    Updated := now }

/-- The map `existingTasks` of `ImportCSV` (lines 72-77), filled from index `i`
on: a uuid is sent to the index of the task its pointer addresses. A later
task with the same uuid overwrites the entry; a task with an empty uuid makes
none. -/
def existingFrom (i : Nat) (m : String → Option Nat) : List Task → String → Option Nat
  | [] => m
  | task :: rest =>
    existingFrom (i + 1)
      (if task.UUID ≠ "" then fun u => if u = task.UUID then some i else m u else m) rest

/-- The map `existingTasks` built over a whole task slice. -/
def existingTasks (tasks : List Task) : String → Option Nat :=
  existingFrom 0 (fun _ => none) tasks

/-- Write through a pointer to cell `i` of an array. -/
def modifyAt (f : Task → Task) : Nat → List Task → List Task
  | _, [] => []
  | 0, task :: rest => f task :: rest
  | i + 1, task :: rest => task :: modifyAt f i rest

/-- The memory the import loop works on. The pointers held by `existingTasks`
address `cells`, the array that backed `tm.Tasks` when the map was built. An
`append` that finds no free capacity moves `tm.Tasks` to a fresh array; from
then on (`shared = false`) writes through the pointers reach `cells` only. -/
structure ImportState where
  Tasks : List Task
  NextID : Int
  cells : List Task
  shared : Bool
  room : Nat
  result : ImportResult

/-- A write of `updateExistingTask` through the pointer to cell `i`. -/
def ImportState.update (st : ImportState) (i : Nat) (csvTask : Task) (now : String) :
    ImportState :=
  { st with
    cells := modifyAt (fun e => updateExistingTask e csvTask now) i st.cells
    Tasks :=
      if st.shared then modifyAt (fun e => updateExistingTask e csvTask now) i st.Tasks
      else st.Tasks
    result := { st.result with UpdatedTasks := st.result.UpdatedTasks + 1 } }

/-- Count one skipped row. -/
def ImportState.skip (st : ImportState) : ImportState :=
  { st with result := { st.result with SkippedTasks := st.result.SkippedTasks + 1 } }

/-- The method `processImportTask`. The candidate is passed by value, so the id
assigned at line 266 stays in the callee; what the caller sees is the counter,
the report, the task behind the pointer, and the returned flag. `now` is the
clock reading an update would stamp. Every index held by the map addresses a
cell, so the branch for a missing cell is never taken. -/
def processImportTask (csvTask : Task) (existing : String → Option Nat) (conflict : String)
    (parseTime : String → Option Int) (now : String) (st : ImportState) : ImportState × Bool :=
  match existing csvTask.UUID with
  | none =>
    ({ st with
       NextID := st.NextID + 1
       result := { st.result with NewTasks := st.result.NewTasks + 1 } }, true)
  | some i =>
    if conflict = "skip" then (st.skip, false)
    else if conflict = "update" then (st.update i csvTask now, false)
    else if conflict = "newer" then
      match st.cells.get? i with
      | some existingTask =>
        if isNewer parseTime csvTask.Updated existingTask.Updated
        then (st.update i csvTask now, false) else (st.skip, false)
      | none => (st.skip, false)
    else
      ({ st with
         result :=
           { st.result with
             SkippedTasks := st.result.SkippedTasks + 1
             Warnings := st.result.Warnings ++
               ["stratégie de conflit '" ++ conflict ++ "' inconnue, tâche ignorée"] } }, false)

/-- The statement `tm.Tasks = append(tm.Tasks, csvTask)` with the counter
adjustment of lines 84-86. -/
def ImportState.append (st : ImportState) (csvTask : Task) : ImportState :=
  { st with
    Tasks := st.Tasks ++ [csvTask]
    NextID := if csvTask.ID ≥ st.NextID then csvTask.ID + 1 else st.NextID
    shared := st.shared && decide (0 < st.room)
    room := st.room - 1 }

/-- The loop of `ImportCSV` (lines 80-89) from row number `k` on; `now k` is
the clock reading available to row `k`. -/
def importLoop (existing : String → Option Nat) (conflict : String) (options : ImportOptions)
    (parseTime : String → Option Int) (now : Nat → String) :
    Nat → List Task → ImportState → ImportState
  | _, [], st => st
  | k, csvTask :: rest, st =>
    let r := processImportTask csvTask existing conflict parseTime (now k) st
    let st1 := if r.2 && !options.DryRun then r.1.append csvTask else r.1
    importLoop existing conflict options parseTime now (k + 1) rest st1

/-- The method `ImportCSV`, from the result of `tm.parseCSV(filename)` on
(`tasks`, `parseErrors`). `fileExists` is the outcome of `os.Stat`,
`confirm` the value `confirmReplace` returns if it is called, `spare` the free
capacity `cap(tm.Tasks) - len(tm.Tasks)` of the task slice at the call.
Returns the store after the call, the report (absent where the source returns
`nil`) and the error, if any. -/
def TodoManager.ImportCSV (tm : TodoManager) (filename : String) (fileExists : Bool)
    (tasks : List Task) (parseErrors : List String) (mode conflict : String)
    (options : ImportOptions) (confirm : Bool) (spare : Nat)
    (parseTime : String → Option Int) (now : Nat → String) :
    TodoManager × Option ImportResult × Option String :=
  let result : ImportResult :=
    { NewTasks := 0, UpdatedTasks := 0, SkippedTasks := 0, Errors := [], Warnings := [] }
  if !fileExists then (tm, none, some ("fichier CSV introuvable: " ++ filename))
  else
    let result := { result with Errors := result.Errors ++ parseErrors }
    if tasks.length = 0 then (tm, some result, some "aucune tâche valide trouvée dans le CSV")
    else if mode = "replace" && !options.DryRun && !confirm then
      (tm, some result, some "import annulé par l'utilisateur")
    else
      let reset := mode = "replace" && !options.DryRun
      let tm1 : TodoManager := if reset then { Tasks := [], NextID := 1 } else tm
      let st : ImportState :=
        { Tasks := tm1.Tasks
          NextID := tm1.NextID
          cells := tm1.Tasks
          shared := true
          room := if reset then 0 else spare
          result := result }
      let st := importLoop (existingTasks tm1.Tasks) conflict options parseTime now 0 tasks st
      ({ Tasks := st.Tasks, NextID := st.NextID }, some st.result, none)

/-! ## Command sequences -/

/-- One call on the store, with everything it reads from its environment. For
an import, `tasks` and `parseErrors` are what `parseCSV` returned for the file. -/
inductive Cmd where
  | add (rnd : Nat → Nat) (text : String) (tags : List String)
      (priority due now1 now2 : String)
  | done (id : Int) (now : String)
  | remove (id : Int)
  | edit (id : Int) (newText : String) (tags : List String) (now : String)
  | importCSV (filename : String) (fileExists : Bool) (tasks : List Task)
      (parseErrors : List String) (mode conflict : String) (options : ImportOptions)
      (confirm : Bool) (spare : Nat) (parseTime : String → Option Int) (now : Nat → String)

/-- The store after one call. -/
def Cmd.run (tm : TodoManager) : Cmd → TodoManager
  | .add rnd text tags priority due now1 now2 => tm.Add rnd text tags priority due now1 now2
  | .done id now => tm.Done id now
  | .remove id => tm.Remove id
  | .edit id newText tags now => tm.Edit id newText tags now
  | .importCSV filename fileExists tasks parseErrors mode conflict options confirm spare
      parseTime now =>
    (tm.ImportCSV filename fileExists tasks parseErrors mode conflict options confirm spare
      parseTime now).1

/-- The store reached from the empty store by a sequence of calls. -/
def runAll (cmds : List Cmd) : TodoManager := cmds.foldl Cmd.run TodoManager.empty

/-- A candidate row as `parseCSV` builds it when the counter is 2. -/
def sampleRow : Task :=
  ⟨2, "11111111-1111-4111-8111-111111111111", "CSV Task", false, "", "", ["+csv"],
    "2025-07-09 10:00:00", "2025-07-09 10:00:00"⟩

/-- A session: one Add, a merge import with strategy update of two rows (the
second carries the uuid of the task just added), then Done on id 1. -/
def sampleCmds : List Cmd :=
  [Cmd.add (fun _ => 0) "Tâche 1" ["+dev"] "high" "" "t1" "t1",
   Cmd.importCSV "tasks.csv" true
     [sampleRow,
      ⟨2, "00000000-0000-4000-8000-000000000000", "Tâche 1 bis", true, "low", "", [],
        "2025-07-09 10:00:00", "2025-07-09 10:00:00"⟩]
     [] "merge" "update" ⟨false, false⟩ false 4 (fun _ => none) (fun _ => "t2"),
   Cmd.done 1 "t3"]

/-- A call of `Add` or of `Remove`, with the arguments of the call. -/
inductive AddRemove where
  | add (rnd : Nat → Nat) (text : String) (tags : List String)
      (priority due now1 now2 : String)
  | remove (id : Int)

/-- The same call as a command. -/
def AddRemove.toCmd : AddRemove → Cmd
  | .add rnd text tags priority due now1 now2 => .add rnd text tags priority due now1 now2
  | .remove id => .remove id

/-- The number of `Add` calls in a sequence. -/
def countAdds : List AddRemove → Nat
  | [] => 0
  | .add _ _ _ _ _ _ _ :: rest => countAdds rest + 1
  | .remove _ :: rest => countAdds rest

/-! ## The sorted listing (main.go, lines 136-157) -/

/-- The lookup `priorityOrder[p]` of `List`: a string that is not a key of the
map yields the zero value. -/
def priorityOrder (p : String) : Int :=
  if p = "high" then 3 else if p = "medium" then 2 else if p = "low" then 1 else 0

/-- The comparison closure handed to `sort.Slice` (lines 146-152). -/
def listLess (a b : Task) : Bool :=
  if priorityOrder a.Priority ≠ priorityOrder b.Priority then
    decide (priorityOrder a.Priority > priorityOrder b.Priority)
  else decide (a.ID < b.ID)

/-- What `sort.Slice` requires of its comparison: a strict weak ordering. -/
def StrictWeak (less : Task → Task → Bool) : Prop :=
  (∀ a b, less a b = true → less b a = false) ∧
    (∀ a b c, less a b = false → less b c = false → less a c = false)

/-- The library function `sort.Slice`, taken by its contract: the slice is
rearranged (no element gained or lost) and, for a comparison that is a strict
weak ordering, no element is followed by one that compares less than it. The
order among elements that compare equal is left open, as in the library. -/
structure SliceSort where
  sort : (Task → Task → Bool) → List Task → List Task
  perm : ∀ less l, (sort less l).Perm l
  sorted : ∀ less l, StrictWeak less → (sort less l).Pairwise (fun a b => less b a = false)

/-- The method `List` (spelt `list` here, the capitalised name being the type
of lists): the tasks in the order in which `printTask` is called on them. An
empty selection prints a notice and no task. -/
def TodoManager.list (tm : TodoManager) (S : SliceSort) (lower : Char → Char) (showDone : Bool)
    (projectFilter contextFilter priorityFilter : String) : List Task :=
  let filteredTasks := tm.filterTasks lower showDone projectFilter contextFilter priorityFilter
  if filteredTasks.length = 0 then [] else S.sort listLess filteredTasks

/-- Insertion sort meets the contract of `sort.Slice`. -/
def insertionSlice : SliceSort where
  sort less l := l.insertionSort (fun a b => less b a = false)
  perm less l := List.perm_insertionSort _ l
  sorted less l h := by
    haveI : IsTotal Task (fun a b => less b a = false) :=
      ⟨fun a b => by
        cases hab : less a b
        · exact Or.inr rfl
        · exact Or.inl (h.1 a b hab)⟩
    haveI : IsTrans Task (fun a b => less b a = false) :=
      ⟨fun a b c hab hbc => h.2 c b a hbc hab⟩
    exact List.sorted_insertionSort _ l

/-- Three tasks with priorities low, high, medium and ids 1, 2, 3. -/
def sampleListing : TodoManager :=
  { Tasks := [⟨1, "u1", "Tâche 1", false, "low", "", [], "c", "c"⟩,
              ⟨2, "u2", "Tâche 2", false, "high", "", [], "c", "c"⟩,
              ⟨3, "u3", "Tâche 3", false, "medium", "", [], "c", "c"⟩],
    NextID := 4 }

/-! ## CSV import: parsing (import.go, lines 102-258 and 378-428) -/

/-- The library predicate `unicode.IsSpace` (the Unicode White_Space property). -/
def isSpace (c : Char) : Bool :=
  let n := c.toNat
  (9 ≤ n && n ≤ 13) || n = 0x20 || n = 0x85 || n = 0xA0 || n = 0x1680 ||
    (0x2000 ≤ n && n ≤ 0x200A) || n = 0x2028 || n = 0x2029 || n = 0x202F || n = 0x205F ||
    n = 0x3000

/-- The library function `strings.TrimSpace`. -/
def TrimSpace (s : String) : String :=
  String.mk ((s.data.dropWhile isSpace).rdropWhile isSpace)

/-- The scan of `strings.Fields`: `cur` is the word being read. -/
def fieldsFrom : List Char → List Char → List String
  | [], cur => if cur = [] then [] else [String.mk cur]
  | c :: rest, cur =>
    if isSpace c then
      if cur = [] then fieldsFrom rest [] else String.mk cur :: fieldsFrom rest []
    else fieldsFrom rest (cur ++ [c])

/-- The library function `strings.Fields`: the maximal runs of non-space characters. -/
def Fields (s : String) : List String := fieldsFrom s.data []

/-- The class `[0-9a-f]` of the uuid pattern (code points 48-57 and 97-102). -/
def isHexLower (c : Char) : Bool :=
  (48 ≤ c.toNat && c.toNat ≤ 57) || (97 ≤ c.toNat && c.toNat ≤ 102)

/-- The class of one given character. -/
def isChar (x : Char) (c : Char) : Bool := decide (c = x)

/-- A string matches a sequence of one-character classes from its first to its
last character. -/
def matchClasses : List (Char → Bool) → List Char → Bool
  | [], [] => true
  | cls :: classes, c :: rest => cls c && matchClasses classes rest
  | _, _ => false

/-- The pattern of `isValidUUID`, one class per character:
`^[0-9a-f]{8}-[0-9a-f]{4}-4[0-9a-f]{3}-[89ab][0-9a-f]{3}-[0-9a-f]{12}$`. -/
def uuidPattern : List (Char → Bool) :=
  List.replicate 8 isHexLower ++ [isChar '-'] ++
  List.replicate 4 isHexLower ++ [isChar '-'] ++
  [isChar '4'] ++ List.replicate 3 isHexLower ++ [isChar '-'] ++
  [fun c => isChar '8' c || isChar '9' c || isChar 'a' c || isChar 'b' c] ++
  List.replicate 3 isHexLower ++ [isChar '-'] ++
  List.replicate 12 isHexLower

/-- The method `isValidUUID`: the pattern is matched against the lower-cased string. -/
def isValidUUID (lower : Char → Char) (uuid : String) : Bool :=
  matchClasses uuidPattern (ToLower lower uuid).data

/-- The function `validateDate` of main.go (lines 339-346). `timeParse layout
value` is the library call `time.Parse(layout, value)`: the parsed instant, or
nothing when the call returns an error. -/
def validateDate (timeParse : String → String → Option Int) (dateStr : String) : Bool :=
  if dateStr = "" then true else (timeParse "2006-01-02" dateStr).isSome

/-- The method `isValidDateTime`. -/
def isValidDateTime (timeParse : String → String → Option Int) (dateTime : String) : Bool :=
  ["2006-01-02 15:04:05", "2006-01-02T15:04:05", "2006-01-02 15:04", "2006-01-02T15:04"].any
    (fun format => (timeParse format dateTime).isSome)

/-- The method `parseTags`. -/
def parseTags (tagsStr : String) : List String :=
  ((Fields tagsStr).map TrimSpace).filter
    (fun word => word ≠ "" && (HasPrefix word "+" || HasPrefix word "@"))

/-- The method `createTaskFromCSVRecord`; nothing is returned where
`record[textCol]` is out of range and the program panics. `now1` and `now2`
are the two clock readings of the task literal, `rnd` the bytes `generateUUID`
would draw. Each field is computed with its own message, in source order. -/
def createTaskFromCSVRecord (tm : TodoManager) (lower : Char → Char)
    (timeParse : String → String → Option Int) (record : List String)
    (columnMap : String → Option Nat) (textCol : Nat) (lineNumber : Nat)
    (now1 now2 : String) (rnd : Nat → Nat) : Option (Task × List String) :=
  match record[textCol]? with
  | none => none
  | some rawText =>
    let getValue : String → String := fun colName =>
      match columnMap colName with
      | some col => if col < record.length then TrimSpace (record.getD col "") else ""
      | none => ""
    let ligne := "ligne " ++ toString lineNumber
    let text := TrimSpace rawText
    if text = "" then
      some ({ ID := tm.NextID, UUID := "", Text := text, Done := false, Priority := "",
              Due := "", Tags := [], Created := now1, Updated := now2 },
            [ligne ++ ": texte vide, tâche ignorée"])
    else
      let uuidValue := getValue "uuid"
      let uuidOk := uuidValue ≠ "" && isValidUUID lower uuidValue
      let doneValue := ToLower lower (getValue "done")
      let priority := ToLower lower (getValue "priority")
      let priorityOk := priority = "high" || priority = "medium" || priority = "low"
      let dueValue := getValue "due"
      let tagsValue := getValue "tags"
      let createdValue := getValue "created"
      let updatedValue := getValue "updated"
      some ({ ID := tm.NextID
              UUID := if uuidOk then uuidValue else generateUUID rnd
              Text := text
              Done := doneValue = "true" || doneValue = "1"
              Priority := if priority ≠ "" && priorityOk then priority else ""
              Due := if dueValue ≠ "" && validateDate timeParse dueValue then dueValue else ""
              Tags := if tagsValue ≠ "" then parseTags tagsValue else []
              Created :=
                if createdValue ≠ "" && isValidDateTime timeParse createdValue
                then createdValue else now1
              Updated :=
                if updatedValue ≠ "" && isValidDateTime timeParse updatedValue
                then updatedValue else now2 },
            (if uuidValue ≠ "" && !isValidUUID lower uuidValue then
               [ligne ++ ": UUID invalide '" ++ uuidValue ++ "', nouveau UUID généré"]
             else []) ++
            (if priority ≠ "" && !priorityOk then
               [ligne ++ ": priorité '" ++ priority ++ "' invalide, ignorée"]
             else []) ++
            (if dueValue ≠ "" && !validateDate timeParse dueValue then
               [ligne ++ ": date '" ++ dueValue ++ "' invalide, ignorée"]
             else []) ++
            (if createdValue ≠ "" && !isValidDateTime timeParse createdValue then
               [ligne ++ ": date de création '" ++ createdValue ++
                 "' invalide, date actuelle utilisée"]
             else []) ++
            (if updatedValue ≠ "" && !isValidDateTime timeParse updatedValue then
               [ligne ++ ": date de mise à jour '" ++ updatedValue ++
                 "' invalide, date actuelle utilisée"]
             else []))

/-- The map `columnMap` of `parseCSV` (lines 123-126), filled from column `i`
on: the trimmed, lower-cased header name is sent to its index, a later column
of the same name overwriting an earlier one. -/
def columnMapFrom (lower : Char → Char) (i : Nat) (m : String → Option Nat) :
    List String → String → Option Nat
  | [] => m
  | header :: rest =>
    columnMapFrom lower (i + 1)
      (fun name => if name = TrimSpace (ToLower lower header) then some i else m name) rest

/-- A CSV file as `parseCSV` meets it: the error of `os.Open` if it fails, what
the first `reader.Read()` returns, and what the following calls return up to
the end of the file. A failed read carries its error text. -/
structure CsvFile where
  openError : Option String
  header : Except String (List String)
  records : List (Except String (List String))

/-- What the process reads from its surroundings during one import. -/
structure ImportEnv where
  /-- The file is there for `os.Stat`. -/
  fileExists : Bool
  /-- The value `confirmReplace` returns if it is called. -/
  confirm : Bool
  /-- The free capacity `cap(tm.Tasks) - len(tm.Tasks)` at the call. -/
  spare : Nat
  /-- The rune mapping `unicode.ToLower`. -/
  lower : Char → Char
  /-- The library function `time.Parse`. -/
  timeParse : String → String → Option Int
  /-- First clock reading of the task literal built for a line. -/
  rowNow1 : Nat → String
  /-- Second clock reading of the task literal built for a line. -/
  rowNow2 : Nat → String
  /-- The random bytes drawn for a line. -/
  rowRnd : Nat → Nat → Nat
  /-- The clock reading stamped by an update at a row of the import loop. -/
  updateNow : Nat → String

/-- The loop of `parseCSV` (lines 135-161); `lineNumber` is the value of the
counter before the increment at the head of the loop. -/
def parseLoop (tm : TodoManager) (env : ImportEnv) (columnMap : String → Option Nat)
    (textCol : Nat) :
    Nat → List (Except String (List String)) → List Task → List String →
      Option (List Task × List String)
  | _, [], tasks, errors => some (tasks, errors)
  | lineNumber, .error err :: rest, tasks, errors =>
    parseLoop tm env columnMap textCol (lineNumber + 1) rest tasks
      (errors ++ ["ligne " ++ toString (lineNumber + 1) ++ ": erreur de parsing CSV: " ++ err])
  | lineNumber, .ok record :: rest, tasks, errors =>
    if record.length = 0 || (record.length = 1 && TrimSpace (record.getD 0 "") = "") then
      parseLoop tm env columnMap textCol (lineNumber + 1) rest tasks errors
    else
      match createTaskFromCSVRecord tm env.lower env.timeParse record columnMap textCol
          (lineNumber + 1) (env.rowNow1 (lineNumber + 1)) (env.rowNow2 (lineNumber + 1))
          (env.rowRnd (lineNumber + 1)) with
      | none => none
      | some (task, lineErrors) =>
        if lineErrors.length > 0 then
          parseLoop tm env columnMap textCol (lineNumber + 1) rest tasks (errors ++ lineErrors)
        else if task.Text ≠ "" then
          parseLoop tm env columnMap textCol (lineNumber + 1) rest (tasks ++ [task]) errors
        else parseLoop tm env columnMap textCol (lineNumber + 1) rest tasks errors

/-- The method `parseCSV`; nothing is returned where the program panics. -/
def TodoManager.parseCSV (tm : TodoManager) (env : ImportEnv) (file : CsvFile) :
    Option (List Task × List String) :=
  match file.openError with
  | some err => some ([], ["impossible d'ouvrir le fichier: " ++ err])
  | none =>
    match file.header with
    | .error err => some ([], ["impossible de lire l'en-tête CSV: " ++ err])
    | .ok headers =>
      let columnMap := columnMapFrom env.lower 0 (fun _ => none) headers
      match columnMap "text" with
      | none => some ([], ["colonne 'Text' obligatoire manquante dans le CSV"])
      | some textCol => parseLoop tm env columnMap textCol 1 file.records [] []

/-- The method `ImportCSV` on a file: `parseCSV`, then the reconciliation of
the parsed rows. Nothing is returned where the program panics. -/
def TodoManager.importCSVFile (tm : TodoManager) (filename : String) (file : CsvFile)
    (mode conflict : String) (options : ImportOptions) (env : ImportEnv) :
    Option (TodoManager × Option ImportResult × Option String) :=
  if !env.fileExists then
    some (tm.ImportCSV filename false [] [] mode conflict options env.confirm env.spare
      (env.timeParse "2006-01-02 15:04:05") env.updateNow)
  else
    match tm.parseCSV env file with
    | none => none
    | some (tasks, parseErrors) =>
      some (tm.ImportCSV filename true tasks parseErrors mode conflict options env.confirm
        env.spare (env.timeParse "2006-01-02 15:04:05") env.updateNow)

/-! ## The library function time.Parse, for the layouts of this program -/

/-- An ASCII decimal digit (code points 48-57). -/
def isDigit (c : Char) : Bool := 48 ≤ c.toNat && c.toNat ≤ 57

/-- The value of a decimal digit. -/
def digitVal (c : Char) : Nat := c.toNat - 48

/-- The number a run of decimal digits denotes. -/
def digitsVal (ds : List Char) : Nat := ds.foldl (fun n c => 10 * n + digitVal c) 0

/-- The helper `getnum` of the library: a two-digit number, or a one-digit one
where the layout element is not of fixed width. -/
def getnum (s : List Char) (fixed : Bool) : Option (Nat × List Char) :=
  match s with
  | [] => none
  | [c1] => if isDigit c1 && !fixed then some (digitVal c1, []) else none
  | c1 :: c2 :: rest =>
    if !isDigit c1 then none
    else if isDigit c2 then some (digitVal c1 * 10 + digitVal c2, rest)
    else if fixed then none
    else some (digitVal c1, c2 :: rest)

/-- The elements of the layouts `2006-01-02`, `2006-01-02 15:04:05`,
`2006-01-02T15:04:05`, `2006-01-02 15:04` and `2006-01-02T15:04`. -/
inductive LayoutChunk where
  | year
  | month
  | day
  | hour
  | minute
  | second
  | lit (c : Char)
deriving DecidableEq, Repr

/-- The calendar fields read from a value. -/
structure ParsedTime where
  year : Nat
  month : Nat
  day : Nat
  hour : Nat
  min : Nat
  sec : Nat
  nsec : Nat
deriving DecidableEq, Repr

/-- The helper `skip` of the library on a one-character literal: a space of
the layout stands for any run of spaces of a value that does not start with
another character, any other character for itself. -/
def skipLit (c : Char) (value : List Char) : Option (List Char) :=
  match value with
  | [] => if c = ' ' then some [] else none
  | x :: rest =>
    if c = ' ' then (if x = ' ' then some ((x :: rest).dropWhile (fun y => y = ' ')) else none)
    else if x = c then some rest else none

/-- A fractional second right after the seconds, which the library accepts
even though the layout has none: a period or a comma and at least one digit.
Returns the nanoseconds (from the first nine digits) and the rest. -/
def fracSecond (value : List Char) : Nat × List Char :=
  match value with
  | sep :: d :: rest =>
    if (sep = '.' || sep = ',') && isDigit d then
      let digits := (d :: rest).takeWhile isDigit
      let used := digits.take 9
      (digitsVal used * 10 ^ (9 - used.length), (d :: rest).dropWhile isDigit)
    else (0, value)
  | _ => (0, value)

/-- The parsing loop of `time.Parse` over the elements of a layout. -/
def parseChunks : List LayoutChunk → List Char → ParsedTime → Option ParsedTime
  | [], value, t => if value = [] then some t else none
  | .lit c :: chunks, value, t =>
    match skipLit c value with
    | some rest => parseChunks chunks rest t
    | none => none
  | .year :: chunks, value, t =>
    match value with
    | a :: b :: c :: d :: rest =>
      if isDigit a && isDigit b && isDigit c && isDigit d then
        parseChunks chunks rest { t with year := digitsVal [a, b, c, d] }
      else none
    | _ => none
  | .month :: chunks, value, t =>
    match getnum value true with
    | some (n, rest) =>
      if n = 0 || 12 < n then none else parseChunks chunks rest { t with month := n }
    | none => none
  | .day :: chunks, value, t =>
    match getnum value true with
    | some (n, rest) => parseChunks chunks rest { t with day := n }
    | none => none
  | .hour :: chunks, value, t =>
    match getnum value false with
    | some (n, rest) => if 24 ≤ n then none else parseChunks chunks rest { t with hour := n }
    | none => none
  | .minute :: chunks, value, t =>
    match getnum value true with
    | some (n, rest) => if 60 ≤ n then none else parseChunks chunks rest { t with min := n }
    | none => none
  | .second :: chunks, value, t =>
    match getnum value true with
    | some (n, rest) =>
      if 60 ≤ n then none
      else parseChunks chunks (fracSecond rest).2 { t with sec := n, nsec := (fracSecond rest).1 }
    | none => none

/-- The days of a month of the Gregorian calendar. -/
def daysIn (month year : Nat) : Nat :=
  if month = 2 then
    (if year % 4 = 0 && (year % 100 ≠ 0 || year % 400 = 0) then 29 else 28)
  else if month = 4 || month = 6 || month = 9 || month = 11 then 30
  else 31

/-- The elements of a layout string this program uses. -/
def layoutChunks (layout : String) : Option (List LayoutChunk) :=
  let date : List LayoutChunk := [.year, .lit '-', .month, .lit '-', .day]
  let hm : List LayoutChunk := [.hour, .lit ':', .minute]
  if layout = "2006-01-02" then some date
  else if layout = "2006-01-02 15:04:05" then some (date ++ .lit ' ' :: hm ++ [.lit ':', .second])
  else if layout = "2006-01-02T15:04:05" then some (date ++ .lit 'T' :: hm ++ [.lit ':', .second])
  else if layout = "2006-01-02 15:04" then some (date ++ .lit ' ' :: hm)
  else if layout = "2006-01-02T15:04" then some (date ++ .lit 'T' :: hm)
  else none

/-- The library function `time.Parse(layout, value)` for the five layouts of
this program (any other layout is outside the model and yields nothing). The
instant is returned as a number that grows with time: the UTC calendar fields
in mixed radix, down to the nanosecond. -/
def goTimeParse (layout value : String) : Option Int :=
  match layoutChunks layout with
  | none => none
  | some chunks =>
    match parseChunks chunks value.data ⟨0, 1, 1, 0, 0, 0, 0⟩ with
    | none => none
    | some t =>
      if t.day < 1 || daysIn t.month t.year < t.day then none
      else
        some ((((((t.year * 12 + (t.month - 1)) * 31 + (t.day - 1)) * 24 + t.hour) * 60
          + t.min) * 60 + t.sec) * 1000000000 + t.nsec : Nat)

/-! ## Sample inputs -/

/-- A process whose file is present, whose prompt is answered yes, whose task
slice is full (a slice literal or a freshly grown one), with ASCII lower-casing
and fixed clock readings. -/
def sampleEnv : ImportEnv :=
  { fileExists := true
    confirm := true
    spare := 0
    lower := Char.toLower
    timeParse := goTimeParse
    rowNow1 := fun _ => "2025-07-10 08:00:00"
    rowNow2 := fun _ => "2025-07-10 08:00:00"
    rowRnd := fun n i => n + i
    updateNow := fun _ => "2025-07-10 08:00:01" }

/-- The store of the import tests: one task, counter 2. -/
def sampleStore : TodoManager :=
  { Tasks := [⟨1, "123e4567-e89b-42d3-a456-426614174000", "Tâche existante", false, "", "",
               [], "2025-07-09 10:00:00", "2025-07-09 10:00:00"⟩],
    NextID := 2 }

/-- The header row of an export. -/
def exportHeader : List String :=
  ["ID", "UUID", "Text", "Done", "Priority", "Due", "Tags", "Created", "Updated"]

/-- The CSV file of the import tests: the first row carries the uuid of the
task of `sampleStore`, the second a uuid of its own. -/
def sampleFile : CsvFile :=
  { openError := none
    header := .ok exportHeader
    records :=
      [.ok ["1", "123e4567-e89b-42d3-a456-426614174000", "Tâche importée 1", "false", "high",
            "2025-07-25", "+import @test", "2025-07-09 12:00:00", "2025-07-09 12:00:00"],
       .ok ["2", "123e4567-e89b-42d3-a456-426614174002", "Tâche importée 2", "true", "medium",
            "", "@test", "2025-07-09 13:00:00", "2025-07-09 13:00:00"]] }

/-- The same file with its two rows exchanged: the new row first, the row that
carries the uuid of the stored task second. -/
def sampleFileNewFirst : CsvFile :=
  { openError := none
    header := .ok exportHeader
    records :=
      [.ok ["2", "123e4567-e89b-42d3-a456-426614174002", "Tâche importée 2", "true", "medium",
            "", "@test", "2025-07-09 13:00:00", "2025-07-09 13:00:00"],
       .ok ["1", "123e4567-e89b-42d3-a456-426614174000", "Tâche importée 1", "false", "high",
            "2025-07-25", "+import @test", "2025-07-09 12:00:00", "2025-07-09 12:00:00"]] }

/-- A file whose only row carries the uuid of the task of `sampleStore`. -/
def sampleFileCollision : CsvFile :=
  { openError := none
    header := .ok exportHeader
    records :=
      [.ok ["1", "123e4567-e89b-42d3-a456-426614174000", "Tâche importée 1", "false", "high",
            "2025-07-25", "+import @test", "2025-07-09 09:00:00", "2025-07-09 09:00:00"]] }

/-- The candidate `parseCSV` builds from the row of `sampleFileCollision` when
the counter is 2. -/
def sampleCollidingRow : Task :=
  ⟨2, "123e4567-e89b-42d3-a456-426614174000", "Tâche importée 1", false, "high", "2025-07-25",
    ["+import", "@test"], "2025-07-09 09:00:00", "2025-07-09 09:00:00"⟩

/-- A file whose only row has a priority outside high, medium, low. -/
def sampleFileBadPriority : CsvFile :=
  { openError := none
    header := .ok ["Text", "Priority"]
    records := [.ok ["Tâche importée 1", "urgent"]] }

/-! ## CSV export (main.go, lines 301-323) and the library reader -/

/-- The library function `strings.Join`, on character lists. -/
def joinWith (sep : List Char) : List (List Char) → List Char
  | [] => []
  | [x] => x
  | x :: y :: rest => x ++ sep ++ joinWith sep (y :: rest)

/-- The call `strings.ReplaceAll(s, "\"", "\"\"")`, on character lists. -/
def quoteDouble (s : List Char) : List Char :=
  s.flatMap (fun c => if c = '"' then ['"', '"'] else [c])

/-- One row of `ExportCSV`: the format `%d,%s,"%s",%t,%s,%s,"%s",%s,%s` filled
in (lines 307-317). -/
def exportLine (task : Task) : List Char :=
  (toString task.ID).data ++ ',' :: task.UUID.data ++ ',' :: '"' ::
    quoteDouble task.Text.data ++ '"' :: ',' ::
    (if task.Done then "true" else "false").data ++ ',' :: task.Priority.data ++ ',' ::
    task.Due.data ++ ',' :: '"' :: joinWith [' '] (task.Tags.map String.data) ++ '"' :: ',' ::
    task.Created.data ++ ',' :: task.Updated.data

/-- The method `ExportCSV`: the text written to the file. -/
def TodoManager.ExportCSV (tm : TodoManager) : String :=
  String.mk (joinWith ['\n']
    ("ID,UUID,Text,Done,Priority,Due,Tags,Created,Updated".data :: tm.Tasks.map exportLine))

/-- The line reading of the library `encoding/csv`: a carriage return before a
line feed, or at the very end of the input, is dropped. -/
def dropCR : List Char → List Char
  | [] => []
  | [c] => if c = '\r' then [] else [c]
  | c :: d :: rest => if c = '\r' && d = '\n' then '\n' :: dropCR rest else c :: dropCR (d :: rest)

/-- Where the reader of `encoding/csv` stands within a record. -/
inductive ReadState where
  | fieldStart
  | unquoted
  | quoted
  | quoteSeen
  | skipLine
deriving DecidableEq, Repr

/-- The reader of `encoding/csv` with the settings of `parseCSV` (comma
separated, quotes strict, any number of fields per record), as a scan of the
input: `cur` is the field being read, `fields` the fields of the record read so
far. An empty line gives no record; a quoted field may hold commas, line feeds
and doubled quotes; a quote inside an unquoted field, or a closing quote
followed by anything but a comma or the end of the line, fails the record and
the scan resumes on the next line. The position the library puts in front of
its error text is left out. -/
def readRecords : List Char → ReadState → List Char → List String →
    List (Except String (List String))
  | [], .fieldStart, _, fields => if fields = [] then [] else [.ok (fields ++ [""])]
  | [], .unquoted, cur, fields => [.ok (fields ++ [String.mk cur])]
  | [], .quoted, _, _ => [.error "extraneous or missing \" in quoted-field"]
  | [], .quoteSeen, cur, fields => [.ok (fields ++ [String.mk cur])]
  | [], .skipLine, _, _ => []
  | c :: rest, .fieldStart, _, fields =>
    if c = '"' then readRecords rest .quoted [] fields
    else if c = ',' then readRecords rest .fieldStart [] (fields ++ [""])
    else if c = '\n' then
      (if fields = [] then readRecords rest .fieldStart [] []
       else .ok (fields ++ [""]) :: readRecords rest .fieldStart [] [])
    else readRecords rest .unquoted [c] fields
  | c :: rest, .unquoted, cur, fields =>
    if c = ',' then readRecords rest .fieldStart [] (fields ++ [String.mk cur])
    else if c = '\n' then .ok (fields ++ [String.mk cur]) :: readRecords rest .fieldStart [] []
    else if c = '"' then
      .error "bare \" in non-quoted-field" :: readRecords rest .skipLine [] []
    else readRecords rest .unquoted (cur ++ [c]) fields
  | c :: rest, .quoted, cur, fields =>
    if c = '"' then readRecords rest .quoteSeen cur fields
    else readRecords rest .quoted (cur ++ [c]) fields
  | c :: rest, .quoteSeen, cur, fields =>
    if c = '"' then readRecords rest .quoted (cur ++ ['"']) fields
    else if c = ',' then readRecords rest .fieldStart [] (fields ++ [String.mk cur])
    else if c = '\n' then .ok (fields ++ [String.mk cur]) :: readRecords rest .fieldStart [] []
    else .error "extraneous or missing \" in quoted-field" :: readRecords rest .skipLine [] []
  | c :: rest, .skipLine, _, _ =>
    if c = '\n' then readRecords rest .fieldStart [] [] else readRecords rest .skipLine [] []

/-- A file with the given content, as `parseCSV` meets it through the reader:
the first record is the header, the others follow. -/
def readCSV (content : String) : CsvFile :=
  match readRecords (dropCR content.data) .fieldStart [] [] with
  | [] => { openError := none, header := .error "EOF", records := [] }
  | header :: records => { openError := none, header := header, records := records }

/-- The fields of the record that `exportLine` writes. -/
def exportRecord (task : Task) : List String :=
  [toString task.ID, task.UUID, task.Text, if task.Done then "true" else "false",
   task.Priority, task.Due, String.mk (joinWith [' '] (task.Tags.map String.data)),
   task.Created, task.Updated]

/-- A string that can stand unquoted in a CSV row: no comma, no double quote,
no line break. -/
def plainField (s : String) : Bool :=
  s.data.all (fun c => c ≠ ',' && c ≠ '"' && c ≠ '\n' && c ≠ '\r')

/-- A task that an export followed by an import hands back: its text is not
empty, has no space at either end and no carriage return; its uuid has the
version-4 shape; its priority is unset, high, medium or low; its tags start
with `+` or `@` and hold neither a space nor a double quote; its due date and
its two stamps can stand unquoted and pass the validation of the import. -/
def roundTripReady (timeParse : String → String → Option Int) (t : Task) : Bool :=
  decide (t.Text ≠ "") && decide (TrimSpace t.Text = t.Text) &&
  t.Text.data.all (fun c => c ≠ '\r') &&
  isValidUUID Char.toLower t.UUID &&
  (t.Priority = "" || t.Priority = "high" || t.Priority = "medium" || t.Priority = "low") &&
  plainField t.Due && validateDate timeParse (TrimSpace t.Due) &&
  t.Tags.all (fun tag =>
    (HasPrefix tag "+" || HasPrefix tag "@") && tag.data.all (fun c => !isSpace c && c ≠ '"')) &&
  plainField t.Created &&
  (TrimSpace t.Created = "" || isValidDateTime timeParse (TrimSpace t.Created)) &&
  plainField t.Updated &&
  (TrimSpace t.Updated = "" || isValidDateTime timeParse (TrimSpace t.Updated))

/-- The conditions under which the reader gives back the fields of an exported row. -/
def Readable (t : Task) : Prop :=
  (∀ c ∈ t.UUID.data, c ≠ ',' ∧ c ≠ '"' ∧ c ≠ '\n' ∧ c ≠ '\r') ∧
  (∀ c ∈ t.Priority.data, c ≠ ',' ∧ c ≠ '"' ∧ c ≠ '\n' ∧ c ≠ '\r') ∧
  (∀ c ∈ t.Due.data, c ≠ ',' ∧ c ≠ '"' ∧ c ≠ '\n' ∧ c ≠ '\r') ∧
  (∀ c ∈ t.Created.data, c ≠ ',' ∧ c ≠ '"' ∧ c ≠ '\n' ∧ c ≠ '\r') ∧
  (∀ c ∈ t.Updated.data, c ≠ ',' ∧ c ≠ '"' ∧ c ≠ '\n' ∧ c ≠ '\r') ∧
  (∀ tag ∈ t.Tags, ∀ c ∈ tag.data, c ≠ '"' ∧ c ≠ '\r') ∧
  (∀ c ∈ t.Text.data, c ≠ '\r')

/-- What the round trip compares: text, done, priority, tags and uuid. -/
def roundTripKey (t : Task) : String × Bool × String × List String × String :=
  (t.Text, t.Done, t.Priority, t.Tags, t.UUID)

/-- On ASCII, `unicode.ToLower` maps the capital letters A-Z to a-z and nothing else. -/
def AsciiLower (lower : Char → Char) : Prop :=
  ∀ c : Char, c.toNat < 128 → lower c = c.toLower

/-- The store of the round-trip test: three tasks, the second with double
quotes in its text and marked done. -/
def sampleRoundTrip : TodoManager :=
  { Tasks := [⟨1, "123e4567-e89b-42d3-a456-426614174001", "Tâche avec émojis 🚀", false, "high",
               "2025-07-20", ["+emoji", "@test"], "2025-07-09 10:00:00", "2025-07-09 10:00:00"⟩,
              ⟨2, "123e4567-e89b-42d3-a456-426614174002", "Tâche avec \"guillemets\"", true,
               "medium", "", ["+quotes"], "2025-07-09 10:00:00", "2025-07-09 10:00:05"⟩,
              ⟨3, "123e4567-e89b-42d3-a456-426614174003", "Tâche avec caractères spéciaux àéèç",
               false, "low", "2025-12-31", ["+unicode"], "2025-07-09 10:00:01",
               "2025-07-09 10:00:01"⟩],
    NextID := 4 }

/-- A store whose only task has a text that starts with a space. -/
def sampleLeadingSpace : TodoManager :=
  { Tasks := [⟨1, "123e4567-e89b-42d3-a456-426614174001", " Acheter du pain", false, "", "", [],
               "2025-07-09 10:00:00", "2025-07-09 10:00:00"⟩],
    NextID := 2 }

/-! ## The lines of a text (the export test, todo_manager_test.go, line 613) -/

/-- The scan of `strings.Split(s, "\n")`, the call the export test counts the
lines with: `cur` is the line being read. -/
def linesFrom : List Char → List Char → List (List Char)
  | [], cur => [cur]
  | c :: rest, cur =>
    if c = '\n' then cur :: linesFrom rest [] else linesFrom rest (cur ++ [c])

/-- The lines of a text: the pieces between its line feeds. -/
def textLines (s : String) : List (List Char) := linesFrom s.data []

/-- The string fields of a task, as `ExportCSV` reads them. -/
def stringFields (t : Task) : List String :=
  t.UUID :: t.Text :: t.Priority :: t.Due :: t.Created :: t.Updated :: t.Tags

/-- No string field of the task holds a line feed. -/
def NoLineFeed (t : Task) : Prop := ∀ s ∈ stringFields t, '\n' ∉ s.data

instance (t : Task) : Decidable (NoLineFeed t) :=
  inferInstanceAs (Decidable (∀ s ∈ stringFields t, '\n' ∉ s.data))

/-! ## More sample inputs -/

/-- A store whose only task carries a tag with a double quote in it (the tag
an argument such as `+a"b` of the command add becomes). -/
def sampleQuotedTag : TodoManager :=
  { Tasks := [⟨1, "123e4567-e89b-42d3-a456-426614174001", "Lire", false, "", "", ["+a\"b"],
               "2025-07-09 10:00:00", "2025-07-09 10:00:00"⟩],
    NextID := 2 }

/-- A file whose header has no text column: the tasks are under `Title`. -/
def sampleFileNoText : CsvFile :=
  { openError := none
    header := .ok ["ID", "Title", "Priority"]
    records := [.ok ["1", "Tâche importée 1", "high"], .ok ["2", "Tâche importée 2", "low"]] }

/-- A file whose first data row has a single field, fewer than the index of
the text column asks for. -/
def sampleFileShortRow : CsvFile :=
  { openError := none
    header := .ok ["ID", "Text"]
    records := [.ok ["1"], .ok ["2", "Tâche importée 2"]] }

/-- A header and a record of the same length, column by column: the name of
each column with the field of the record under it. The file of the import
tests, with its first data row. -/
def sampleColumns : List (String × String) :=
  [("ID", "1"), ("UUID", "123e4567-e89b-42d3-a456-426614174000"), ("Text", "Tâche importée 1"),
   ("Done", "false"), ("Priority", "high"), ("Due", "2025-07-25"), ("Tags", "+import @test"),
   ("Created", "2025-07-09 12:00:00"), ("Updated", "2025-07-09 12:00:00")]

/-- The same columns in another order and with the names in another letter case. -/
def sampleColumnsMoved : List (String × String) :=
  [("TEXT", "Tâche importée 1"), ("tags", "+import @test"), ("id", "1"),
   ("uuid", "123e4567-e89b-42d3-a456-426614174000"), ("updated", "2025-07-09 12:00:00"),
   ("DONE", "false"), ("created", "2025-07-09 12:00:00"), ("due", "2025-07-25"),
   ("PRIORITY", "high")]

/-! ## Due dates as the specification words them -/

/-- A leap year of the Gregorian calendar: divisible by 4 and not by 100, or
divisible by 400. -/
def specLeapYear (year : Nat) : Bool :=
  (year % 4 = 0 && year % 100 ≠ 0) || year % 400 = 0

/-- The number of days of each month of the Gregorian calendar, January first. -/
def specMonthLength (year month : Nat) : Nat :=
  [31, if specLeapYear year then 29 else 28, 31, 30, 31, 30, 31, 31, 30, 31, 30, 31].getD
    (month - 1) 0

/-- The rule for due dates in the words of the specification: the string is
empty, or it has the form YYYY-MM-DD (four, two and two decimal digits with
dashes between them) and names a day that exists in the Gregorian calendar. -/
def specValidDate (s : String) : Bool :=
  s = "" ||
    match s.data with
    | [y1, y2, y3, y4, s1, m1, m2, s2, d1, d2] =>
      isDigit y1 && isDigit y2 && isDigit y3 && isDigit y4 && s1 = '-' &&
      isDigit m1 && isDigit m2 && s2 = '-' && isDigit d1 && isDigit d2 &&
      1 ≤ digitsVal [m1, m2] && digitsVal [m1, m2] ≤ 12 &&
      1 ≤ digitsVal [d1, d2] &&
      digitsVal [d1, d2] ≤ specMonthLength (digitsVal [y1, y2, y3, y4]) (digitsVal [m1, m2])
    | _ => false

/-! ## parsePriority (main.go, lines 325-337) -/

/-- The function `parsePriority`: the switch on the lower-cased argument. -/
def parsePriority (lower : Char → Char) (priority : String) : String :=
  let p := ToLower lower priority
  if p = "h" || p = "high" || p = "haute" then "high"
  else if p = "m" || p = "medium" || p = "moyenne" then "medium"
  else if p = "l" || p = "low" || p = "basse" then "low"
  else ""

/-- Two strings compared without regard to letter case: they are equal once
lower-cased. -/
def equalFold (lower : Char → Char) (a b : String) : Prop :=
  ToLower lower a = ToLower lower b

/-- A file whose two rows carry one and the same uuid, which `sampleStore`
does not hold. -/
def sampleFileTwins : CsvFile :=
  { openError := none
    header := .ok exportHeader
    records :=
      [.ok ["1", "123e4567-e89b-42d3-a456-426614174005", "Tâche importée 1", "false", "high",
            "2025-07-25", "+import @test", "2025-07-09 12:00:00", "2025-07-09 12:00:00"],
       .ok ["2", "123e4567-e89b-42d3-a456-426614174005", "Tâche importée 2", "true", "medium",
            "", "@test", "2025-07-09 13:00:00", "2025-07-09 13:00:00"]] }

/-- A time of day written as two digits, a colon and two digits, below 24 hours
and 60 minutes. -/
def specHourMinute (h1 h2 c n1 n2 : Char) : Bool :=
  isDigit h1 && isDigit h2 && c = ':' && isDigit n1 && isDigit n2 &&
    digitsVal [h1, h2] < 24 && digitsVal [n1, n2] < 60

/-- The four timestamp shapes of the specification: a valid date YYYY-MM-DD, a
space or the letter T, a time of day HH:MM, and optionally a colon and the
seconds SS below 60. -/
def specValidDateTime (s : String) : Bool :=
  match s.data with
  | y1 :: y2 :: y3 :: y4 :: s1 :: m1 :: m2 :: s2 :: d1 :: d2 :: sep :: h1 :: h2 :: c :: n1 ::
      n2 :: rest =>
    specValidDate ⟨[y1, y2, y3, y4, s1, m1, m2, s2, d1, d2]⟩ && (sep = ' ' || sep = 'T') &&
      specHourMinute h1 h2 c n1 n2 &&
      (match rest with
       | [] => true
       | [c2, e1, e2] => c2 = ':' && isDigit e1 && isDigit e2 && digitsVal [e1, e2] < 60
       | _ => false)
  | _ => false

/-- The shape of a version-4 uuid in the words of the specification: five
groups of 8, 4, 4, 4 and 12 lowercase hexadecimal digits separated by dashes,
the third group starting with 4, the fourth with 8, 9, a or b. -/
def SpecUUIDShape (l : List Char) : Prop :=
  ∃ g1 g2 g3 g4 g5 : List Char,
    l = g1 ++ '-' :: g2 ++ '-' :: g3 ++ '-' :: g4 ++ '-' :: g5 ∧
    g1.length = 8 ∧ g2.length = 4 ∧ g3.length = 4 ∧ g4.length = 4 ∧ g5.length = 12 ∧
    (∀ c ∈ g1 ++ g2 ++ g3 ++ g4 ++ g5, isHexLower c = true) ∧
    g3.head? = some '4' ∧
    (g4.head? = some '8' ∨ g4.head? = some '9' ∨ g4.head? = some 'a' ∨ g4.head? = some 'b')

/-- The whitespace-separated tokens of a string: the non-empty pieces between
its whitespace characters, in order. -/
def specTokens (s : String) : List String :=
  ((s.data.splitOnP isSpace).filter (fun w => w ≠ [])).map String.mk

/-- The rule for the tags column in the words of the specification: the tokens
that start with `+` or `@`, the others discarded. -/
def specParseTags (s : String) : List String :=
  (specTokens s).filter (fun w => HasPrefix w "+" || HasPrefix w "@")

/-! ## The round trip of one row -/

/-- Only ASCII characters are lower-cased by `unicode.ToLower` to a hexadecimal
digit or a dash. -/
def HexFromAscii (lower : Char → Char) : Prop :=
  ∀ c : Char, (isHexLower (lower c) = true ∨ lower c = '-') → c.toNat < 128

/-- A stamp of the form YYYY-MM-DD HH:MM:SS, the form in which `Add` and the
other operations write the creation and update times: nineteen characters, a
space between the date and the time. -/
def specStamp (s : String) : Bool :=
  specValidDateTime s && s.data.length = 19 && s.data.get? 10 = some ' '

/-- The first task of the round-trip test. -/
def sampleExported : Task :=
  ⟨1, "123e4567-e89b-42d3-a456-426614174001", "Tâche avec émojis 🚀", false, "high",
    "2025-07-20", ["+emoji", "@test"], "2025-07-09 10:00:00", "2025-07-09 10:00:05"⟩

/-! ## Loading the store (main.go, lines 66-98) and the library decoder -/

/-- A JSON text that has passed the syntax check of `json.Unmarshal`, as the
decoder walks it: literals, arrays, and objects with their members in the order
of the text. A number keeps its literal, a string is already unescaped. -/
inductive Json where
  | null
  | bool (b : Bool)
  | number (literal : String)
  | string (s : String)
  | array (items : List Json)
  | object (members : List (String × Json))

/-- What `ioutil.ReadFile` and the syntax check at the head of
`json.Unmarshal` make of the store file: the file cannot be read, its content
is not a JSON text, or it is one. -/
inductive StoreFile where
  | missing
  | notJson
  | document (doc : Json)

/-- The library call `strconv.ParseInt(literal, 10, 64)` on the literal of a
JSON number: an optional minus sign and decimal digits, within 64 bits. A
literal with a fraction or an exponent is an error. -/
def parseInt64 (literal : String) : Option Int :=
  let neg := literal.data.head? = some '-'
  let digits := if neg then literal.data.drop 1 else literal.data
  if digits ≠ [] ∧ digits.all isDigit then
    let v : Int := if neg then -(digitsVal digits : Int) else (digitsVal digits : Int)
    if -9223372036854775808 ≤ v ∧ v ≤ 9223372036854775807 then some v else none
  else none

/-- The decoder on a field of type `int`: a number that `ParseInt` accepts is
stored; for anything else the field keeps its value (the type error is saved
and decoding goes on; `null` is ignored). -/
def decodeInt (value : Json) (old : Int) : Int :=
  match value with
  | .number literal => (parseInt64 literal).getD old
  | _ => old

/-- The decoder on a field of type `string`. -/
def decodeString (value : Json) (old : String) : String :=
  match value with
  | .string s => s
  | _ => old

/-- The decoder on a field of type `bool`. -/
def decodeBool (value : Json) (old : Bool) : Bool :=
  match value with
  | .bool b => b
  | _ => old

/-- The decoder on a field of type `[]string` that holds no array yet: `null`
gives the nil slice, an array gives one string per element (an element that is
not a string stays empty), anything else leaves the field as it is. -/
def decodeStrings (value : Json) (old : List String) : List String :=
  match value with
  | .null => []
  | .array items => items.map (fun item => decodeString item "")
  | _ => old

/-- The field a key of an object is decoded into: the field whose name is the
key, or else the first field whose name equals the key under `foldEq`, the
case-insensitive comparison of the library. -/
def findField (foldEq : String → String → Bool) (names : List String) (key : String) :
    Option String :=
  if key ∈ names then some key else names.find? (fun name => foldEq key name)

/-- The names under which the fields of `Task` are decoded (the `json` tags). -/
def taskFields : List String :=
  ["id", "uuid", "text", "done", "priority", "due", "tags", "created", "updated"]

/-- The zero value of `Task`, which a new element of a slice starts from. -/
def zeroTask : Task := ⟨0, "", "", false, "", "", [], "", ""⟩

/-- One member of an object decoded into a `Task`; a key that names no field
is skipped. -/
def decodeTaskMember (foldEq : String → String → Bool) (task : Task) (member : String × Json) :
    Task :=
  match findField foldEq taskFields member.1 with
  | none => task
  | some field =>
    if field = "id" then { task with ID := decodeInt member.2 task.ID }
    else if field = "uuid" then { task with UUID := decodeString member.2 task.UUID }
    else if field = "text" then { task with Text := decodeString member.2 task.Text }
    else if field = "done" then { task with Done := decodeBool member.2 task.Done }
    else if field = "priority" then { task with Priority := decodeString member.2 task.Priority }
    else if field = "due" then { task with Due := decodeString member.2 task.Due }
    else if field = "tags" then { task with Tags := decodeStrings member.2 task.Tags }
    else if field = "created" then { task with Created := decodeString member.2 task.Created }
    else { task with Updated := decodeString member.2 task.Updated }

/-- The decoder on a new element of `[]Task`: an object fills the fields its
keys name, in the order of the text; any other value leaves the zero task (the
type error is saved, the element stays in the slice). An object that names the
field `tags` more than once would decode the later array over the earlier one;
such a text is outside this model and yields nothing. -/
def decodeTask (foldEq : String → String → Bool) (item : Json) : Option Task :=
  match item with
  | .object members =>
    if (members.filter (fun m => findField foldEq taskFields m.1 = some "tags")).length ≤ 1 then
      some (members.foldl (decodeTaskMember foldEq) zeroTask)
    else none
  | _ => some zeroTask

/-- The names under which the fields of `TodoManager` are decoded; the field
`filename` is not exported and never decoded. -/
def managerFields : List String := ["tasks", "nextId"]

/-- One member of the top-level object decoded into the manager. For the field
`tasks`, `null` gives the nil slice, an array one task per element, anything
else a saved type error and no change. -/
def decodeManagerMember (foldEq : String → String → Bool) (tm : TodoManager)
    (member : String × Json) : Option TodoManager :=
  match findField foldEq managerFields member.1 with
  | none => some tm
  | some field =>
    if field = "nextId" then some { tm with NextID := decodeInt member.2 tm.NextID }
    else
      match member.2 with
      | .null => some { tm with Tasks := [] }
      | .array items => (items.mapM (decodeTask foldEq)).map (fun tasks => { tm with Tasks := tasks })
      | _ => some tm

/-- The library call `json.Unmarshal(data, tm)` on a text that has passed the
syntax check, for a manager whose task slice is empty and without capacity, as
`NewTodoManager` builds it. A top-level value that is not an object leaves the
manager as it is; an object is decoded member by member, each type error being
saved while decoding goes on. A manager that holds tasks already, whose
elements the decoder would write over, and a text that names the field `tasks`
more than once are outside this model and yield nothing. -/
def unmarshal (foldEq : String → String → Bool) (doc : Json) (tm : TodoManager) :
    Option TodoManager :=
  match doc with
  | .object members =>
    if tm.Tasks = [] ∧
        (members.filter (fun m => findField foldEq managerFields m.1 = some "tasks")).length ≤ 1
    then members.foldlM (decodeManagerMember foldEq) tm
    else none
  | _ => some tm

/-- The method `load`: a file that cannot be read ends the call; otherwise the
content goes to `json.Unmarshal`, whose error is dropped. A text that fails the
syntax check is rejected before anything is written. -/
def TodoManager.load (tm : TodoManager) (foldEq : String → String → Bool) (file : StoreFile) :
    Option TodoManager :=
  match file with
  | .missing => some tm
  | .notJson => some tm
  | .document doc => unmarshal foldEq doc tm

/-- The function `NewTodoManager`: the manager with no task and counter 1, then
`load`. -/
def NewTodoManager (foldEq : String → String → Bool) (file : StoreFile) : Option TodoManager :=
  TodoManager.empty.load foldEq file

/-! ## Invariants used in the proofs -/

/-- Every id in the list is below the counter. -/
def idsBelow (l : List Task) (n : Int) : Prop := ∀ t ∈ l, t.ID < n

/-- What a sequence of Add and Remove calls maintains: the counter is one more
than the number of Adds so far, the ids are positive, below the counter, and
strictly increasing along the store. -/
def addRemoveInv (n : Nat) (tm : TodoManager) : Prop :=
  tm.NextID = 1 + (n : Int) ∧ (∀ t ∈ tm.Tasks, 1 ≤ t.ID ∧ t.ID < tm.NextID) ∧
    (tm.Tasks.map Task.ID).Pairwise (· < ·)

/-! ## Helper lemmas: the loops of Done, Remove and Edit -/

theorem doneLoop_absent (id : Int) (now : String) (l : List Task)
    (h : ∀ t ∈ l, t.ID ≠ id) : doneLoop id now l = l := by
  induction l with
  | nil => rfl
  | cons a l ih =>
    have ha : a.ID ≠ id := h a (List.mem_cons_self a l)
    have hl : ∀ t ∈ l, t.ID ≠ id := fun t ht => h t (List.mem_cons_of_mem a ht)
    simp [doneLoop, ha, ih hl]

theorem removeLoop_absent (id : Int) (l : List Task)
    (h : ∀ t ∈ l, t.ID ≠ id) : removeLoop id l = l := by
  induction l with
  | nil => rfl
  | cons a l ih =>
    have ha : a.ID ≠ id := h a (List.mem_cons_self a l)
    have hl : ∀ t ∈ l, t.ID ≠ id := fun t ht => h t (List.mem_cons_of_mem a ht)
    simp [removeLoop, ha, ih hl]

theorem editLoop_absent (id : Int) (newText : String) (tags : List String) (now : String)
    (l : List Task) (h : ∀ t ∈ l, t.ID ≠ id) : editLoop id newText tags now l = l := by
  induction l with
  | nil => rfl
  | cons a l ih =>
    have ha : a.ID ≠ id := h a (List.mem_cons_self a l)
    have hl : ∀ t ∈ l, t.ID ≠ id := fun t ht => h t (List.mem_cons_of_mem a ht)
    simp [editLoop, ha, ih hl]

/-- A list holding a task with the given id splits at the first such task. -/
theorem split_first (id : Int) (l : List Task) (h : ∃ t ∈ l, t.ID = id) :
    ∃ before task after, l = before ++ task :: after ∧ (∀ x ∈ before, x.ID ≠ id) ∧
      task.ID = id := by
  induction l with
  | nil => obtain ⟨t, ht, _⟩ := h; cases ht
  | cons a l ih =>
    by_cases ha : a.ID = id
    · exact ⟨[], a, l, rfl, by simp, ha⟩
    · have hl : ∃ t ∈ l, t.ID = id := by
        obtain ⟨t, ht, hid⟩ := h
        rcases List.mem_cons.mp ht with rfl | ht
        · exact absurd hid ha
        · exact ⟨t, ht, hid⟩
      obtain ⟨before, task, after, hsplit, hbefore, htask⟩ := ih hl
      refine ⟨a :: before, task, after, by simp [hsplit], ?_, htask⟩
      intro x hx
      rcases List.mem_cons.mp hx with rfl | hx
      · exact ha
      · exact hbefore x hx

theorem doneLoop_split (id : Int) (now : String) (before after : List Task) (task : Task)
    (hb : ∀ x ∈ before, x.ID ≠ id) (ht : task.ID = id) :
    doneLoop id now (before ++ task :: after)
      = before ++ { task with Done := true, Updated := now } :: after := by
  induction before with
  | nil => simp [doneLoop, ht]
  | cons a l ih =>
    have ha : a.ID ≠ id := hb a (List.mem_cons_self a l)
    have hl : ∀ x ∈ l, x.ID ≠ id := fun x hx => hb x (List.mem_cons_of_mem a hx)
    simp [doneLoop, ha, ih hl]

theorem removeLoop_split (id : Int) (before after : List Task) (task : Task)
    (hb : ∀ x ∈ before, x.ID ≠ id) (ht : task.ID = id) :
    removeLoop id (before ++ task :: after) = before ++ after := by
  induction before with
  | nil => simp [removeLoop, ht]
  | cons a l ih =>
    have ha : a.ID ≠ id := hb a (List.mem_cons_self a l)
    have hl : ∀ x ∈ l, x.ID ≠ id := fun x hx => hb x (List.mem_cons_of_mem a hx)
    simp [removeLoop, ha, ih hl]

theorem editLoop_split (id : Int) (newText : String) (tags : List String) (now : String)
    (before after : List Task) (task : Task)
    (hb : ∀ x ∈ before, x.ID ≠ id) (ht : task.ID = id) :
    editLoop id newText tags now (before ++ task :: after)
      = before ++ { task with Text := newText, Tags := tags, Updated := now } :: after := by
  induction before with
  | nil => simp [editLoop, ht]
  | cons a l ih =>
    have ha : a.ID ≠ id := hb a (List.mem_cons_self a l)
    have hl : ∀ x ∈ l, x.ID ≠ id := fun x hx => hb x (List.mem_cons_of_mem a hx)
    simp [editLoop, ha, ih hl]

theorem doneLoop_ids (id : Int) (now : String) (l : List Task) :
    (doneLoop id now l).map Task.ID = l.map Task.ID := by
  induction l with
  | nil => rfl
  | cons a l ih =>
    by_cases ha : a.ID = id
    · simp [doneLoop, ha]
    · simp [doneLoop, ha, ih]

theorem editLoop_ids (id : Int) (newText : String) (tags : List String) (now : String)
    (l : List Task) : (editLoop id newText tags now l).map Task.ID = l.map Task.ID := by
  induction l with
  | nil => rfl
  | cons a l ih =>
    by_cases ha : a.ID = id
    · simp [editLoop, ha]
    · simp [editLoop, ha, ih]

theorem removeLoop_sublist (id : Int) (l : List Task) : (removeLoop id l).Sublist l := by
  induction l with
  | nil => exact List.Sublist.refl _
  | cons a l ih =>
    by_cases ha : a.ID = id
    · simp [removeLoop, ha]
    · simp [removeLoop, ha, ih]

/-! ## Helper lemmas: the counter stays above every id -/

theorem modifyAt_ids (f : Task → Task) (hf : ∀ e, (f e).ID = e.ID) (i : Nat) (l : List Task) :
    (modifyAt f i l).map Task.ID = l.map Task.ID := by
  induction l generalizing i with
  | nil => cases i <;> rfl
  | cons a l ih =>
    cases i with
    | zero => simp [modifyAt, hf]
    | succ i => simp [modifyAt, ih]

theorem idsBelow_of_ids {l l2 : List Task} {n : Int} (h : l2.map Task.ID = l.map Task.ID)
    (hl : idsBelow l n) : idsBelow l2 n := by
  intro t ht
  have hmem : t.ID ∈ l.map Task.ID := h ▸ List.mem_map_of_mem Task.ID ht
  obtain ⟨u, hu, hid⟩ := List.mem_map.mp hmem
  exact hid ▸ hl u hu

theorem idsBelow_mono {l : List Task} {n m : Int} (hl : idsBelow l n) (hnm : n ≤ m) :
    idsBelow l m := fun t ht => lt_of_lt_of_le (hl t ht) hnm

theorem update_ids (st : ImportState) (i : Nat) (csvTask : Task) (now : String) :
    (st.update i csvTask now).Tasks.map Task.ID = st.Tasks.map Task.ID ∧
      (st.update i csvTask now).NextID = st.NextID := by
  refine ⟨?_, rfl⟩
  by_cases hs : st.shared = true
  · simp [ImportState.update, hs]
    exact modifyAt_ids (fun e => updateExistingTask e csvTask now) (fun e => rfl) i st.Tasks
  · simp [ImportState.update, hs]

/-- The method `processImportTask` keeps the ids of the store and never lowers the counter. -/
theorem processImportTask_ids (csvTask : Task) (existing : String → Option Nat)
    (conflict : String) (parseTime : String → Option Int) (now : String) (st : ImportState) :
    (processImportTask csvTask existing conflict parseTime now st).1.Tasks.map Task.ID
        = st.Tasks.map Task.ID ∧
      st.NextID ≤ (processImportTask csvTask existing conflict parseTime now st).1.NextID := by
  unfold processImportTask
  split
  · exact ⟨rfl, by simp⟩
  · split
    · exact ⟨rfl, le_refl _⟩
    · split
      · exact ⟨(update_ids st _ csvTask now).1, le_of_eq (update_ids st _ csvTask now).2.symm⟩
      · split
        · split
          · split
            · exact ⟨(update_ids st _ csvTask now).1,
                le_of_eq (update_ids st _ csvTask now).2.symm⟩
            · exact ⟨rfl, le_refl _⟩
          · exact ⟨rfl, le_refl _⟩
        · exact ⟨rfl, le_refl _⟩

theorem append_idsBelow (st : ImportState) (csvTask : Task)
    (h : idsBelow st.Tasks st.NextID) :
    idsBelow (st.append csvTask).Tasks (st.append csvTask).NextID := by
  intro t ht
  simp only [ImportState.append, List.mem_append, List.mem_singleton] at ht ⊢
  rcases ht with ht | rfl
  · have := h t ht
    split <;> omega
  · split <;> omega

theorem importLoop_idsBelow (existing : String → Option Nat) (conflict : String)
    (options : ImportOptions) (parseTime : String → Option Int) (now : Nat → String)
    (rows : List Task) :
    ∀ (k : Nat) (st : ImportState), idsBelow st.Tasks st.NextID →
      idsBelow (importLoop existing conflict options parseTime now k rows st).Tasks
        (importLoop existing conflict options parseTime now k rows st).NextID := by
  induction rows with
  | nil => intro k st h; exact h
  | cons csvTask rest ih =>
    intro k st h
    simp only [importLoop]
    apply ih
    have hp := processImportTask_ids csvTask existing conflict parseTime (now k) st
    have h1 : idsBelow (processImportTask csvTask existing conflict parseTime (now k) st).1.Tasks
        (processImportTask csvTask existing conflict parseTime (now k) st).1.NextID :=
      idsBelow_mono (idsBelow_of_ids hp.1 h) hp.2
    split
    · exact append_idsBelow _ csvTask h1
    · exact h1

theorem ImportCSV_idsBelow (tm : TodoManager) (filename : String) (fileExists : Bool)
    (tasks : List Task) (parseErrors : List String) (mode conflict : String)
    (options : ImportOptions) (confirm : Bool) (spare : Nat)
    (parseTime : String → Option Int) (now : Nat → String)
    (h : idsBelow tm.Tasks tm.NextID) :
    idsBelow
      (tm.ImportCSV filename fileExists tasks parseErrors mode conflict options confirm spare
        parseTime now).1.Tasks
      (tm.ImportCSV filename fileExists tasks parseErrors mode conflict options confirm spare
        parseTime now).1.NextID := by
  unfold TodoManager.ImportCSV
  split
  · exact h
  · split
    · exact h
    · split
      · exact h
      · apply importLoop_idsBelow
        split
        · intro t ht; cases ht
        · exact h

theorem Cmd_run_idsBelow (tm : TodoManager) (c : Cmd) (h : idsBelow tm.Tasks tm.NextID) :
    idsBelow (c.run tm).Tasks (c.run tm).NextID := by
  cases c with
  | add rnd text tags priority due now1 now2 =>
    intro t ht
    simp only [Cmd.run, TodoManager.Add, List.mem_append, List.mem_singleton] at ht ⊢
    rcases ht with ht | rfl
    · have := h t ht; omega
    · simp
  | done id now =>
    exact idsBelow_of_ids (doneLoop_ids id now tm.Tasks) h
  | remove id =>
    intro t ht
    exact h t ((removeLoop_sublist id tm.Tasks).subset ht)
  | edit id newText tags now =>
    exact idsBelow_of_ids (editLoop_ids id newText tags now tm.Tasks) h
  | importCSV filename fileExists tasks parseErrors mode conflict options confirm spare
      parseTime now =>
    exact ImportCSV_idsBelow tm filename fileExists tasks parseErrors mode conflict options
      confirm spare parseTime now h

theorem foldl_run_idsBelow (cmds : List Cmd) :
    ∀ tm : TodoManager, idsBelow tm.Tasks tm.NextID →
      idsBelow (cmds.foldl Cmd.run tm).Tasks (cmds.foldl Cmd.run tm).NextID := by
  induction cmds with
  | nil => intro tm h; exact h
  | cons c cmds ih => intro tm h; exact ih _ (Cmd_run_idsBelow tm c h)

/-! ## The claims -/

/-- C1. In every store reached from the empty store (no task, counter 1) by a
sequence of Add, Done, Remove, Edit and ImportCSV calls, whatever the mode,
conflict strategy, dry-run flag and parsed rows of each import, the counter
NextID is strictly greater than the id of every task in the store. -/
theorem C1_nextId_above_every_id (cmds : List Cmd) :
    ∀ t ∈ (runAll cmds).Tasks, t.ID < (runAll cmds).NextID :=
  foldl_run_idsBelow cmds TodoManager.empty (by intro t ht; cases ht)

theorem C1_nextId_above_every_id_witness :
    sampleRow ∈ (runAll sampleCmds).Tasks ∧ sampleRow.ID < (runAll sampleCmds).NextID :=
  ⟨by decide, C1_nextId_above_every_id sampleCmds sampleRow (by decide)⟩

/-! ### Add and Remove sequences -/

theorem addRemoveInv_step (n : Nat) (tm : TodoManager) (c : AddRemove)
    (h : addRemoveInv n tm) : addRemoveInv (countAdds [c] + n) (c.toCmd.run tm) := by
  obtain ⟨hn, hb, hp⟩ := h
  cases c with
  | add rnd text tags priority due now1 now2 =>
    refine ⟨?_, ?_, ?_⟩
    · simp only [AddRemove.toCmd, Cmd.run, TodoManager.Add, countAdds]
      push_cast
      omega
    · intro t ht
      simp only [AddRemove.toCmd, Cmd.run, TodoManager.Add, List.mem_append,
        List.mem_singleton] at ht ⊢
      rcases ht with ht | rfl
      · have := hb t ht; omega
      · simp only; omega
    · simp only [AddRemove.toCmd, Cmd.run, TodoManager.Add, List.map_append, List.map_cons,
        List.map_nil]
      rw [List.pairwise_append]
      refine ⟨hp, List.pairwise_singleton _ _, ?_⟩
      intro a ha b hb2
      obtain ⟨t, ht, rfl⟩ := List.mem_map.mp ha
      rw [List.mem_singleton.mp hb2]
      exact (hb t ht).2
  | remove id =>
    have hsub := removeLoop_sublist id tm.Tasks
    refine ⟨?_, ?_, ?_⟩
    · simpa [AddRemove.toCmd, Cmd.run, TodoManager.Remove, countAdds] using hn
    · intro t ht
      exact hb t (hsub.subset ht)
    · exact hp.sublist (hsub.map Task.ID)

theorem addRemoveInv_foldl (calls : List AddRemove) :
    ∀ (n : Nat) (tm : TodoManager), addRemoveInv n tm →
      addRemoveInv (countAdds calls + n) ((calls.map AddRemove.toCmd).foldl Cmd.run tm) := by
  induction calls with
  | nil => intro n tm h; simpa [countAdds] using h
  | cons c calls ih =>
    intro n tm h
    have h1 := ih _ _ (addRemoveInv_step n tm c h)
    have hc : countAdds calls + (countAdds [c] + n) = countAdds (c :: calls) + n := by
      cases c
      · simp only [countAdds]; omega
      · simp only [countAdds]; omega
    rw [hc] at h1
    simpa using h1

theorem addRemoveInv_runAll (calls : List AddRemove) :
    addRemoveInv (countAdds calls) (runAll (calls.map AddRemove.toCmd)) := by
  have h0 : addRemoveInv 0 TodoManager.empty := by
    refine ⟨?_, ?_, ?_⟩
    · simp [TodoManager.empty]
    · intro t ht; cases ht
    · simp [TodoManager.empty]
  simpa [runAll] using addRemoveInv_foldl calls 0 TodoManager.empty h0

theorem countAdds_append (xs ys : List AddRemove) :
    countAdds (xs ++ ys) = countAdds xs + countAdds ys := by
  induction xs with
  | nil => simp [countAdds]
  | cons c xs ih =>
    cases c
    · show countAdds (xs ++ ys) + 1 = countAdds xs + 1 + countAdds ys
      omega
    · exact ih

/-- C2. Each Add raises NextID by exactly 1 and each Remove leaves it
unchanged; after every sequence of Add and Remove calls from the empty store
NextID is 1 plus the number of Adds made, the ids in the store are pairwise
distinct (strictly increasing in store order), and an id that was in the store
at any earlier point stays below the counter, hence below every id assigned
later, so it is never assigned again. Adding three tasks, removing id 2 and
adding once more leaves the ids 1, 3, 4. -/
theorem C2_add_remove_ids :
    (∀ (tm : TodoManager) (rnd : Nat → Nat) (text : String) (tags : List String)
        (priority due now1 now2 : String),
        (tm.Add rnd text tags priority due now1 now2).NextID = tm.NextID + 1) ∧
    (∀ (tm : TodoManager) (id : Int), (tm.Remove id).NextID = tm.NextID) ∧
    (∀ calls : List AddRemove,
        (runAll (calls.map AddRemove.toCmd)).NextID = 1 + (countAdds calls : Int) ∧
        ((runAll (calls.map AddRemove.toCmd)).Tasks.map Task.ID).Nodup ∧
        ((runAll (calls.map AddRemove.toCmd)).Tasks.map Task.ID).Pairwise (· < ·)) ∧
    (∀ (calls later : List AddRemove), ∀ t ∈ (runAll (calls.map AddRemove.toCmd)).Tasks,
        t.ID < (runAll ((calls ++ later).map AddRemove.toCmd)).NextID) ∧
    (runAll [Cmd.add (fun _ => 0) "Tâche 1" [] "" "" "t1" "t1",
             Cmd.add (fun _ => 0) "Tâche 2" [] "" "" "t2" "t2",
             Cmd.add (fun _ => 0) "Tâche 3" [] "" "" "t3" "t3",
             Cmd.remove 2,
             Cmd.add (fun _ => 0) "Tâche 4" [] "" "" "t4" "t4"]).Tasks.map Task.ID
      = [1, 3, 4] := by
  refine ⟨fun _ _ _ _ _ _ _ _ => rfl, fun _ _ => rfl, ?_, ?_, by decide⟩
  · intro calls
    obtain ⟨hn, _, hp⟩ := addRemoveInv_runAll calls
    exact ⟨hn, (hp.imp (fun h => ne_of_lt h)), hp⟩
  · intro calls later t ht
    obtain ⟨hn, hb, _⟩ := addRemoveInv_runAll calls
    obtain ⟨hn2, _, _⟩ := addRemoveInv_runAll (calls ++ later)
    have := (hb t ht).2
    rw [hn2, countAdds_append]
    rw [hn] at this
    push_cast
    omega

/-! ### Add -/

/-- C3 as stated fails: Add reads the clock once for `created` and once more
for `updated`; with the first reading at 23:59:59 and the second at 00:00:00
the task added to the empty store has created ≠ updated. -/
theorem C3_created_updated_differ :
    ∃ t : Task,
      (TodoManager.empty.Add (fun _ => 0) "Ma tâche" [] "" "" "2025-07-20 23:59:59"
        "2025-07-21 00:00:00").Tasks = [t] ∧ t.Created ≠ t.Updated :=
  ⟨_, rfl, by decide⟩

/-- Below the largest `int` the statement `n++` adds one. -/
theorem incrInt_below (n : Int) (hlo : minInt ≤ n) (hhi : n < maxInt) : incrInt n = n + 1 := by
  unfold incrInt
  unfold minInt at hlo
  unfold maxInt at hhi
  rw [Int.emod_eq_of_lt (by omega) (by omega)]
  omega

/-- At the largest `int` the statement `n++` wraps to the least one. A store
file can carry that counter: `load` stores every number of 64 bits. -/
theorem incrInt_maxInt (foldEq : String → String → Bool) :
    incrInt maxInt = minInt ∧
    NewTodoManager foldEq (.document (.object [("nextId", .number "9223372036854775807")]))
      = some { Tasks := [], NextID := maxInt } :=
  ⟨by decide, rfl⟩

/-- C3, amended. For every store whose counter NextID is an `int` below the
largest one, 9223372036854775807, and every text, tags, priority and due, Add
appends exactly one task at the end of the task list, with id equal to the old
NextID, done = false, and text, tags, priority and due exactly as given (empty
text included); created is the clock reading taken first and updated the
reading taken next (equal whenever the clock did not move in between); the new
NextID is what the 64-bit statement `tm.NextID++` computes, which is the old
NextID plus 1; and the tasks stored before are unchanged and in the same
order. -/
theorem C3_add_appends (tm : TodoManager) (rnd : Nat → Nat) (text : String)
    (tags : List String) (priority due now1 now2 : String)
    (hlo : minInt ≤ tm.NextID) (hhi : tm.NextID < maxInt) :
    ∃ task : Task,
      (tm.Add rnd text tags priority due now1 now2).Tasks = tm.Tasks ++ [task] ∧
      task.ID = tm.NextID ∧ task.Done = false ∧ task.Text = text ∧ task.Tags = tags ∧
      task.Priority = priority ∧ task.Due = due ∧
      task.UUID = generateUUID rnd ∧
      task.Created = now1 ∧ task.Updated = now2 ∧
      (now1 = now2 → task.Created = task.Updated) ∧
      (tm.Add rnd text tags priority due now1 now2).NextID = incrInt tm.NextID ∧
      (tm.Add rnd text tags priority due now1 now2).NextID = tm.NextID + 1 ∧
      (tm.Add rnd text tags priority due now1 now2).Tasks.length = tm.Tasks.length + 1 ∧
      (tm.Add rnd text tags priority due now1 now2).Tasks.take tm.Tasks.length = tm.Tasks := by
  refine ⟨_, rfl, rfl, rfl, rfl, rfl, rfl, rfl, rfl, rfl, rfl, fun h => h,
    (incrInt_below tm.NextID hlo hhi).symm, rfl, ?_, ?_⟩
  · simp [TodoManager.Add]
  · simp [TodoManager.Add]

theorem C3_add_appends_witness :
    minInt ≤ sampleStore.NextID ∧ sampleStore.NextID < maxInt ∧
    ∃ task : Task,
      (sampleStore.Add (fun _ => 0) "Ma tâche" ["+dev"] "high" "" "2025-07-20 23:59:59"
          "2025-07-21 00:00:00").Tasks = sampleStore.Tasks ++ [task] ∧
      task.ID = 2 ∧
      (sampleStore.Add (fun _ => 0) "Ma tâche" ["+dev"] "high" "" "2025-07-20 23:59:59"
          "2025-07-21 00:00:00").NextID = incrInt 2 ∧
      (sampleStore.Add (fun _ => 0) "Ma tâche" ["+dev"] "high" "" "2025-07-20 23:59:59"
          "2025-07-21 00:00:00").NextID = 3 :=
  ⟨by decide, by decide,
   (C3_add_appends sampleStore (fun _ => 0) "Ma tâche" ["+dev"] "high" "" "2025-07-20 23:59:59"
      "2025-07-21 00:00:00" (by decide) (by decide)).imp
     (fun _ h => ⟨h.1, h.2.1, h.2.2.2.2.2.2.2.2.2.2.2.1, h.2.2.2.2.2.2.2.2.2.2.2.2.1⟩)⟩

/-! ### Unknown id -/

/-- C4. When no task of the store carries the id, Done, Remove and Edit each
return the store exactly as it was: same tasks in the same order, same NextID. -/
theorem C4_unknown_id_unchanged (tm : TodoManager) (id : Int) (newText : String)
    (newTags : List String) (now : String) (h : ∀ t ∈ tm.Tasks, t.ID ≠ id) :
    tm.Done id now = tm ∧ tm.Remove id = tm ∧ tm.Edit id newText newTags now = tm := by
  refine ⟨?_, ?_, ?_⟩
  · simp [TodoManager.Done, doneLoop_absent id now tm.Tasks h]
  · simp [TodoManager.Remove, removeLoop_absent id tm.Tasks h]
  · simp [TodoManager.Edit, editLoop_absent id newText newTags now tm.Tasks h]

theorem C4_unknown_id_unchanged_witness :
    (∀ t ∈ ({ Tasks := [⟨1, "u1", "a", false, "", "", [], "c", "c"⟩], NextID := 2 } :
        TodoManager).Tasks, t.ID ≠ 999) ∧
      (({ Tasks := [⟨1, "u1", "a", false, "", "", [], "c", "c"⟩], NextID := 2 } :
          TodoManager).Done 999 "n"
        = { Tasks := [⟨1, "u1", "a", false, "", "", [], "c", "c"⟩], NextID := 2 } ∧
       ({ Tasks := [⟨1, "u1", "a", false, "", "", [], "c", "c"⟩], NextID := 2 } :
          TodoManager).Remove 999
        = { Tasks := [⟨1, "u1", "a", false, "", "", [], "c", "c"⟩], NextID := 2 } ∧
       ({ Tasks := [⟨1, "u1", "a", false, "", "", [], "c", "c"⟩], NextID := 2 } :
          TodoManager).Edit 999 "b" ["+x"] "n"
        = { Tasks := [⟨1, "u1", "a", false, "", "", [], "c", "c"⟩], NextID := 2 }) :=
  ⟨by decide, C4_unknown_id_unchanged _ 999 "b" ["+x"] "n" (by decide)⟩

/-! ### Done, Remove, Edit on a known id -/

/-- C5. When some task carries the id, Done splits the task list at the first
such task, replaces it by a task with done = true and the new updated stamp
whose id, uuid, text, priority, due, tags and created are those of the old
one, and leaves the tasks before and after it, their order and NextID as they
were. -/
theorem C5_done_frame (tm : TodoManager) (id : Int) (now : String)
    (h : ∃ t ∈ tm.Tasks, t.ID = id) :
    ∃ before task after marked,
      tm.Tasks = before ++ task :: after ∧ (∀ x ∈ before, x.ID ≠ id) ∧ task.ID = id ∧
      (tm.Done id now).Tasks = before ++ marked :: after ∧
      marked.Done = true ∧ marked.Updated = now ∧
      marked.ID = task.ID ∧ marked.UUID = task.UUID ∧ marked.Text = task.Text ∧
      marked.Priority = task.Priority ∧ marked.Due = task.Due ∧ marked.Tags = task.Tags ∧
      marked.Created = task.Created ∧
      (tm.Done id now).NextID = tm.NextID ∧
      (tm.Done id now).Tasks.length = tm.Tasks.length := by
  obtain ⟨before, task, after, hsplit, hb, ht⟩ := split_first id tm.Tasks h
  have hd := doneLoop_split id now before after task hb ht
  refine ⟨before, task, after, { task with Done := true, Updated := now }, hsplit, hb, ht, ?_,
    rfl, rfl, rfl, rfl, rfl, rfl, rfl, rfl, rfl, rfl, ?_⟩
  · simp [TodoManager.Done, hsplit, hd]
  · simp [TodoManager.Done, hsplit, hd]

theorem C5_done_frame_witness :
    (∃ t ∈ ({ Tasks := [⟨1, "u1", "a", false, "high", "", ["+dev"], "c1", "c1"⟩,
                        ⟨2, "u2", "b", false, "", "", [], "c2", "c2"⟩], NextID := 3 } :
        TodoManager).Tasks, t.ID = 2) ∧
    ∃ before task after marked,
      ({ Tasks := [⟨1, "u1", "a", false, "high", "", ["+dev"], "c1", "c1"⟩,
                   ⟨2, "u2", "b", false, "", "", [], "c2", "c2"⟩], NextID := 3 } :
        TodoManager).Tasks = before ++ task :: after ∧ (∀ x ∈ before, x.ID ≠ 2) ∧
      task.ID = 2 ∧
      (({ Tasks := [⟨1, "u1", "a", false, "high", "", ["+dev"], "c1", "c1"⟩,
                    ⟨2, "u2", "b", false, "", "", [], "c2", "c2"⟩], NextID := 3 } :
        TodoManager).Done 2 "n").Tasks = before ++ marked :: after ∧
      marked.Done = true ∧ marked.Updated = "n" ∧
      marked.ID = task.ID ∧ marked.UUID = task.UUID ∧ marked.Text = task.Text ∧
      marked.Priority = task.Priority ∧ marked.Due = task.Due ∧ marked.Tags = task.Tags ∧
      marked.Created = task.Created ∧
      (({ Tasks := [⟨1, "u1", "a", false, "high", "", ["+dev"], "c1", "c1"⟩,
                    ⟨2, "u2", "b", false, "", "", [], "c2", "c2"⟩], NextID := 3 } :
        TodoManager).Done 2 "n").NextID = 3 ∧
      (({ Tasks := [⟨1, "u1", "a", false, "high", "", ["+dev"], "c1", "c1"⟩,
                    ⟨2, "u2", "b", false, "", "", [], "c2", "c2"⟩], NextID := 3 } :
        TodoManager).Done 2 "n").Tasks.length = 2 :=
  ⟨⟨_, List.mem_cons_of_mem _ (List.mem_cons_self _ _), rfl⟩,
    C5_done_frame _ 2 "n" ⟨_, List.mem_cons_of_mem _ (List.mem_cons_self _ _), rfl⟩⟩

/-- C6. When some task carries the id, Remove splits the task list at the first
such task and returns the tasks before it followed by the tasks after it,
untouched and in the same order: the length drops by exactly 1, NextID is
unchanged, and when the ids of the store are pairwise distinct no remaining
task has the removed id. -/
theorem C6_remove_first (tm : TodoManager) (id : Int) (h : ∃ t ∈ tm.Tasks, t.ID = id) :
    ∃ before task after,
      tm.Tasks = before ++ task :: after ∧ (∀ x ∈ before, x.ID ≠ id) ∧ task.ID = id ∧
      (tm.Remove id).Tasks = before ++ after ∧
      (tm.Remove id).Tasks.length + 1 = tm.Tasks.length ∧
      (tm.Remove id).NextID = tm.NextID ∧
      ((tm.Tasks.map Task.ID).Nodup → ∀ x ∈ (tm.Remove id).Tasks, x.ID ≠ id) := by
  obtain ⟨before, task, after, hsplit, hb, ht⟩ := split_first id tm.Tasks h
  have hr := removeLoop_split id before after task hb ht
  have htasks : (tm.Remove id).Tasks = before ++ after := by
    simp [TodoManager.Remove, hsplit, hr]
  refine ⟨before, task, after, hsplit, hb, ht, htasks, ?_, rfl, ?_⟩
  · rw [htasks, hsplit]
    simp
    omega
  · intro hnodup x hx
    rw [htasks] at hx
    rcases List.mem_append.mp hx with hx | hx
    · exact hb x hx
    · intro hxid
      rw [hsplit, List.map_append, List.map_cons] at hnodup
      have h2 := (List.nodup_append.mp hnodup).2.1
      have h3 : task.ID ∉ after.map Task.ID := (List.nodup_cons.mp h2).1
      exact h3 (List.mem_map.mpr ⟨x, hx, by rw [hxid, ht]⟩)

theorem C6_remove_first_witness :
    (∃ t ∈ ({ Tasks := [⟨1, "u1", "Task 1", false, "", "", [], "c1", "c1"⟩,
                        ⟨2, "u2", "Task 2", false, "", "", [], "c2", "c2"⟩], NextID := 3 } :
        TodoManager).Tasks, t.ID = 1) ∧
    ∃ before task after,
      ({ Tasks := [⟨1, "u1", "Task 1", false, "", "", [], "c1", "c1"⟩,
                   ⟨2, "u2", "Task 2", false, "", "", [], "c2", "c2"⟩], NextID := 3 } :
        TodoManager).Tasks = before ++ task :: after ∧ (∀ x ∈ before, x.ID ≠ 1) ∧
      task.ID = 1 ∧
      (({ Tasks := [⟨1, "u1", "Task 1", false, "", "", [], "c1", "c1"⟩,
                    ⟨2, "u2", "Task 2", false, "", "", [], "c2", "c2"⟩], NextID := 3 } :
        TodoManager).Remove 1).Tasks = before ++ after ∧
      (({ Tasks := [⟨1, "u1", "Task 1", false, "", "", [], "c1", "c1"⟩,
                    ⟨2, "u2", "Task 2", false, "", "", [], "c2", "c2"⟩], NextID := 3 } :
        TodoManager).Remove 1).Tasks.length + 1 = 2 ∧
      (({ Tasks := [⟨1, "u1", "Task 1", false, "", "", [], "c1", "c1"⟩,
                    ⟨2, "u2", "Task 2", false, "", "", [], "c2", "c2"⟩], NextID := 3 } :
        TodoManager).Remove 1).NextID = 3 ∧
      ((({ Tasks := [⟨1, "u1", "Task 1", false, "", "", [], "c1", "c1"⟩,
                     ⟨2, "u2", "Task 2", false, "", "", [], "c2", "c2"⟩], NextID := 3 } :
        TodoManager).Tasks.map Task.ID).Nodup →
        ∀ x ∈ (({ Tasks := [⟨1, "u1", "Task 1", false, "", "", [], "c1", "c1"⟩,
                            ⟨2, "u2", "Task 2", false, "", "", [], "c2", "c2"⟩],
                  NextID := 3 } : TodoManager).Remove 1).Tasks, x.ID ≠ 1) :=
  ⟨⟨_, List.mem_cons_self _ _, rfl⟩, C6_remove_first _ 1 ⟨_, List.mem_cons_self _ _, rfl⟩⟩

/-- C7. When some task carries the id, Edit splits the task list at the first
such task and replaces it by a task whose text is newText and whose tags are
exactly newTags (the old tags are dropped), with the new updated stamp and the
id, uuid, done, priority, due and created of the old one; the tasks before and
after it, their order and NextID are as they were. -/
theorem C7_edit_frame (tm : TodoManager) (id : Int) (newText : String)
    (newTags : List String) (now : String) (h : ∃ t ∈ tm.Tasks, t.ID = id) :
    ∃ before task after edited,
      tm.Tasks = before ++ task :: after ∧ (∀ x ∈ before, x.ID ≠ id) ∧ task.ID = id ∧
      (tm.Edit id newText newTags now).Tasks = before ++ edited :: after ∧
      edited.Text = newText ∧ edited.Tags = newTags ∧ edited.Updated = now ∧
      edited.ID = task.ID ∧ edited.UUID = task.UUID ∧ edited.Done = task.Done ∧
      edited.Priority = task.Priority ∧ edited.Due = task.Due ∧
      edited.Created = task.Created ∧
      (tm.Edit id newText newTags now).NextID = tm.NextID ∧
      (tm.Edit id newText newTags now).Tasks.length = tm.Tasks.length := by
  obtain ⟨before, task, after, hsplit, hb, ht⟩ := split_first id tm.Tasks h
  have he := editLoop_split id newText newTags now before after task hb ht
  refine ⟨before, task, after, { task with Text := newText, Tags := newTags, Updated := now },
    hsplit, hb, ht, ?_, rfl, rfl, rfl, rfl, rfl, rfl, rfl, rfl, rfl, rfl, ?_⟩
  · simp [TodoManager.Edit, hsplit, he]
  · simp [TodoManager.Edit, hsplit, he]

theorem C7_edit_frame_witness :
    (∃ t ∈ ({ Tasks := [⟨1, "u1", "Original text", true, "low", "2025-07-20", ["+old"],
                         "c1", "c1"⟩], NextID := 2 } : TodoManager).Tasks, t.ID = 1) ∧
    ∃ before task after edited,
      ({ Tasks := [⟨1, "u1", "Original text", true, "low", "2025-07-20", ["+old"],
                    "c1", "c1"⟩], NextID := 2 } : TodoManager).Tasks
        = before ++ task :: after ∧ (∀ x ∈ before, x.ID ≠ 1) ∧ task.ID = 1 ∧
      (({ Tasks := [⟨1, "u1", "Original text", true, "low", "2025-07-20", ["+old"],
                     "c1", "c1"⟩], NextID := 2 } : TodoManager).Edit 1 "Modified text"
          ["+new", "@context"] "n").Tasks = before ++ edited :: after ∧
      edited.Text = "Modified text" ∧ edited.Tags = ["+new", "@context"] ∧
      edited.Updated = "n" ∧
      edited.ID = task.ID ∧ edited.UUID = task.UUID ∧ edited.Done = task.Done ∧
      edited.Priority = task.Priority ∧ edited.Due = task.Due ∧
      edited.Created = task.Created ∧
      (({ Tasks := [⟨1, "u1", "Original text", true, "low", "2025-07-20", ["+old"],
                     "c1", "c1"⟩], NextID := 2 } : TodoManager).Edit 1 "Modified text"
          ["+new", "@context"] "n").NextID = 2 ∧
      (({ Tasks := [⟨1, "u1", "Original text", true, "low", "2025-07-20", ["+old"],
                     "c1", "c1"⟩], NextID := 2 } : TodoManager).Edit 1 "Modified text"
          ["+new", "@context"] "n").Tasks.length = 1 :=
  ⟨⟨_, List.mem_cons_self _ _, rfl⟩,
    C7_edit_frame _ 1 "Modified text" ["+new", "@context"] "n" ⟨_, List.mem_cons_self _ _, rfl⟩⟩

/-! ### The filter engine -/

theorem foldl_keep (p : Task → Bool) (l : List Task) :
    ∀ acc : List Task,
      l.foldl (fun filtered task => if p task then filtered ++ [task] else filtered) acc
        = acc ++ l.filter p := by
  induction l with
  | nil => intro acc; simp
  | cons a l ih =>
    intro acc
    by_cases ha : p a = true
    · simp [List.foldl_cons, ih, ha, List.filter_cons]
    · simp [List.foldl_cons, ih, ha, List.filter_cons]

/-- The method `filterTasks` returns the tasks of the store that pass the loop
body, in store order. -/
theorem filterTasks_eq_filter (tm : TodoManager) (lower : Char → Char) (showDone : Bool)
    (projectFilter contextFilter priorityFilter : String) :
    tm.filterTasks lower showDone projectFilter contextFilter priorityFilter
      = tm.Tasks.filter (keepTask lower showDone projectFilter contextFilter priorityFilter) := by
  simp [TodoManager.filterTasks, foldl_keep]

theorem keepTask_status_priority (lower : Char → Char) (showDone : Bool) (priorityFilter : String)
    (t : Task) :
    keepTask lower showDone "" "" priorityFilter t
      = ((showDone || !t.Done) &&
          (decide (priorityFilter = "") || decide (t.Priority = priorityFilter))) := by
  by_cases hq : priorityFilter = "" <;> by_cases hp : t.Priority = priorityFilter <;>
    cases showDone <;> cases hd : t.Done <;> simp [keepTask, hq, hp, hd]

theorem C8_filter_helper (tm : TodoManager) (lower : Char → Char) (d : Bool)
    (priorityFilter : String) :
    tm.filterTasks lower d "" "" priorityFilter
      = tm.Tasks.filter (fun t =>
          (d || !t.Done) &&
            (decide (priorityFilter = "") || decide (t.Priority = priorityFilter))) := by
  rw [filterTasks_eq_filter]
  congr 1
  funext t
  exact keepTask_status_priority lower d priorityFilter t

/-- C8. With empty project and context filters, filterTasks returns exactly the
tasks t of the store, in store order, with (includeDone or t.done = false) and
(priorityExact = "" or t.priority = priorityExact as strings); hence the result
for includeDone = false is the result for includeDone = true with the done
tasks dropped. -/
theorem C8_filter_status_priority (tm : TodoManager) (lower : Char → Char)
    (includeDone : Bool) (priorityExact : String) :
    tm.filterTasks lower includeDone "" "" priorityExact
      = tm.Tasks.filter (fun t =>
          (includeDone || !t.Done) &&
            (decide (priorityExact = "") || decide (t.Priority = priorityExact))) ∧
    tm.filterTasks lower false "" "" priorityExact
      = (tm.filterTasks lower true "" "" priorityExact).filter (fun t => !t.Done) := by
  have h : ∀ d : Bool, tm.filterTasks lower d "" "" priorityExact
      = tm.Tasks.filter (fun t =>
          (d || !t.Done) &&
            (decide (priorityExact = "") || decide (t.Priority = priorityExact))) := by
    intro d
    rw [filterTasks_eq_filter]
    congr 1
    funext t
    exact keepTask_status_priority lower d priorityExact t
  refine ⟨h includeDone, ?_⟩
  rw [h false, h true, List.filter_filter]
  congr 1

/-- C9 as stated fails: the code looks for the filter in the whole tag, the
leading sigil included. With the project filter "+dev", the task tagged "+dev"
is kept, although the remainder "dev" of its tag does not contain "+dev". -/
theorem C9_sigil_is_searched :
    ({ Tasks := [⟨1, "u1", "Tâche 1", false, "", "", ["+dev"], "c", "c"⟩], NextID := 2 } :
        TodoManager).filterTasks Char.toLower true "+dev" "" ""
      = [⟨1, "u1", "Tâche 1", false, "", "", ["+dev"], "c", "c"⟩] ∧
    specHasTag Char.toLower "+" "+dev" ["+dev"] = false := by
  decide

theorem keepTask_project (lower : Char → Char) (filter : String) (h : filter ≠ "") (t : Task) :
    keepTask lower true filter "" "" t = hasTag lower "+" filter t.Tags := by
  cases hc : hasTag lower "+" filter t.Tags <;> simp [keepTask, h, hc]

theorem keepTask_context (lower : Char → Char) (filter : String) (h : filter ≠ "") (t : Task) :
    keepTask lower true "" filter "" t = hasTag lower "@" filter t.Tags := by
  cases hc : hasTag lower "@" filter t.Tags <;> simp [keepTask, h, hc]

/-- Past a sigil that the filter does not start with, searching the whole tag
and searching its remainder agree. -/
theorem contains_after_sigil (lower : Char → Char) (s : Char) (rest : List Char)
    (filter : String) (hne : filter ≠ "")
    (hs : ∀ c, filter.data.head? = some c → lower c ≠ lower s) :
    Contains (ToLower lower (String.mk (s :: rest))) (ToLower lower filter)
      = Contains (ToLower lower (String.mk rest)) (ToLower lower filter) := by
  obtain ⟨data⟩ := filter
  cases data with
  | nil => exact absurd rfl hne
  | cons c cs =>
    have hc : lower c ≠ lower s := hs c rfl
    simp only [Contains, ToLower, List.map_cons]
    rw [decide_eq_decide, List.infix_cons_iff]
    constructor
    · rintro (hpre | hin)
      · exact absurd (List.cons_prefix_cons.mp hpre).1 hc
      · exact hin
    · exact fun hin => Or.inr hin

theorem hasTag_eq_spec (lower : Char → Char) (s : Char) (filter : String) (hne : filter ≠ "")
    (hs : ∀ c, filter.data.head? = some c → lower c ≠ lower s) (tags : List String) :
    hasTag lower (String.mk [s]) filter tags = specHasTag lower (String.mk [s]) filter tags := by
  induction tags with
  | nil => rfl
  | cons tag tags ih =>
    have ih2 : (tags.any fun tag => HasPrefix tag (String.mk [s]) &&
          Contains (ToLower lower tag) (ToLower lower filter))
        = (tags.any fun tag => HasPrefix tag (String.mk [s]) &&
          Contains (ToLower lower (String.mk (tag.data.drop (String.mk [s]).length)))
            (ToLower lower filter)) := ih
    simp only [hasTag, specHasTag, List.any_cons, ih2]
    congr 1
    obtain ⟨data⟩ := tag
    cases data with
    | nil => simp [HasPrefix, List.isPrefixOf]
    | cons a rest =>
      by_cases ha : s = a
      · subst ha
        have hlen : (String.mk [s]).length = 1 := rfl
        rw [hlen, contains_after_sigil lower s rest filter hne hs]
        rfl
      · have hp : HasPrefix (String.mk (a :: rest)) (String.mk [s]) = false := by
          simp [HasPrefix, List.isPrefixOf, ha]
        simp [hp]

/-- C9, amended. For every task list and every non-empty projectSubstr (other
criteria neutral, includeDone = true), filterTasks keeps exactly the tasks
having at least one tag that starts with '+' and that, taken whole with its
leading '+', contains projectSubstr case-insensitively; the context filter
applies the same rule to tags starting with '@'. For a filter whose first
character does not lower-case to the sigil this is the same as searching the
remainder of the tag after the sigil. -/
theorem C9_tag_filters (tm : TodoManager) (lower : Char → Char) (substr : String)
    (h : substr ≠ "") :
    tm.filterTasks lower true substr "" ""
      = tm.Tasks.filter (fun t => t.Tags.any (fun tag =>
          HasPrefix tag "+" && Contains (ToLower lower tag) (ToLower lower substr))) ∧
    tm.filterTasks lower true "" substr ""
      = tm.Tasks.filter (fun t => t.Tags.any (fun tag =>
          HasPrefix tag "@" && Contains (ToLower lower tag) (ToLower lower substr))) ∧
    ((∀ c, substr.data.head? = some c → lower c ≠ lower '+') →
      tm.filterTasks lower true substr "" ""
        = tm.Tasks.filter (fun t => specHasTag lower "+" substr t.Tags)) ∧
    ((∀ c, substr.data.head? = some c → lower c ≠ lower '@') →
      tm.filterTasks lower true "" substr ""
        = tm.Tasks.filter (fun t => specHasTag lower "@" substr t.Tags)) := by
  have hp : tm.filterTasks lower true substr "" ""
      = tm.Tasks.filter (fun t => hasTag lower "+" substr t.Tags) := by
    rw [filterTasks_eq_filter]
    congr 1
    funext t
    exact keepTask_project lower substr h t
  have hc : tm.filterTasks lower true "" substr ""
      = tm.Tasks.filter (fun t => hasTag lower "@" substr t.Tags) := by
    rw [filterTasks_eq_filter]
    congr 1
    funext t
    exact keepTask_context lower substr h t
  refine ⟨hp, hc, ?_, ?_⟩
  · intro hs
    rw [hp]
    congr 1
    funext t
    exact hasTag_eq_spec lower '+' substr h hs t.Tags
  · intro hs
    rw [hc]
    congr 1
    funext t
    exact hasTag_eq_spec lower '@' substr h hs t.Tags

theorem C9_tag_filters_witness :
    ("dev" : String) ≠ "" ∧
    (({ Tasks := [⟨1, "u1", "Tâche 1", false, "", "", ["+DevOps", "@bureau"], "c", "c"⟩,
                  ⟨2, "u2", "Tâche 2", false, "", "", ["@dev"], "c", "c"⟩], NextID := 3 } :
        TodoManager).filterTasks Char.toLower true "dev" "" ""
      = ({ Tasks := [⟨1, "u1", "Tâche 1", false, "", "", ["+DevOps", "@bureau"], "c", "c"⟩,
                     ⟨2, "u2", "Tâche 2", false, "", "", ["@dev"], "c", "c"⟩], NextID := 3 } :
        TodoManager).Tasks.filter (fun t => t.Tags.any (fun tag =>
          HasPrefix tag "+" &&
            Contains (ToLower Char.toLower tag) (ToLower Char.toLower "dev")))) ∧
    ({ Tasks := [⟨1, "u1", "Tâche 1", false, "", "", ["+DevOps", "@bureau"], "c", "c"⟩,
                 ⟨2, "u2", "Tâche 2", false, "", "", ["@dev"], "c", "c"⟩], NextID := 3 } :
        TodoManager).filterTasks Char.toLower true "dev" "" ""
      = [⟨1, "u1", "Tâche 1", false, "", "", ["+DevOps", "@bureau"], "c", "c"⟩] :=
  ⟨by decide,
    (C9_tag_filters _ Char.toLower "dev" (by decide)).1,
    by decide⟩

/-! ### Filters compose by conjunction -/

theorem keepTask_and (lower : Char → Char) (showDone : Bool)
    (projectFilter contextFilter priorityFilter : String) (t : Task) :
    keepTask lower showDone projectFilter contextFilter priorityFilter t
      = (keepTask lower showDone "" "" "" t && keepTask lower true projectFilter "" "" t &&
          keepTask lower true "" contextFilter "" t && keepTask lower true "" "" priorityFilter t) := by
  by_cases hp : projectFilter = "" <;> by_cases hc : contextFilter = "" <;>
    by_cases hq : priorityFilter = "" <;> by_cases hpr : t.Priority = priorityFilter <;>
    cases showDone <;> cases hd : t.Done <;>
    cases h1 : hasTag lower "+" projectFilter t.Tags <;>
    cases h2 : hasTag lower "@" contextFilter t.Tags <;>
    simp [keepTask, hp, hc, hq, hpr, hd, h1, h2]

/-- C10. Filters compose by logical AND: a task is in the result of filterTasks
called with all four criteria if and only if it is in the result of each of the
four calls that apply one criterion alone (the others at includeDone = true and
the empty string), and the combined result is a sublist of the store, so it
keeps store order. -/
theorem C10_filters_compose (tm : TodoManager) (lower : Char → Char) (includeDone : Bool)
    (projectSubstr contextSubstring priorityExact : String) :
    (∀ t : Task,
      t ∈ tm.filterTasks lower includeDone projectSubstr contextSubstring priorityExact ↔
        (t ∈ tm.filterTasks lower includeDone "" "" "" ∧
         t ∈ tm.filterTasks lower true projectSubstr "" "" ∧
         t ∈ tm.filterTasks lower true "" contextSubstring "" ∧
         t ∈ tm.filterTasks lower true "" "" priorityExact)) ∧
    (tm.filterTasks lower includeDone projectSubstr contextSubstring priorityExact).Sublist
      tm.Tasks := by
  constructor
  · intro t
    simp only [filterTasks_eq_filter, List.mem_filter]
    rw [keepTask_and lower includeDone projectSubstr contextSubstring priorityExact t]
    simp only [Bool.and_eq_true]
    tauto
  · rw [filterTasks_eq_filter]
    exact List.filter_sublist _

/-! ### The sorted listing -/

theorem listLess_strictWeak : StrictWeak listLess := by
  constructor
  · intro a b h
    unfold listLess at h ⊢
    by_cases hp : priorityOrder a.Priority = priorityOrder b.Priority
    · simp [hp] at h ⊢
      omega
    · have hp2 : ¬ priorityOrder b.Priority = priorityOrder a.Priority := fun e => hp e.symm
      simp [hp, hp2] at h ⊢
      omega
  · intro a b c hab hbc
    simp only [listLess] at hab hbc ⊢
    split_ifs at hab hbc ⊢ <;>
      simp only [decide_eq_false_iff_not, not_lt, gt_iff_lt] at hab hbc ⊢ <;> omega

/-- Not comparing less, read as an order: higher rank first, then lower id. -/
theorem listLess_false (a b : Task) (h : listLess b a = false) :
    priorityOrder a.Priority > priorityOrder b.Priority ∨
      (priorityOrder a.Priority = priorityOrder b.Priority ∧ a.ID ≤ b.ID) := by
  unfold listLess at h
  by_cases hp : priorityOrder b.Priority = priorityOrder a.Priority
  · simp [hp] at h
    exact Or.inr ⟨hp.symm, h⟩
  · simp [hp] at h
    left
    have : priorityOrder b.Priority ≠ priorityOrder a.Priority := hp
    omega

/-- C11. Whatever implementation of sort.Slice is used, the sequence of tasks
List emits is a permutation of the filtered list in which every task is
followed only by tasks of lower priority rank (high = 3, medium = 2, low = 1,
anything else = 0) or of equal rank and an id at least as large; the ranks are
as stated, and for priorities low, high, medium with ids 1, 2, 3 the order is
2, 3, 1. -/
theorem C11_list_order (S : SliceSort) :
    (∀ (tm : TodoManager) (lower : Char → Char) (showDone : Bool)
        (projectFilter contextFilter priorityFilter : String),
      (tm.list S lower showDone projectFilter contextFilter priorityFilter).Perm
          (tm.filterTasks lower showDone projectFilter contextFilter priorityFilter) ∧
        (tm.list S lower showDone projectFilter contextFilter priorityFilter).Pairwise
          (fun a b => priorityOrder a.Priority > priorityOrder b.Priority ∨
            (priorityOrder a.Priority = priorityOrder b.Priority ∧ a.ID ≤ b.ID))) ∧
    (priorityOrder "high" = 3 ∧ priorityOrder "medium" = 2 ∧ priorityOrder "low" = 1 ∧
      ∀ p : String, p ≠ "high" → p ≠ "medium" → p ≠ "low" → priorityOrder p = 0) ∧
    (∀ lower : Char → Char,
      (sampleListing.list S lower false "" "" "").map Task.ID = [2, 3, 1]) := by
  refine ⟨?_, ⟨by decide, by decide, by decide, ?_⟩, ?_⟩
  · intro tm lower showDone projectFilter contextFilter priorityFilter
    unfold TodoManager.list
    simp only
    split
    · rename_i h
      rw [List.length_eq_zero.mp h]
      exact ⟨List.Perm.refl _, List.Pairwise.nil⟩
    · exact ⟨S.perm _ _,
        (S.sorted listLess _ listLess_strictWeak).imp (fun {a b} h => listLess_false a b h)⟩
  · intro p h1 h2 h3
    simp [priorityOrder, h1, h2, h3]
  · intro lower
    have hf : sampleListing.filterTasks lower false "" "" "" = sampleListing.Tasks := by
      rw [(C8_filter_helper sampleListing lower false "")]
      decide
    have hl : sampleListing.list S lower false "" "" "" = S.sort listLess sampleListing.Tasks := by
      unfold TodoManager.list
      rw [hf]
      rfl
    rw [hl]
    have hperm := S.perm listLess sampleListing.Tasks
    have hsorted := S.sorted listLess sampleListing.Tasks listLess_strictWeak
    obtain ⟨x, y, z, hxyz⟩ := List.length_eq_three.mp (hperm.length_eq.trans rfl)
    rw [hxyz] at hperm hsorted ⊢
    have hx : x ∈ sampleListing.Tasks := hperm.subset (by simp)
    have hy : y ∈ sampleListing.Tasks := hperm.subset (by simp)
    have hz : z ∈ sampleListing.Tasks := hperm.subset (by simp)
    have hall : ∀ x ∈ sampleListing.Tasks, ∀ y ∈ sampleListing.Tasks,
        ∀ z ∈ sampleListing.Tasks, [x, y, z].Perm sampleListing.Tasks →
          [x, y, z].Pairwise (fun a b => listLess b a = false) →
          [x, y, z].map Task.ID = [2, 3, 1] := by
      decide
    exact hall x hx y hy z hz hperm hsorted

/-! ## Helper lemmas: parsing and reconciliation -/

theorem generateUUID_ne_empty (rnd : Nat → Nat) : generateUUID rnd ≠ "" := by
  intro h
  have := congrArg String.length h
  simp [generateUUID, String.length] at this

/-- What `createTaskFromCSVRecord` guarantees of the task it returns. -/
theorem createTask_facts (tm : TodoManager) (lower : Char → Char)
    (timeParse : String → String → Option Int) (record : List String)
    (columnMap : String → Option Nat) (textCol lineNumber : Nat) (now1 now2 : String)
    (rnd : Nat → Nat) (task : Task) (msgs : List String)
    (h : createTaskFromCSVRecord tm lower timeParse record columnMap textCol lineNumber now1 now2
      rnd = some (task, msgs)) :
    task.ID = tm.NextID ∧ (msgs = [] → task.UUID ≠ "" ∧ task.Text ≠ "") := by
  unfold createTaskFromCSVRecord at h
  split at h
  · cases h
  · simp only at h
    split at h
    · injection h with h
      injection h with h1 h2
      subst h1
      exact ⟨rfl, fun hm => by rw [hm] at h2; cases h2⟩
    · rename_i htext
      injection h with h
      injection h with h1 h2
      subst h1
      refine ⟨rfl, fun _ => ⟨?_, htext⟩⟩
      simp only
      split
      · rename_i hok
        simp only [Bool.and_eq_true, decide_eq_true_eq] at hok
        exact hok.1
      · exact generateUUID_ne_empty rnd



theorem parseLoop_candidates (tm : TodoManager) (env : ImportEnv)
    (columnMap : String → Option Nat) (textCol : Nat)
    (records : List (Except String (List String))) :
    ∀ (lineNumber : Nat) (tasks : List Task) (errors : List String)
      (out : List Task × List String),
      parseLoop tm env columnMap textCol lineNumber records tasks errors = some out →
      (∀ t ∈ tasks, t.ID = tm.NextID ∧ t.UUID ≠ "") →
      ∀ t ∈ out.1, t.ID = tm.NextID ∧ t.UUID ≠ "" := by
  induction records with
  | nil =>
    intro lineNumber tasks errors out h hq
    simp only [parseLoop, Option.some.injEq] at h
    subst h
    exact hq
  | cons r rest ih =>
    intro lineNumber tasks errors out h hq
    cases r with
    | error err =>
      simp only [parseLoop] at h
      exact ih _ _ _ _ h hq
    | ok record =>
      simp only [parseLoop] at h
      split at h
      · exact ih _ _ _ _ h hq
      · split at h
        · cases h
        · rename_i task lineErrors hcreate
          have hf := createTask_facts _ _ _ _ _ _ _ _ _ _ _ _ hcreate
          split at h
          · exact ih _ _ _ _ h hq
          · rename_i hlen
            have hnil : lineErrors = [] := by
              cases lineErrors with
              | nil => rfl
              | cons a l => simp at hlen
            split at h
            · refine ih _ _ _ _ h ?_
              intro t ht
              rcases List.mem_append.mp ht with ht | ht
              · exact hq t ht
              · rw [List.mem_singleton.mp ht]
                exact ⟨hf.1, (hf.2 hnil).1⟩
            · exact ih _ _ _ _ h hq

/-- Every candidate `parseCSV` returns carries the counter of the store as its
id and a non-empty uuid. -/
theorem parseCSV_candidates (tm : TodoManager) (env : ImportEnv) (file : CsvFile)
    (tasks : List Task) (parseErrors : List String)
    (h : tm.parseCSV env file = some (tasks, parseErrors)) :
    ∀ t ∈ tasks, t.ID = tm.NextID ∧ t.UUID ≠ "" := by
  unfold TodoManager.parseCSV at h
  split at h
  · injection h with h
    injection h with h1 _
    subst h1
    intro t ht; cases ht
  · split at h
    · injection h with h
      injection h with h1 _
      subst h1
      intro t ht; cases ht
    · simp only at h
      split at h
      · injection h with h
        injection h with h1 _
        subst h1
        intro t ht; cases ht
      · exact parseLoop_candidates tm env _ _ _ _ _ _ _ h (by intro t ht; cases ht)

/-! ### The map of existing uuids -/

theorem existingFrom_none (tasks : List Task) :
    ∀ (i : Nat) (m : String → Option Nat) (u : String),
      existingFrom i m tasks u = none ↔
        m u = none ∧ (u = "" ∨ ∀ e ∈ tasks, e.UUID ≠ u) := by
  induction tasks with
  | nil => intro i m u; simp [existingFrom]
  | cons t rest ih =>
    intro i m u
    rw [existingFrom, ih]
    by_cases hu : u = ""
    · subst hu
      by_cases ht : t.UUID = ""
      · simp [ht]
      · have : ¬ "" = t.UUID := fun e => ht e.symm
        simp [ht, this]
    · by_cases ht : t.UUID = ""
      · have hne : ¬ t.UUID = u := fun e => hu (e ▸ ht)
        have hne2 : ¬ "" = u := fun e => hu e.symm
        simp [ht, hu, hne2]
      · by_cases hut : u = t.UUID
        · subst hut
          simp [ht]
        · have hne : ¬ t.UUID = u := fun e => hut e.symm
          simp [ht, hu, hut, hne]

theorem existingTasks_none (tasks : List Task) (u : String) (hu : u ≠ "") :
    existingTasks tasks u = none ↔ u ∉ tasks.map Task.UUID := by
  unfold existingTasks
  rw [existingFrom_none]
  simp only [true_and, hu, false_or, List.mem_map, not_exists, not_and]

theorem existingFrom_some (tasks : List Task) :
    ∀ (i : Nat) (m : String → Option Nat) (u : String) (j : Nat),
      existingFrom i m tasks u = some j →
        m u = some j ∨ (i ≤ j ∧ ∃ e, tasks[j - i]? = some e ∧ e.UUID = u) := by
  induction tasks with
  | nil => intro i m u j h; exact Or.inl h
  | cons t rest ih =>
    intro i m u j h
    rw [existingFrom] at h
    rcases ih _ _ _ _ h with h1 | ⟨hle, e, he, heu⟩
    · split at h1
      · simp only at h1
        split at h1
        · rename_i hut
          injection h1 with h1
          subst h1
          exact Or.inr ⟨le_refl _, t, by simp, hut.symm⟩
        · exact Or.inl h1
      · exact Or.inl h1
    · refine Or.inr ⟨by omega, e, ?_, heu⟩
      have : j - i = (j - (i + 1)) + 1 := by omega
      rw [this]
      simpa using he

theorem existingTasks_some (tasks : List Task) (u : String) (j : Nat)
    (h : existingTasks tasks u = some j) : ∃ e, tasks[j]? = some e ∧ e.UUID = u := by
  rcases existingFrom_some tasks 0 _ u j h with h1 | ⟨_, e, he, heu⟩
  · cases h1
  · exact ⟨e, by simpa using he, heu⟩



/-- The import loop under strategy skip, writing enabled: rows with an unknown
uuid are appended in order, the others are counted as skipped. -/
theorem importLoop_skip (existing : String → Option Nat) (verbose : Bool)
    (parseTime : String → Option Int) (now : Nat → String) (rows : List Task) :
    ∀ (k : Nat) (st : ImportState), (∀ c ∈ rows, c.ID ≤ st.NextID) →
      (importLoop existing "skip" ⟨false, verbose⟩ parseTime now k rows st).Tasks
          = st.Tasks ++ rows.filter (fun c => (existing c.UUID).isNone) ∧
      (importLoop existing "skip" ⟨false, verbose⟩ parseTime now k rows st).NextID
          = st.NextID + ((rows.filter (fun c => (existing c.UUID).isNone)).length : Int) ∧
      (importLoop existing "skip" ⟨false, verbose⟩ parseTime now k rows st).result.NewTasks
          = st.result.NewTasks + ((rows.filter (fun c => (existing c.UUID).isNone)).length : Int) ∧
      (importLoop existing "skip" ⟨false, verbose⟩ parseTime now k rows st).result.SkippedTasks
          = st.result.SkippedTasks
            + ((rows.filter (fun c => (existing c.UUID).isSome)).length : Int) ∧
      (importLoop existing "skip" ⟨false, verbose⟩ parseTime now k rows st).result.UpdatedTasks
          = st.result.UpdatedTasks ∧
      (importLoop existing "skip" ⟨false, verbose⟩ parseTime now k rows st).result.Errors
          = st.result.Errors ∧
      (importLoop existing "skip" ⟨false, verbose⟩ parseTime now k rows st).result.Warnings
          = st.result.Warnings := by
  induction rows with
  | nil => intro k st _; simp [importLoop]
  | cons c rest ih =>
    intro k st hid
    have hc : c.ID ≤ st.NextID := hid c (List.mem_cons_self _ _)
    have hrest : ∀ c2 ∈ rest, c2.ID ≤ st.NextID := fun c2 h2 => hid c2 (List.mem_cons_of_mem _ h2)
    cases hex : existing c.UUID with
    | none =>
      have hstep : importLoop existing "skip" ⟨false, verbose⟩ parseTime now k (c :: rest) st
          = importLoop existing "skip" ⟨false, verbose⟩ parseTime now (k + 1) rest
              (ImportState.append
                { st with
                  NextID := st.NextID + 1
                  result := { st.result with NewTasks := st.result.NewTasks + 1 } } c) := by
        simp [importLoop, processImportTask, hex]
      rw [hstep]
      have hnext : (ImportState.append
          { st with
            NextID := st.NextID + 1
            result := { st.result with NewTasks := st.result.NewTasks + 1 } } c).NextID
          = st.NextID + 1 := by
        simp only [ImportState.append]
        split
        · omega
        · rfl
      obtain ⟨h1, h2, h3, h4, h5, h6, h7⟩ := ih (k + 1) _ (by
        intro c2 h2
        rw [hnext]
        have := hrest c2 h2
        omega)
      rw [hnext] at h2
      refine ⟨?_, ?_, ?_, ?_, ?_, ?_, ?_⟩
      · rw [h1]; simp [ImportState.append, List.filter_cons, hex]
      · rw [h2]; simp [List.filter_cons, hex]; omega
      · rw [h3]; simp [ImportState.append, List.filter_cons, hex]; omega
      · rw [h4]; simp [ImportState.append, List.filter_cons, hex]
      · rw [h5]; simp [ImportState.append]
      · rw [h6]; simp [ImportState.append]
      · rw [h7]; simp [ImportState.append]
    | some i =>
      have hstep : importLoop existing "skip" ⟨false, verbose⟩ parseTime now k (c :: rest) st
          = importLoop existing "skip" ⟨false, verbose⟩ parseTime now (k + 1) rest st.skip := by
        simp [importLoop, processImportTask, hex]
      rw [hstep]
      obtain ⟨h1, h2, h3, h4, h5, h6, h7⟩ := ih (k + 1) st.skip hrest
      refine ⟨?_, ?_, ?_, ?_, ?_, ?_, ?_⟩
      · rw [h1]; simp [ImportState.skip, List.filter_cons, hex]
      · rw [h2]; simp [ImportState.skip, List.filter_cons, hex]
      · rw [h3]; simp [ImportState.skip, List.filter_cons, hex]
      · rw [h4]; simp [ImportState.skip, List.filter_cons, hex]; omega
      · rw [h5]; simp [ImportState.skip]
      · rw [h6]; simp [ImportState.skip]
      · rw [h7]; simp [ImportState.skip]

/-- The import loop on rows that are all new, writing enabled, whatever the
strategy: every row is appended as parsed, and the counter moves by one per row. -/
theorem importLoop_all_new (existing : String → Option Nat) (conflict : String) (verbose : Bool)
    (parseTime : String → Option Int) (now : Nat → String) (rows : List Task) :
    ∀ (k : Nat) (st : ImportState), (∀ c ∈ rows, c.ID ≤ st.NextID) →
      (∀ c ∈ rows, existing c.UUID = none) →
      (importLoop existing conflict ⟨false, verbose⟩ parseTime now k rows st).Tasks
          = st.Tasks ++ rows ∧
      (importLoop existing conflict ⟨false, verbose⟩ parseTime now k rows st).NextID
          = st.NextID + (rows.length : Int) ∧
      (importLoop existing conflict ⟨false, verbose⟩ parseTime now k rows st).result
          = { st.result with NewTasks := st.result.NewTasks + (rows.length : Int) } := by
  induction rows with
  | nil => intro k st _ _; simp [importLoop]
  | cons c rest ih =>
    intro k st hid hnew
    have hc : c.ID ≤ st.NextID := hid c (List.mem_cons_self _ _)
    have hrest : ∀ c2 ∈ rest, c2.ID ≤ st.NextID := fun c2 h2 => hid c2 (List.mem_cons_of_mem _ h2)
    have hex : existing c.UUID = none := hnew c (List.mem_cons_self _ _)
    have hstep : importLoop existing conflict ⟨false, verbose⟩ parseTime now k (c :: rest) st
        = importLoop existing conflict ⟨false, verbose⟩ parseTime now (k + 1) rest
            (ImportState.append
              { st with
                NextID := st.NextID + 1
                result := { st.result with NewTasks := st.result.NewTasks + 1 } } c) := by
      simp [importLoop, processImportTask, hex]
    rw [hstep]
    have hnext : (ImportState.append
        { st with
          NextID := st.NextID + 1
          result := { st.result with NewTasks := st.result.NewTasks + 1 } } c).NextID
        = st.NextID + 1 := by
      simp only [ImportState.append]
      split
      · omega
      · rfl
    obtain ⟨h1, h2, h3⟩ := ih (k + 1) _ (by
      intro c2 h2
      rw [hnext]
      have := hrest c2 h2
      omega) (fun c2 h2 => hnew c2 (List.mem_cons_of_mem _ h2))
    rw [hnext] at h2
    refine ⟨?_, ?_, ?_⟩
    · rw [h1]; simp [ImportState.append]
    · rw [h2]; simp; omega
    · rw [h3]; simp [ImportState.append]; omega



theorem processImportTask_skip_cells (c : Task) (existing : String → Option Nat)
    (parseTime : String → Option Int) (now : String) (st : ImportState) :
    (processImportTask c existing "skip" parseTime now st).1.cells = st.cells := by
  unfold processImportTask
  split <;> simp [ImportState.skip]

/-- While no colliding row is newer than the task its uuid addresses, the loop
under strategy newer takes the steps of the loop under strategy skip. -/
theorem importLoop_newer_eq_skip (existing : String → Option Nat) (options : ImportOptions)
    (parseTime : String → Option Int) (now : Nat → String) (rows : List Task) :
    ∀ (k : Nat) (st : ImportState),
      (∀ c ∈ rows, ∀ i e, existing c.UUID = some i → st.cells[i]? = some e →
        isNewer parseTime c.Updated e.Updated = false) →
      importLoop existing "newer" options parseTime now k rows st
        = importLoop existing "skip" options parseTime now k rows st := by
  induction rows with
  | nil => intro k st _; rfl
  | cons c rest ih =>
    intro k st h
    have hproc : processImportTask c existing "newer" parseTime (now k) st
        = processImportTask c existing "skip" parseTime (now k) st := by
      unfold processImportTask
      cases hex : existing c.UUID with
      | none => rfl
      | some i =>
        simp only
        have h1 : ¬ ("newer" = "skip") := by decide
        have h2 : ¬ ("newer" = "update") := by decide
        simp only [h1, h2, if_false, if_true]
        cases hcell : st.cells.get? i with
        | none => rfl
        | some e =>
          have hn := h c (List.mem_cons_self _ _) i e hex (by simpa using hcell)
          simp [hn]
    simp only [importLoop, hproc]
    apply ih
    intro c2 hc2 i e hex2 hcell
    apply h c2 (List.mem_cons_of_mem _ hc2) i e hex2
    have hcells := processImportTask_skip_cells c existing parseTime (now k) st
    split at hcell
    · simpa [ImportState.append, hcells] using hcell
    · simpa [hcells] using hcell

/-- The cells behind the pointers and the report evolve in the same way whether
or not the loop is allowed to write to the store. -/
theorem processImportTask_cells_result (c : Task) (existing : String → Option Nat)
    (conflict : String) (parseTime : String → Option Int) (now : String)
    (st st2 : ImportState) (hc : st.cells = st2.cells) (hr : st.result = st2.result) :
    (processImportTask c existing conflict parseTime now st).1.cells
        = (processImportTask c existing conflict parseTime now st2).1.cells ∧
      (processImportTask c existing conflict parseTime now st).1.result
        = (processImportTask c existing conflict parseTime now st2).1.result ∧
      (processImportTask c existing conflict parseTime now st).2
        = (processImportTask c existing conflict parseTime now st2).2 := by
  unfold processImportTask
  cases existing c.UUID with
  | none => simp [hc, hr]
  | some i =>
    simp only
    by_cases h1 : conflict = "skip"
    · simp [h1, ImportState.skip, hc, hr]
    · by_cases h2 : conflict = "update"
      · simp [h1, h2, ImportState.update, hc, hr]
      · by_cases h3 : conflict = "newer"
        · simp only [h1, h2, h3, if_false, if_true]
          rw [hc]
          cases st2.cells.get? i with
          | none => simp [ImportState.skip, hc, hr]
          | some e =>
            simp only
            by_cases hn : isNewer parseTime c.Updated e.Updated = true
            · simp [hn, ImportState.update, hc, hr]
            · simp [hn, ImportState.skip, hc, hr]
        · simp [h1, h2, h3, hc, hr]

theorem importLoop_cells_result (existing : String → Option Nat) (conflict : String)
    (options options2 : ImportOptions) (parseTime : String → Option Int) (now : Nat → String)
    (rows : List Task) :
    ∀ (k : Nat) (st st2 : ImportState), st.cells = st2.cells → st.result = st2.result →
      (importLoop existing conflict options parseTime now k rows st).result
        = (importLoop existing conflict options2 parseTime now k rows st2).result := by
  induction rows with
  | nil => intro k st st2 _ hr; exact hr
  | cons c rest ih =>
    intro k st st2 hc hr
    simp only [importLoop]
    obtain ⟨h1, h2, _⟩ := processImportTask_cells_result c existing conflict parseTime (now k)
      st st2 hc hr
    apply ih
    · split <;> split <;> simp [ImportState.append, h1]
    · split <;> split <;> simp [ImportState.append, h2]



/-- The reconciliation in merge mode with strategy skip, writing enabled. -/
theorem ImportCSV_merge_skip (tm : TodoManager) (filename : String) (tasks : List Task)
    (parseErrors : List String) (verbose confirm : Bool) (spare : Nat)
    (parseTime : String → Option Int) (now : Nat → String)
    (hcand : ∀ t ∈ tasks, t.ID = tm.NextID ∧ t.UUID ≠ "") :
    ∃ err,
      tm.ImportCSV filename true tasks parseErrors "merge" "skip" ⟨false, verbose⟩ confirm spare
          parseTime now
        = ({ Tasks := tm.Tasks ++ tasks.filter (fun c => decide (c.UUID ∉ tm.Tasks.map Task.UUID))
             NextID := tm.NextID
               + ((tasks.filter (fun c => decide (c.UUID ∉ tm.Tasks.map Task.UUID))).length : Int) },
           some { NewTasks :=
                    ((tasks.filter (fun c => decide (c.UUID ∉ tm.Tasks.map Task.UUID))).length : Int)
                  UpdatedTasks := 0
                  SkippedTasks :=
                    ((tasks.filter (fun c => decide (c.UUID ∈ tm.Tasks.map Task.UUID))).length : Int)
                  Errors := parseErrors
                  Warnings := [] },
           err) ∧
      (tasks ≠ [] → err = none) := by
  cases tasks with
  | nil =>
    refine ⟨some "aucune tâche valide trouvée dans le CSV", ?_, fun h => absurd rfl h⟩
    simp [TodoManager.ImportCSV]
  | cons c0 rest =>
    refine ⟨none, ?_, fun _ => rfl⟩
    have hnew : ∀ c ∈ c0 :: rest,
        (existingTasks tm.Tasks c.UUID).isNone = decide (c.UUID ∉ tm.Tasks.map Task.UUID) := by
      intro c hc
      have := existingTasks_none tm.Tasks c.UUID (hcand c hc).2
      cases hex : existingTasks tm.Tasks c.UUID with
      | none => simpa using this.mp hex
      | some i =>
        have hmem : ¬ (c.UUID ∉ tm.Tasks.map Task.UUID) := fun hn => by
          rw [this.mpr hn] at hex; cases hex
        simp only [Option.isNone_some]
        exact (decide_eq_false hmem).symm
    have hold : ∀ c ∈ c0 :: rest,
        (existingTasks tm.Tasks c.UUID).isSome = decide (c.UUID ∈ tm.Tasks.map Task.UUID) := by
      intro c hc
      have := hnew c hc
      cases hex : existingTasks tm.Tasks c.UUID with
      | none =>
        rw [hex] at this
        simp only [Option.isNone_none] at this
        have h2 := of_decide_eq_true this.symm
        simp only [Option.isSome_none]
        exact (decide_eq_false h2).symm
      | some i =>
        rw [hex] at this
        simp only [Option.isNone_some] at this
        have h2 := of_decide_eq_false this.symm
        simp only [Option.isSome_some]
        exact (decide_eq_true (not_not.mp h2)).symm
    obtain ⟨h1, h2, h3, h4, h5, h6, h7⟩ :=
      importLoop_skip (existingTasks tm.Tasks) verbose parseTime now (c0 :: rest) 0
        { Tasks := tm.Tasks, NextID := tm.NextID, cells := tm.Tasks, shared := true,
          room := spare,
          result := { NewTasks := 0, UpdatedTasks := 0, SkippedTasks := 0,
                      Errors := [] ++ parseErrors, Warnings := [] } }
        (fun c hc => le_of_eq (hcand c hc).1)
    rw [List.filter_congr hnew] at h1 h2 h3
    rw [List.filter_congr hold] at h4
    have hm : ¬ ("merge" = "replace") := by decide
    simp only [TodoManager.ImportCSV, Bool.not_true, Bool.false_eq_true, if_false,
      List.length_cons, Nat.succ_ne_zero, hm, decide_False, Bool.false_and, Bool.and_false]
    refine Prod.ext ?_ (Prod.ext ?_ rfl)
    · simp only [h1, h2]
    · simp only [Option.some.injEq]
      cases hres : (importLoop (existingTasks tm.Tasks) "skip" ⟨false, verbose⟩ parseTime now 0
        (c0 :: rest)
        { Tasks := tm.Tasks, NextID := tm.NextID, cells := tm.Tasks, shared := true,
          room := spare,
          result := { NewTasks := 0, UpdatedTasks := 0, SkippedTasks := 0,
                      Errors := [] ++ parseErrors, Warnings := [] } }).result with
      | mk n u s e w =>
        rw [hres] at h3 h4 h5 h6 h7
        simp only at h3 h4 h5 h6 h7
        simp [h3, h4, h5, h6, h7]

/-! ### The import reconciler -/

/-- C12 (code defect). In a merge import that writes, rows whose uuids are all
unknown to the store are appended in file order, reported as new, and the
counter ends at k + n; but every appended row keeps the id k it was parsed
with, since the id assigned in processImportTask is given to a copy. For the
empty store and the two-row file the ids are 1, 1 where the claim says 1, 2. -/
theorem C12_new_rows_share_one_id :
    (∀ (tm : TodoManager) (filename : String) (file : CsvFile) (conflict : String)
        (verbose : Bool) (env : ImportEnv) (tasks : List Task) (parseErrors : List String),
      env.fileExists = true → tm.parseCSV env file = some (tasks, parseErrors) →
      tasks ≠ [] → (∀ c ∈ tasks, c.UUID ∉ tm.Tasks.map Task.UUID) →
      ∃ result,
        tm.importCSVFile filename file "merge" conflict ⟨false, verbose⟩ env
          = some ({ Tasks := tm.Tasks ++ tasks, NextID := tm.NextID + (tasks.length : Int) },
              some result, none) ∧
        result.NewTasks = (tasks.length : Int) ∧ ∀ c ∈ tasks, c.ID = tm.NextID) ∧
    (TodoManager.empty.importCSVFile "import_test.csv" sampleFile "merge" "skip" ⟨false, false⟩
        sampleEnv).map
      (fun r => (r.1.Tasks.map Task.ID, r.1.NextID, r.2.1.map ImportResult.NewTasks))
      = some ([1, 1], 3, some 2) := by
  refine ⟨?_, by decide⟩
  intro tm filename file conflict verbose env tasks parseErrors hex hparse hne hnew
  have hcand := parseCSV_candidates tm env file tasks parseErrors hparse
  have hnone : ∀ c ∈ tasks, existingTasks tm.Tasks c.UUID = none := fun c hc =>
    (existingTasks_none tm.Tasks c.UUID (hcand c hc).2).mpr (hnew c hc)
  obtain ⟨h1, h2, h3⟩ :=
    importLoop_all_new (existingTasks tm.Tasks) conflict verbose
      (env.timeParse "2006-01-02 15:04:05") env.updateNow tasks 0
      { Tasks := tm.Tasks, NextID := tm.NextID, cells := tm.Tasks, shared := true,
        room := env.spare,
        result := { NewTasks := 0, UpdatedTasks := 0, SkippedTasks := 0,
                    Errors := [] ++ parseErrors, Warnings := [] } }
      (fun c hc => le_of_eq (hcand c hc).1) hnone
  have hlen : ¬ tasks.length = 0 := fun h => hne (List.length_eq_zero.mp h)
  have hm : ¬ ("merge" = "replace") := by decide
  refine ⟨{ NewTasks := (tasks.length : Int), UpdatedTasks := 0, SkippedTasks := 0,
            Errors := parseErrors, Warnings := [] }, ?_, rfl, fun c hc => (hcand c hc).1⟩
  simp only [TodoManager.importCSVFile, hex, hparse, TodoManager.ImportCSV, Bool.not_true,
    Bool.false_eq_true, if_false, hlen, hm, decide_False, Bool.false_and, Bool.and_false]
  rw [h1, h2, h3]
  simp



/-- C13 (code defect). A dry run writes to the store: processImportTask raises
the counter and applies updates without looking at the dry-run flag. A dry run
of the two-row file with strategy update over the one-task store rewrites the
stored task and moves the counter from 2 to 3; a dry run over the empty store
moves the counter from 1 to 3. -/
theorem C13_dry_run_writes :
    (sampleStore.importCSVFile "import_test.csv" sampleFile "merge" "update" ⟨true, false⟩
        sampleEnv).map (fun r => r.1)
      = some { Tasks := [⟨1, "123e4567-e89b-42d3-a456-426614174000", "Tâche importée 1", false,
                          "high", "2025-07-25", ["+import", "@test"], "2025-07-09 10:00:00",
                          "2025-07-10 08:00:01"⟩],
               NextID := 3 } ∧
    (TodoManager.empty.importCSVFile "import_test.csv" sampleFile "merge" "skip" ⟨true, false⟩
        sampleEnv).map (fun r => r.1)
      = some { Tasks := [], NextID := 3 } := by
  decide

/-- C14 (code defect). In replace mode a dry run does not clear the store, so it
matches rows against tasks the real run has already deleted: for the one-task
store and a file whose only row carries that task's uuid, the dry run reports
0 new and 1 skipped, the real run 1 new and 0 skipped. In any other mode the
two runs return the same report and the same error. -/
theorem C14_dry_run_counts :
    ((sampleStore.importCSVFile "import_test.csv" sampleFileCollision "replace" "skip"
        ⟨true, false⟩ sampleEnv).map
        (fun r => r.2.1.map (fun x => (x.NewTasks, x.UpdatedTasks, x.SkippedTasks)))
      = some (some (0, 0, 1)) ∧
     (sampleStore.importCSVFile "import_test.csv" sampleFileCollision "replace" "skip"
        ⟨false, false⟩ sampleEnv).map
        (fun r => r.2.1.map (fun x => (x.NewTasks, x.UpdatedTasks, x.SkippedTasks)))
      = some (some (1, 0, 0))) ∧
    (∀ (tm : TodoManager) (filename : String) (file : CsvFile) (mode conflict : String)
        (verbose : Bool) (env : ImportEnv), mode ≠ "replace" →
      (tm.importCSVFile filename file mode conflict ⟨true, verbose⟩ env).map (fun r => r.2)
        = (tm.importCSVFile filename file mode conflict ⟨false, verbose⟩ env).map
            (fun r => r.2)) := by
  refine ⟨by decide, ?_⟩
  intro tm filename file mode conflict verbose env hmode
  unfold TodoManager.importCSVFile
  split
  · simp [TodoManager.ImportCSV]
  · split
    · rfl
    · rename_i tasks parseErrors _
      simp only [Option.map_some', Option.some.injEq, TodoManager.ImportCSV, Bool.not_true,
        Bool.false_eq_true, if_false, hmode, decide_False, Bool.false_and]
      split
      · rfl
      · simp only [Prod.mk.injEq, Option.some.injEq, and_true]
        exact importLoop_cells_result _ _ _ _ _ _ _ _ _ _ rfl rfl

/-- C15 (code defect). The map of existing tasks holds pointers into the task
slice; once a new row has been appended to a full slice the slice lives in a
new array and an update written through the map no longer reaches the store.
With the new row first, the stored task keeps its old text although the report
counts one update; with the colliding row first the update arrives. -/
theorem C15_update_after_append_is_lost :
    (sampleStore.importCSVFile "import_test.csv" sampleFileNewFirst "merge" "update"
        ⟨false, false⟩ sampleEnv).map
        (fun r => (r.1.Tasks.head?, r.2.1.map ImportResult.UpdatedTasks))
      = some (sampleStore.Tasks.head?, some 1) ∧
    (sampleStore.importCSVFile "import_test.csv" sampleFile "merge" "update"
        ⟨false, false⟩ sampleEnv).map
        (fun r => (r.1.Tasks.head?, r.2.1.map ImportResult.UpdatedTasks))
      = some (some ⟨1, "123e4567-e89b-42d3-a456-426614174000", "Tâche importée 1", false,
                    "high", "2025-07-25", ["+import", "@test"], "2025-07-09 10:00:00",
                    "2025-07-10 08:00:01"⟩, some 1) := by
  decide

/-- C18 (code defect). The rows are parsed before the store is cleared, so they
carry the old counter as their id, and the append pushes the counter above that
id. Replacing the one-task store (counter 2) by a one-row file leaves the row
with id 2 and the counter at 3, not 2; with the two-row file the ids are 2, 2
and the counter is 4, not 3. -/
theorem C18_replace_counter :
    (sampleStore.importCSVFile "import_test.csv" sampleFileCollision "replace" "skip"
        ⟨false, false⟩ sampleEnv).map
        (fun r => (r.1.Tasks.map (fun t => (t.ID, t.Text)), r.1.NextID,
          r.2.1.map ImportResult.NewTasks))
      = some ([(2, "Tâche importée 1")], 3, some 1) ∧
    (sampleStore.importCSVFile "import_test.csv" sampleFile "replace" "skip"
        ⟨false, false⟩ sampleEnv).map
        (fun r => (r.1.Tasks.map (fun t => (t.ID, t.Text)), r.1.NextID,
          r.2.1.map ImportResult.NewTasks))
      = some ([(2, "Tâche importée 1"), (2, "Tâche importée 2")], 4, some 2) := by
  decide

/-- C19 (code defect). createTaskFromCSVRecord returns the task with the
fallback value and a message, but parseCSV drops every row that comes back
with a message. The row with priority "urgent" yields a task with priority
unset and one message; parseCSV returns no candidate for it, and the import of
the file fails for want of a valid row. -/
theorem C19_row_with_message_is_dropped :
    createTaskFromCSVRecord sampleStore Char.toLower goTimeParse ["Tâche importée 1", "urgent"]
        (columnMapFrom Char.toLower 0 (fun _ => none) ["Text", "Priority"]) 0 2
        "2025-07-10 08:00:00" "2025-07-10 08:00:00" (fun i => 2 + i)
      = some (⟨2, "02030405-0607-4809-8a0b-0c0d0e0f1011", "Tâche importée 1", false, "", "", [],
               "2025-07-10 08:00:00", "2025-07-10 08:00:00"⟩,
              ["ligne 2: priorité 'urgent' invalide, ignorée"]) ∧
    sampleStore.parseCSV sampleEnv sampleFileBadPriority
      = some ([], ["ligne 2: priorité 'urgent' invalide, ignorée"]) ∧
    sampleStore.importCSVFile "import_test.csv" sampleFileBadPriority "merge" "skip"
        ⟨false, false⟩ sampleEnv
      = some (sampleStore,
          some ⟨0, 0, 0, ["ligne 2: priorité 'urgent' invalide, ignorée"], []⟩,
          some "aucune tâche valide trouvée dans le CSV") := by
  decide



/-- C16. In a merge import with strategy skip that writes, the store ends as the
old task list, untouched and in place, followed by the rows whose uuid the
store did not hold; every row whose uuid the store held is counted as skipped
and nothing is counted as updated. When the only valid row carries a uuid of
the store, the report is 1 skipped, 0 new, 0 updated, no error, and the store
(tasks and NextID) is the one before the call. -/
theorem C16_skip_keeps_store (tm : TodoManager) (filename : String) (file : CsvFile)
    (verbose : Bool) (env : ImportEnv) (tasks : List Task) (parseErrors : List String)
    (hex : env.fileExists = true) (hparse : tm.parseCSV env file = some (tasks, parseErrors)) :
    ∃ tm2 result err,
      tm.importCSVFile filename file "merge" "skip" ⟨false, verbose⟩ env
        = some (tm2, some result, err) ∧
      tm2.Tasks = tm.Tasks ++ tasks.filter (fun c => decide (c.UUID ∉ tm.Tasks.map Task.UUID)) ∧
      result.SkippedTasks
        = ((tasks.filter (fun c => decide (c.UUID ∈ tm.Tasks.map Task.UUID))).length : Int) ∧
      result.NewTasks
        = ((tasks.filter (fun c => decide (c.UUID ∉ tm.Tasks.map Task.UUID))).length : Int) ∧
      result.UpdatedTasks = 0 ∧
      (∀ c, tasks = [c] → c.UUID ∈ tm.Tasks.map Task.UUID →
        tm2 = tm ∧ result.SkippedTasks = 1 ∧ result.NewTasks = 0 ∧ result.UpdatedTasks = 0 ∧
          err = none) := by
  have hcand := parseCSV_candidates tm env file tasks parseErrors hparse
  obtain ⟨err, himp, herr⟩ := ImportCSV_merge_skip tm filename tasks parseErrors verbose
    env.confirm env.spare (env.timeParse "2006-01-02 15:04:05") env.updateNow hcand
  refine ⟨{ Tasks := tm.Tasks ++ tasks.filter (fun c => decide (c.UUID ∉ tm.Tasks.map Task.UUID))
            NextID := tm.NextID
              + ((tasks.filter (fun c => decide (c.UUID ∉ tm.Tasks.map Task.UUID))).length : Int) },
    { NewTasks := ((tasks.filter (fun c => decide (c.UUID ∉ tm.Tasks.map Task.UUID))).length : Int)
      UpdatedTasks := 0
      SkippedTasks :=
        ((tasks.filter (fun c => decide (c.UUID ∈ tm.Tasks.map Task.UUID))).length : Int)
      Errors := parseErrors
      Warnings := [] }, err, ?_, rfl, rfl, rfl, rfl, ?_⟩
  · simp only [TodoManager.importCSVFile, hex, hparse, Bool.not_true, Bool.false_eq_true,
      if_false]
    rw [himp]
  · intro c hc hmem
    subst hc
    have hd1 : decide (c.UUID ∉ tm.Tasks.map Task.UUID) = false :=
      decide_eq_false (not_not.mpr hmem)
    have hd2 : decide (c.UUID ∈ tm.Tasks.map Task.UUID) = true := decide_eq_true hmem
    have hf1 : List.filter (fun c => decide (c.UUID ∉ tm.Tasks.map Task.UUID)) [c] = [] := by
      simp only [List.filter_cons, List.filter_nil, hd1, Bool.false_eq_true, if_false]
    have hf2 : List.filter (fun c => decide (c.UUID ∈ tm.Tasks.map Task.UUID)) [c] = [c] := by
      simp only [List.filter_cons, List.filter_nil, hd2, if_true]
    refine ⟨?_, ?_, ?_, rfl, herr (by simp)⟩
    · rw [hf1]; simp
    · rw [hf2]; rfl
    · rw [hf1]; rfl

theorem C16_skip_keeps_store_witness :
    sampleEnv.fileExists = true ∧
    sampleStore.parseCSV sampleEnv sampleFileCollision = some ([sampleCollidingRow], []) ∧
    ∃ tm2 result err,
      sampleStore.importCSVFile "import_test.csv" sampleFileCollision "merge" "skip"
          ⟨false, false⟩ sampleEnv
        = some (tm2, some result, err) ∧
      tm2.Tasks = sampleStore.Tasks ++
        [sampleCollidingRow].filter
          (fun c => decide (c.UUID ∉ sampleStore.Tasks.map Task.UUID)) ∧
      result.SkippedTasks
        = (([sampleCollidingRow].filter
            (fun c => decide (c.UUID ∈ sampleStore.Tasks.map Task.UUID))).length : Int) ∧
      result.NewTasks
        = (([sampleCollidingRow].filter
            (fun c => decide (c.UUID ∉ sampleStore.Tasks.map Task.UUID))).length : Int) ∧
      result.UpdatedTasks = 0 ∧
      (∀ c, [sampleCollidingRow] = [c] → c.UUID ∈ sampleStore.Tasks.map Task.UUID →
        tm2 = sampleStore ∧ result.SkippedTasks = 1 ∧ result.NewTasks = 0 ∧
          result.UpdatedTasks = 0 ∧ err = none) :=
  ⟨rfl, by decide,
    C16_skip_keeps_store sampleStore "import_test.csv" sampleFileCollision false sampleEnv
      [sampleCollidingRow] [] rfl (by decide)⟩

/-- C17. When no row parsed from the file is newer, by isNewer, than a stored
task with the same uuid (rows or tasks whose updated stamp does not parse
included), ImportCSV with strategy newer returns what ImportCSV with strategy
skip returns: the same store, the same report, the same error, in every mode
and with or without dry run. -/
theorem C17_newer_as_skip (tm : TodoManager) (filename : String) (file : CsvFile)
    (mode : String) (options : ImportOptions) (env : ImportEnv)
    (h : ∀ tasks parseErrors, tm.parseCSV env file = some (tasks, parseErrors) →
      ∀ c ∈ tasks, ∀ e ∈ tm.Tasks, e.UUID = c.UUID →
        isNewer (env.timeParse "2006-01-02 15:04:05") c.Updated e.Updated = false) :
    tm.importCSVFile filename file mode "newer" options env
      = tm.importCSVFile filename file mode "skip" options env := by
  unfold TodoManager.importCSVFile
  split
  · simp [TodoManager.ImportCSV]
  · split
    · rfl
    · rename_i tasks parseErrors hparse
      have hh := h tasks parseErrors hparse
      congr 1
      have key : ∀ (tm1 : TodoManager) (room : Nat) (result : ImportResult),
          (tm1 = tm ∨ tm1.Tasks = []) →
          importLoop (existingTasks tm1.Tasks) "newer" options
              (env.timeParse "2006-01-02 15:04:05") env.updateNow 0 tasks
              { Tasks := tm1.Tasks, NextID := tm1.NextID, cells := tm1.Tasks, shared := true,
                room := room, result := result }
            = importLoop (existingTasks tm1.Tasks) "skip" options
              (env.timeParse "2006-01-02 15:04:05") env.updateNow 0 tasks
              { Tasks := tm1.Tasks, NextID := tm1.NextID, cells := tm1.Tasks, shared := true,
                room := room, result := result } := by
        intro tm1 room result htm
        apply importLoop_newer_eq_skip
        intro c hc i e hex hcell
        simp only at hcell
        obtain ⟨e2, he2, hu⟩ := existingTasks_some _ _ _ hex
        rw [he2] at hcell
        injection hcell with hcell
        subst hcell
        rcases htm with htm | htm
        · subst htm
          exact hh c hc e2 (List.getElem?_mem he2) hu
        · rw [htm] at he2
          simp at he2
      unfold TodoManager.ImportCSV
      simp only [Bool.not_true, Bool.false_eq_true, if_false]
      split
      · rfl
      · split
        · rfl
        · by_cases hr : (decide (mode = "replace") && !options.DryRun) = true
          · simp only [hr, if_true]
            rw [key { Tasks := [], NextID := 1 } 0 _ (Or.inr rfl)]
          · simp only [hr, Bool.false_eq_true, if_false]
            rw [key tm env.spare _ (Or.inl rfl)]

theorem C17_newer_as_skip_witness :
    (∀ tasks parseErrors, sampleStore.parseCSV sampleEnv sampleFileCollision
        = some (tasks, parseErrors) →
      ∀ c ∈ tasks, ∀ e ∈ sampleStore.Tasks, e.UUID = c.UUID →
        isNewer (sampleEnv.timeParse "2006-01-02 15:04:05") c.Updated e.Updated = false) ∧
    sampleStore.importCSVFile "import_test.csv" sampleFileCollision "merge" "newer"
        ⟨false, false⟩ sampleEnv
      = sampleStore.importCSVFile "import_test.csv" sampleFileCollision "merge" "skip"
        ⟨false, false⟩ sampleEnv :=
  have hyp : ∀ tasks parseErrors, sampleStore.parseCSV sampleEnv sampleFileCollision
        = some (tasks, parseErrors) →
      ∀ c ∈ tasks, ∀ e ∈ sampleStore.Tasks, e.UUID = c.UUID →
        isNewer (sampleEnv.timeParse "2006-01-02 15:04:05") c.Updated e.Updated = false := by
    intro tasks parseErrors hp
    have hval : sampleStore.parseCSV sampleEnv sampleFileCollision
        = some ([sampleCollidingRow], []) := by decide
    rw [hval] at hp
    injection hp with hp
    injection hp with h1 h2
    subst h1
    decide
  ⟨hyp, C17_newer_as_skip sampleStore "import_test.csv" sampleFileCollision "merge"
    ⟨false, false⟩ sampleEnv hyp⟩

/-! ## Helper lemmas: export, reader and round trip -/

/-! ### The reader on exported text -/

theorem readRecords_unquoted_comma (f : List Char)
    (hf : ∀ c ∈ f, c ≠ ',' ∧ c ≠ '"' ∧ c ≠ '\n') :
    ∀ (cur : List Char) (fields : List String) (rest : List Char),
      readRecords (f ++ ',' :: rest) .unquoted cur fields
        = readRecords rest .fieldStart [] (fields ++ [String.mk (cur ++ f)]) := by
  induction f with
  | nil => intro cur fields rest; simp [readRecords]
  | cons c f ih =>
    intro cur fields rest
    obtain ⟨h1, h2, h3⟩ := hf c (List.mem_cons_self _ _)
    have := ih (fun d hd => hf d (List.mem_cons_of_mem _ hd)) (cur ++ [c]) fields rest
    simp [readRecords, h1, h2, h3, this]

theorem readRecords_unquoted_eol (f : List Char)
    (hf : ∀ c ∈ f, c ≠ ',' ∧ c ≠ '"' ∧ c ≠ '\n') :
    ∀ (cur : List Char) (fields : List String) (rest : List Char),
      readRecords (f ++ '\n' :: rest) .unquoted cur fields
        = .ok (fields ++ [String.mk (cur ++ f)]) :: readRecords rest .fieldStart [] [] := by
  induction f with
  | nil => intro cur fields rest; simp [readRecords]
  | cons c f ih =>
    intro cur fields rest
    obtain ⟨h1, h2, h3⟩ := hf c (List.mem_cons_self _ _)
    have := ih (fun d hd => hf d (List.mem_cons_of_mem _ hd)) (cur ++ [c]) fields rest
    simp [readRecords, h1, h2, h3, this]

theorem readRecords_unquoted_eof (f : List Char)
    (hf : ∀ c ∈ f, c ≠ ',' ∧ c ≠ '"' ∧ c ≠ '\n') :
    ∀ (cur : List Char) (fields : List String),
      readRecords f .unquoted cur fields = [.ok (fields ++ [String.mk (cur ++ f)])] := by
  induction f with
  | nil => intro cur fields; simp [readRecords]
  | cons c f ih =>
    intro cur fields
    obtain ⟨h1, h2, h3⟩ := hf c (List.mem_cons_self _ _)
    have := ih (fun d hd => hf d (List.mem_cons_of_mem _ hd)) (cur ++ [c]) fields
    simp [readRecords, h1, h2, h3, this]

/-- An unquoted field without comma, quote or line feed, followed by a comma. -/
theorem readRecords_field_comma (f : List Char)
    (hf : ∀ c ∈ f, c ≠ ',' ∧ c ≠ '"' ∧ c ≠ '\n') (cur : List Char) (fields : List String)
    (rest : List Char) :
    readRecords (f ++ ',' :: rest) .fieldStart cur fields
      = readRecords rest .fieldStart [] (fields ++ [String.mk f]) := by
  cases f with
  | nil => simp [readRecords]
  | cons c f =>
    obtain ⟨h1, h2, h3⟩ := hf c (List.mem_cons_self _ _)
    have := readRecords_unquoted_comma f (fun d hd => hf d (List.mem_cons_of_mem _ hd)) [c]
      fields rest
    simp [readRecords, h1, h2, h3, this]

/-- The last field of a record, unquoted, at the end of a line or of the input. -/
theorem readRecords_field_last (f : List Char)
    (hf : ∀ c ∈ f, c ≠ ',' ∧ c ≠ '"' ∧ c ≠ '\n') (cur : List Char) (fields : List String)
    (hfields : fields ≠ []) :
    readRecords f .fieldStart cur fields = [.ok (fields ++ [String.mk f])] ∧
    ∀ rest, readRecords (f ++ '\n' :: rest) .fieldStart cur fields
      = .ok (fields ++ [String.mk f]) :: readRecords rest .fieldStart [] [] := by
  cases f with
  | nil =>
    constructor
    · simp [readRecords, hfields]
    · intro rest; simp [readRecords, hfields]
  | cons c f =>
    obtain ⟨h1, h2, h3⟩ := hf c (List.mem_cons_self _ _)
    have hf2 : ∀ d ∈ f, d ≠ ',' ∧ d ≠ '"' ∧ d ≠ '\n' := fun d hd => hf d (List.mem_cons_of_mem _ hd)
    constructor
    · have := readRecords_unquoted_eof f hf2 [c] fields
      simp [readRecords, h1, h2, h3, this]
    · intro rest
      have := readRecords_unquoted_eol f hf2 [c] fields rest
      simp [readRecords, h1, h2, h3, this]

theorem readRecords_quoted (t : List Char) :
    ∀ (cur : List Char) (fields : List String) (rest : List Char),
      readRecords (quoteDouble t ++ '"' :: ',' :: rest) .quoted cur fields
        = readRecords rest .fieldStart [] (fields ++ [String.mk (cur ++ t)]) := by
  induction t with
  | nil => intro cur fields rest; simp [quoteDouble, readRecords]
  | cons c t ih =>
    intro cur fields rest
    have h := ih (cur ++ [c]) fields rest
    by_cases hc : c = '"'
    · subst hc
      simp only [quoteDouble, List.flatMap_cons, if_true, List.cons_append, List.nil_append,
        readRecords] at h ⊢
      simpa using h
    · simp only [quoteDouble, List.flatMap_cons, hc, if_false, List.cons_append,
        List.nil_append, readRecords] at h ⊢
      simpa using h

/-- A quoted field whose quotes are doubled, followed by a comma. -/
theorem readRecords_quoted_field (t : List Char) (cur : List Char) (fields : List String)
    (rest : List Char) :
    readRecords ('"' :: (quoteDouble t ++ '"' :: ',' :: rest)) .fieldStart cur fields
      = readRecords rest .fieldStart [] (fields ++ [String.mk t]) := by
  have := readRecords_quoted t [] fields rest
  simp [readRecords, this]

theorem quoteDouble_of_no_quote (l : List Char) (h : ∀ c ∈ l, c ≠ '"') : quoteDouble l = l := by
  induction l with
  | nil => rfl
  | cons c l ih =>
    have hc := h c (List.mem_cons_self _ _)
    have := ih (fun d hd => h d (List.mem_cons_of_mem _ hd))
    simp only [quoteDouble, List.flatMap_cons, hc, if_false] at this ⊢
    simp [this]

theorem dropCR_of_no_cr (l : List Char) (h : ∀ c ∈ l, c ≠ '\r') : dropCR l = l := by
  induction l with
  | nil => rfl
  | cons c l ih =>
    have hc := h c (List.mem_cons_self _ _)
    have hl := ih (fun d hd => h d (List.mem_cons_of_mem _ hd))
    cases l with
    | nil => simp [dropCR, hc]
    | cons d l => simp [dropCR, hc, hl]



/-! ### The decimal rendering of an id -/

theorem digitChar_plain (n : Nat) (h : n < 10) :
    Nat.digitChar n ≠ ',' ∧ Nat.digitChar n ≠ '"' ∧ Nat.digitChar n ≠ '\n' ∧
      Nat.digitChar n ≠ '\r' := by
  interval_cases n <;> decide

theorem toDigitsCore_plain (fuel : Nat) :
    ∀ (n : Nat) (ds : List Char),
      (∀ c ∈ ds, c ≠ ',' ∧ c ≠ '"' ∧ c ≠ '\n' ∧ c ≠ '\r') →
      ∀ c ∈ Nat.toDigitsCore 10 fuel n ds, c ≠ ',' ∧ c ≠ '"' ∧ c ≠ '\n' ∧ c ≠ '\r' := by
  induction fuel with
  | zero => intro n ds h; simpa [Nat.toDigitsCore] using h
  | succ fuel ih =>
    intro n ds h
    have hd := digitChar_plain (n % 10) (Nat.mod_lt _ (by decide))
    have hcons : ∀ c ∈ Nat.digitChar (n % 10) :: ds,
        c ≠ ',' ∧ c ≠ '"' ∧ c ≠ '\n' ∧ c ≠ '\r' := by
      intro c hc
      rcases List.mem_cons.mp hc with rfl | hc
      · exact hd
      · exact h c hc
    simp only [Nat.toDigitsCore]
    split
    · exact hcons
    · exact ih _ _ hcons

theorem natRepr_plain (n : Nat) :
    ∀ c ∈ (toString n).data, c ≠ ',' ∧ c ≠ '"' ∧ c ≠ '\n' ∧ c ≠ '\r' := by
  show ∀ c ∈ (Nat.repr n).data, _
  simp only [Nat.repr, Nat.toDigits, List.asString]
  exact toDigitsCore_plain _ _ _ (by intro c hc; cases hc)

/-- The decimal rendering of an id holds no comma, quote or line break. -/
theorem intRepr_plain (i : Int) :
    ∀ c ∈ (toString i).data, c ≠ ',' ∧ c ≠ '"' ∧ c ≠ '\n' ∧ c ≠ '\r' := by
  cases i with
  | ofNat m => exact natRepr_plain m
  | negSucc m =>
    show ∀ c ∈ ("-" ++ toString (Nat.succ m)).data, _
    intro c hc
    simp only [String.data_append, List.mem_append] at hc
    rcases hc with hc | hc
    · have : c = '-' := by simpa using hc
      subst this
      decide
    · exact natRepr_plain _ c hc



theorem readRecords_exportLine (t : Task)
    (hu : ∀ c ∈ t.UUID.data, c ≠ ',' ∧ c ≠ '"' ∧ c ≠ '\n')
    (hp : ∀ c ∈ t.Priority.data, c ≠ ',' ∧ c ≠ '"' ∧ c ≠ '\n')
    (hd : ∀ c ∈ t.Due.data, c ≠ ',' ∧ c ≠ '"' ∧ c ≠ '\n')
    (hc : ∀ c ∈ t.Created.data, c ≠ ',' ∧ c ≠ '"' ∧ c ≠ '\n')
    (hup : ∀ c ∈ t.Updated.data, c ≠ ',' ∧ c ≠ '"' ∧ c ≠ '\n')
    (htags : ∀ c ∈ joinWith [' '] (t.Tags.map String.data), c ≠ '"') :
    readRecords (exportLine t) .fieldStart [] [] = [.ok (exportRecord t)] ∧
    ∀ rest, readRecords (exportLine t ++ '\n' :: rest) .fieldStart [] []
      = .ok (exportRecord t) :: readRecords rest .fieldStart [] [] := by
  have hid : ∀ c ∈ (toString t.ID).data, c ≠ ',' ∧ c ≠ '"' ∧ c ≠ '\n' := fun c hc =>
    ⟨(intRepr_plain t.ID c hc).1, (intRepr_plain t.ID c hc).2.1, (intRepr_plain t.ID c hc).2.2.1⟩
  have hdone : ∀ c ∈ (if t.Done then "true" else "false").data, c ≠ ',' ∧ c ≠ '"' ∧ c ≠ '\n' := by
    cases t.Done <;> decide
  have pre : ∀ tail : List Char,
      readRecords ((toString t.ID).data ++ ',' :: (t.UUID.data ++ ',' :: '"' ::
        (quoteDouble t.Text.data ++ '"' :: ',' ::
        ((if t.Done then "true" else "false").data ++ ',' :: (t.Priority.data ++ ',' ::
        (t.Due.data ++ ',' :: '"' :: (joinWith [' '] (t.Tags.map String.data) ++ '"' :: ',' ::
        (t.Created.data ++ ',' :: tail)))))))) .fieldStart [] []
      = readRecords tail .fieldStart []
          [toString t.ID, t.UUID, t.Text, if t.Done then "true" else "false", t.Priority, t.Due,
           String.mk (joinWith [' '] (t.Tags.map String.data)), t.Created] := by
    intro tail
    rw [readRecords_field_comma _ hid, readRecords_field_comma _ hu, readRecords_quoted_field,
      readRecords_field_comma _ hdone, readRecords_field_comma _ hp,
      readRecords_field_comma _ hd]
    have hq := readRecords_quoted_field (joinWith [' '] (t.Tags.map String.data)) []
      ([] ++ [toString t.ID] ++ [t.UUID] ++ [t.Text] ++ [if t.Done then "true" else "false"]
        ++ [t.Priority] ++ [t.Due])
      (t.Created.data ++ ',' :: tail)
    rw [quoteDouble_of_no_quote _ htags] at hq
    rw [hq, readRecords_field_comma _ hc]
    rfl
  have hlast := readRecords_field_last t.Updated.data hup []
    [toString t.ID, t.UUID, t.Text, if t.Done then "true" else "false", t.Priority, t.Due,
     String.mk (joinWith [' '] (t.Tags.map String.data)), t.Created] (by simp)
  constructor
  · have := pre t.Updated.data
    simp only [exportLine, List.append_assoc, List.cons_append] at this ⊢
    rw [this, hlast.1]
    rfl
  · intro rest
    have := pre (t.Updated.data ++ '\n' :: rest)
    simp only [exportLine, List.append_assoc, List.cons_append] at this ⊢
    rw [this, hlast.2]
    rfl



theorem mem_joinWith (sep : List Char) (ls : List (List Char)) (c : Char)
    (h : c ∈ joinWith sep ls) : c ∈ sep ∨ ∃ l ∈ ls, c ∈ l := by
  induction ls with
  | nil => cases h
  | cons x rest ih =>
    cases rest with
    | nil => exact Or.inr ⟨x, List.mem_cons_self _ _, h⟩
    | cons y rest =>
      simp only [joinWith, List.mem_append] at h
      rcases h with (h | h) | h
      · exact Or.inr ⟨x, List.mem_cons_self _ _, h⟩
      · exact Or.inl h
      · rcases ih h with h | ⟨l, hl, hc⟩
        · exact Or.inl h
        · exact Or.inr ⟨l, List.mem_cons_of_mem _ hl, hc⟩

theorem tags_joined (t : Task)
    (h : ∀ tag ∈ t.Tags, ∀ c ∈ tag.data, c ≠ '"' ∧ c ≠ '\r') :
    ∀ c ∈ joinWith [' '] (t.Tags.map String.data), c ≠ '"' ∧ c ≠ '\r' := by
  intro c hc
  rcases mem_joinWith _ _ _ hc with hc | ⟨l, hl, hc⟩
  · have : c = ' ' := by simpa using hc
    subst this
    decide
  · obtain ⟨tag, htag, rfl⟩ := List.mem_map.mp hl
    exact h tag htag c hc

theorem mem_quoteDouble (l : List Char) (c : Char) (h : c ∈ quoteDouble l) :
    c = '"' ∨ c ∈ l := by
  simp only [quoteDouble, List.mem_flatMap] at h
  obtain ⟨d, hd, hc⟩ := h
  split at hc
  · left
    simp at hc
    exact hc
  · right
    have : c = d := by simpa using hc
    exact this ▸ hd

theorem exportLine_no_cr (t : Task) (h : Readable t) : ∀ c ∈ exportLine t, c ≠ '\r' := by
  obtain ⟨hu, hp, hd, hc, hup, htags, htext⟩ := h
  have f1 : '\r' ∉ (toString t.ID).data := fun h => (intRepr_plain t.ID _ h).2.2.2 rfl
  have f2 : '\r' ∉ t.UUID.data := fun h => (hu _ h).2.2.2 rfl
  have f3 : '\r' ∉ quoteDouble t.Text.data := fun h => by
    rcases mem_quoteDouble _ _ h with h | h
    · exact absurd h (by decide)
    · exact htext _ h rfl
  have f4 : '\r' ∉ (if t.Done then "true" else "false").data := by cases t.Done <;> decide
  have f5 : '\r' ∉ t.Priority.data := fun h => (hp _ h).2.2.2 rfl
  have f6 : '\r' ∉ t.Due.data := fun h => (hd _ h).2.2.2 rfl
  have f7 : '\r' ∉ joinWith [' '] (t.Tags.map String.data) := fun h =>
    (tags_joined t htags _ h).2 rfl
  have f8 : '\r' ∉ t.Created.data := fun h => (hc _ h).2.2.2 rfl
  have f9 : '\r' ∉ t.Updated.data := fun h => (hup _ h).2.2.2 rfl
  intro c hmem hcr
  subst hcr
  simp only [exportLine, List.mem_append, List.mem_cons, f1, f2, f3, f4, f5, f6, f7, f8, f9,
    false_or, or_false] at hmem
  revert hmem
  decide



theorem readRecords_lines (ts : List Task) (h : ∀ t ∈ ts, Readable t) :
    readRecords (joinWith ['\n'] (ts.map exportLine)) .fieldStart [] []
      = ts.map (fun t => .ok (exportRecord t)) := by
  induction ts with
  | nil => simp [joinWith, readRecords]
  | cons t rest ih =>
    obtain ⟨hu, hp, hd, hc, hup, htags, _⟩ := h t (List.mem_cons_self _ _)
    have hline := readRecords_exportLine t
      (fun c hc => ⟨(hu c hc).1, (hu c hc).2.1, (hu c hc).2.2.1⟩)
      (fun c hc => ⟨(hp c hc).1, (hp c hc).2.1, (hp c hc).2.2.1⟩)
      (fun c hc => ⟨(hd c hc).1, (hd c hc).2.1, (hd c hc).2.2.1⟩)
      (fun c hc2 => ⟨(hc c hc2).1, (hc c hc2).2.1, (hc c hc2).2.2.1⟩)
      (fun c hc => ⟨(hup c hc).1, (hup c hc).2.1, (hup c hc).2.2.1⟩)
      (fun c hc => (tags_joined t htags c hc).1)
    cases rest with
    | nil => simpa [joinWith] using hline.1
    | cons t2 rest =>
      have ih2 := ih (fun x hx => h x (List.mem_cons_of_mem _ hx))
      simp only [List.map_cons, joinWith, List.append_assoc, List.singleton_append] at ih2 ⊢
      rw [hline.2, ih2]

theorem readRecords_nine_plain (a1 a2 a3 a4 a5 a6 a7 a8 a9 : List Char)
    (h1 : ∀ c ∈ a1, c ≠ ',' ∧ c ≠ '"' ∧ c ≠ '\n') (h2 : ∀ c ∈ a2, c ≠ ',' ∧ c ≠ '"' ∧ c ≠ '\n')
    (h3 : ∀ c ∈ a3, c ≠ ',' ∧ c ≠ '"' ∧ c ≠ '\n') (h4 : ∀ c ∈ a4, c ≠ ',' ∧ c ≠ '"' ∧ c ≠ '\n')
    (h5 : ∀ c ∈ a5, c ≠ ',' ∧ c ≠ '"' ∧ c ≠ '\n') (h6 : ∀ c ∈ a6, c ≠ ',' ∧ c ≠ '"' ∧ c ≠ '\n')
    (h7 : ∀ c ∈ a7, c ≠ ',' ∧ c ≠ '"' ∧ c ≠ '\n') (h8 : ∀ c ∈ a8, c ≠ ',' ∧ c ≠ '"' ∧ c ≠ '\n')
    (h9 : ∀ c ∈ a9, c ≠ ',' ∧ c ≠ '"' ∧ c ≠ '\n') :
    readRecords (a1 ++ ',' :: (a2 ++ ',' :: (a3 ++ ',' :: (a4 ++ ',' :: (a5 ++ ',' ::
        (a6 ++ ',' :: (a7 ++ ',' :: (a8 ++ ',' :: a9)))))))) .fieldStart [] []
      = [.ok [String.mk a1, String.mk a2, String.mk a3, String.mk a4, String.mk a5,
              String.mk a6, String.mk a7, String.mk a8, String.mk a9]] ∧
    ∀ rest, readRecords ((a1 ++ ',' :: (a2 ++ ',' :: (a3 ++ ',' :: (a4 ++ ',' :: (a5 ++ ',' ::
        (a6 ++ ',' :: (a7 ++ ',' :: (a8 ++ ',' :: a9)))))))) ++ '\n' :: rest) .fieldStart [] []
      = .ok [String.mk a1, String.mk a2, String.mk a3, String.mk a4, String.mk a5,
             String.mk a6, String.mk a7, String.mk a8, String.mk a9]
          :: readRecords rest .fieldStart [] [] := by
  have pre : ∀ tail : List Char,
      readRecords (a1 ++ ',' :: (a2 ++ ',' :: (a3 ++ ',' :: (a4 ++ ',' :: (a5 ++ ',' ::
        (a6 ++ ',' :: (a7 ++ ',' :: (a8 ++ ',' :: tail)))))))) .fieldStart [] []
      = readRecords tail .fieldStart []
          [String.mk a1, String.mk a2, String.mk a3, String.mk a4, String.mk a5,
           String.mk a6, String.mk a7, String.mk a8] := by
    intro tail
    rw [readRecords_field_comma _ h1, readRecords_field_comma _ h2,
      readRecords_field_comma _ h3, readRecords_field_comma _ h4,
      readRecords_field_comma _ h5, readRecords_field_comma _ h6,
      readRecords_field_comma _ h7, readRecords_field_comma _ h8]
    rfl
  have hlast := readRecords_field_last a9 h9 []
    [String.mk a1, String.mk a2, String.mk a3, String.mk a4, String.mk a5,
     String.mk a6, String.mk a7, String.mk a8] (by simp)
  constructor
  · rw [pre, hlast.1]
    rfl
  · intro rest
    have := pre (a9 ++ '\n' :: rest)
    simp only [List.append_assoc, List.cons_append] at this ⊢
    rw [this, hlast.2]
    rfl

theorem readRecords_header :
    readRecords "ID,UUID,Text,Done,Priority,Due,Tags,Created,Updated".data .fieldStart [] []
        = [.ok exportHeader] ∧
    ∀ rest, readRecords ("ID,UUID,Text,Done,Priority,Due,Tags,Created,Updated".data ++
        '\n' :: rest) .fieldStart [] []
      = .ok exportHeader :: readRecords rest .fieldStart [] [] :=
  readRecords_nine_plain "ID".data "UUID".data "Text".data "Done".data "Priority".data
    "Due".data "Tags".data "Created".data "Updated".data (by decide) (by decide) (by decide)
    (by decide) (by decide) (by decide) (by decide) (by decide) (by decide)

/-- The reader gives back, from the text of an export, the header and the
fields of every exported row. -/
theorem readCSV_export (tm : TodoManager) (h : ∀ t ∈ tm.Tasks, Readable t) :
    readCSV tm.ExportCSV
      = { openError := none, header := .ok exportHeader,
          records := tm.Tasks.map (fun t => .ok (exportRecord t)) } := by
  have hnocr : ∀ c ∈ tm.ExportCSV.data, c ≠ '\r' := by
    intro c hc
    simp only [TodoManager.ExportCSV] at hc
    rcases mem_joinWith _ _ _ hc with hc | ⟨l, hl, hc⟩
    · have : c = '\n' := by simpa using hc
      subst this
      decide
    · rcases List.mem_cons.mp hl with hl | hl
      · have hh : ∀ c ∈ "ID,UUID,Text,Done,Priority,Due,Tags,Created,Updated".data, c ≠ '\r' := by
          decide
        rw [hl] at hc
        exact hh c hc
      · obtain ⟨t, ht, rfl⟩ := List.mem_map.mp hl
        exact exportLine_no_cr t (h t ht) c hc
  have hread : readRecords tm.ExportCSV.data .fieldStart [] []
      = .ok exportHeader :: tm.Tasks.map (fun t => .ok (exportRecord t)) := by
    simp only [TodoManager.ExportCSV]
    cases hts : tm.Tasks with
    | nil => simpa [joinWith] using readRecords_header.1
    | cons t rest =>
      have hl := readRecords_lines (t :: rest) (by rw [← hts]; exact h)
      simp only [List.map_cons, joinWith, List.append_assoc, List.singleton_append] at hl ⊢
      rw [readRecords_header.2, hl]
  simp only [readCSV, dropCR_of_no_cr _ hnocr, hread]

/-! ### Characters of a valid uuid -/

theorem matchClasses_all (P : Char → Prop) :
    ∀ (classes : List (Char → Bool)) (l : List Char),
      (∀ cls ∈ classes, ∀ d, cls d = true → P d) → matchClasses classes l = true →
      ∀ d ∈ l, P d := by
  intro classes
  induction classes with
  | nil =>
    intro l _ h d hd
    cases l with
    | nil => cases hd
    | cons a l => simp [matchClasses] at h
  | cons cls classes ih =>
    intro l hcls h d hd
    cases l with
    | nil => cases hd
    | cons a l =>
      simp only [matchClasses, Bool.and_eq_true] at h
      rcases List.mem_cons.mp hd with rfl | hd
      · exact hcls cls (List.mem_cons_self _ _) _ h.1
      · exact ih l (fun c hc => hcls c (List.mem_cons_of_mem _ hc)) h.2 d hd

theorem matchClasses_length :
    ∀ (classes : List (Char → Bool)) (l : List Char),
      matchClasses classes l = true → l.length = classes.length := by
  intro classes
  induction classes with
  | nil =>
    intro l h
    cases l with
    | nil => rfl
    | cons a l => simp [matchClasses] at h
  | cons cls classes ih =>
    intro l h
    cases l with
    | nil => simp [matchClasses] at h
    | cons a l =>
      simp only [matchClasses, Bool.and_eq_true] at h
      simp [ih l h.2]

theorem uuidPattern_classes :
    ∀ cls ∈ uuidPattern, ∀ d, cls d = true → (isHexLower d = true ∨ d = '-') := by
  intro cls hcls d hd
  have hall : cls = isHexLower ∨ cls = isChar '-' ∨ cls = isChar '4' ∨
      cls = (fun c => isChar '8' c || isChar '9' c || isChar 'a' c || isChar 'b' c) := by
    simp only [uuidPattern, List.mem_append, List.mem_replicate, List.mem_singleton,
      List.mem_cons] at hcls
    tauto
  have hchar : ∀ x : Char, isHexLower x = true → isChar x d = true → isHexLower d = true := by
    intro x hx hxd
    have : d = x := by simpa [isChar] using hxd
    rw [this]; exact hx
  rcases hall with h | h | h | h
  · rw [h] at hd; exact Or.inl hd
  · rw [h] at hd; right; simpa [isChar] using hd
  · rw [h] at hd; left; exact hchar '4' (by decide) hd
  · rw [h] at hd
    simp only [Bool.or_eq_true] at hd
    left
    rcases hd with ((hd | hd) | hd) | hd
    · exact hchar '8' (by decide) hd
    · exact hchar '9' (by decide) hd
    · exact hchar 'a' (by decide) hd
    · exact hchar 'b' (by decide) hd

/-- A character whose ASCII lower-casing is in `[0-9a-f-]` is an ASCII
character that is not a space and can stand unquoted. -/
theorem char_of_toLower_hex (c : Char) (h : isHexLower c.toLower = true ∨ c.toLower = '-') :
    c.toNat < 128 ∧ isSpace c = false ∧ c ≠ ',' ∧ c ≠ '"' ∧ c ≠ '\n' ∧ c ≠ '\r' := by
  have key : (48 ≤ c.toNat ∧ c.toNat ≤ 57) ∨ (65 ≤ c.toNat ∧ c.toNat ≤ 90) ∨
      (97 ≤ c.toNat ∧ c.toNat ≤ 102) ∨ c.toNat = 45 := by
    by_cases hu : c.toNat ≥ 65 ∧ c.toNat ≤ 90
    · exact Or.inr (Or.inl hu)
    · have hl : c.toLower = c := by simp [Char.toLower, hu]
      rw [hl] at h
      rcases h with h | h
      · simp only [isHexLower, Bool.or_eq_true, Bool.and_eq_true, decide_eq_true_eq] at h
        rcases h with h | h
        · exact Or.inl h
        · exact Or.inr (Or.inr (Or.inl h))
      · right; right; right
        rw [h]; rfl
  have hne : ∀ x : Char, c.toNat ≠ x.toNat → c ≠ x := fun x hx e => hx (e ▸ rfl)
  refine ⟨by omega, ?_, hne _ ?_, hne _ ?_, hne _ ?_, hne _ ?_⟩
  · simp only [isSpace, Bool.or_eq_false_iff, Bool.and_eq_false_iff, decide_eq_false_iff_not]
    omega
  · show c.toNat ≠ 44; omega
  · show c.toNat ≠ 34; omega
  · show c.toNat ≠ 10; omega
  · show c.toNat ≠ 13; omega



/-! ### Lower-casing and trimming -/

theorem ToLower_ascii (lower : Char → Char) (hl : AsciiLower lower) (s : String)
    (h : ∀ c ∈ s.data, c.toNat < 128) : ToLower lower s = ToLower Char.toLower s := by
  simp only [ToLower]
  congr 1
  apply List.map_congr_left
  intro c hc
  exact hl c (h c hc)

theorem TrimSpace_of_ends (l : List Char)
    (hhead : ∀ c, l.head? = some c → isSpace c = false)
    (hlast : ∀ c, l.getLast? = some c → isSpace c = false) :
    TrimSpace (String.mk l) = String.mk l := by
  have h1 : l.dropWhile isSpace = l := by
    cases l with
    | nil => rfl
    | cons a l => simp [List.dropWhile, hhead a rfl]
  simp only [TrimSpace, h1]
  congr 1
  rw [List.rdropWhile_eq_self_iff]
  intro hne
  have := hlast (l.getLast hne) (List.getLast?_eq_getLast _ hne)
  simp [this]

theorem TrimSpace_of_no_space (s : String) (h : ∀ c ∈ s.data, isSpace c = false) :
    TrimSpace s = s := by
  have := TrimSpace_of_ends s.data
    (fun c hc => h c (List.mem_of_mem_head? hc))
    (fun c hc => h c (List.mem_of_mem_getLast? hc))
  exact this

/-- What a uuid of the version-4 shape brings with it. -/
theorem uuid_facts (lower : Char → Char) (hl : AsciiLower lower) (u : String)
    (h : isValidUUID Char.toLower u = true) :
    u ≠ "" ∧ TrimSpace u = u ∧ isValidUUID lower u = true ∧
      ∀ c ∈ u.data, c ≠ ',' ∧ c ≠ '"' ∧ c ≠ '\n' ∧ c ≠ '\r' := by
  have hchars : ∀ c ∈ u.data,
      c.toNat < 128 ∧ isSpace c = false ∧ c ≠ ',' ∧ c ≠ '"' ∧ c ≠ '\n' ∧ c ≠ '\r' := by
    intro c hc
    apply char_of_toLower_hex
    have hm := matchClasses_all (fun d => isHexLower d = true ∨ d = '-') uuidPattern
      (ToLower Char.toLower u).data uuidPattern_classes h
    exact hm c.toLower (by simp only [ToLower]; exact List.mem_map_of_mem _ hc)
  refine ⟨?_, TrimSpace_of_no_space u (fun c hc => (hchars c hc).2.1), ?_,
    fun c hc => (hchars c hc).2.2⟩
  · intro he
    have hlen := matchClasses_length _ _ h
    rw [he] at hlen
    revert hlen
    decide
  · simp only [isValidUUID]
    rw [ToLower_ascii lower hl u (fun c hc => (hchars c hc).1)]
    exact h

/-! ### Tags -/

theorem fieldsFrom_word (w : List Char) (hw : ∀ c ∈ w, isSpace c = false) :
    ∀ (cur rest : List Char), fieldsFrom (w ++ rest) cur = fieldsFrom rest (cur ++ w) := by
  induction w with
  | nil => intro cur rest; simp
  | cons c w ih =>
    intro cur rest
    have hc := hw c (List.mem_cons_self _ _)
    have := ih (fun d hd => hw d (List.mem_cons_of_mem _ hd)) (cur ++ [c]) rest
    simp [fieldsFrom, hc, this]

theorem fieldsFrom_joined (tags : List String)
    (h : ∀ tag ∈ tags, tag ≠ "" ∧ ∀ c ∈ tag.data, isSpace c = false) :
    fieldsFrom (joinWith [' '] (tags.map String.data)) [] = tags := by
  induction tags with
  | nil => simp [joinWith, fieldsFrom]
  | cons tag rest ih =>
    obtain ⟨hne, hsp⟩ := h tag (List.mem_cons_self _ _)
    have hdata : tag.data ≠ [] := fun e => hne (by cases tag; simp_all)
    cases rest with
    | nil =>
      have := fieldsFrom_word tag.data hsp [] []
      simp only [List.append_nil, List.nil_append] at this
      simp [joinWith, this, fieldsFrom, hdata]
    | cons t2 rest =>
      have ih2 := ih (fun x hx => h x (List.mem_cons_of_mem _ hx))
      have := fieldsFrom_word tag.data hsp [] ([' '] ++ joinWith [' '] ((t2 :: rest).map String.data))
      simp only [List.map_cons, joinWith, List.append_assoc, List.nil_append] at this ih2 ⊢
      rw [this]
      have hsp0 : isSpace ' ' = true := by decide
      simp [fieldsFrom, hsp0, hdata, ih2]



theorem joinWith_ne_nil (sep : List Char) (x : List Char) (rest : List (List Char))
    (hx : x ≠ []) : joinWith sep (x :: rest) ≠ [] := by
  cases rest with
  | nil => simpa [joinWith] using hx
  | cons y rest => simp [joinWith, hx]

theorem joinWith_head (sep : List Char) (x : List Char) (rest : List (List Char))
    (hx : x ≠ []) : (joinWith sep (x :: rest)).head? = x.head? := by
  cases x with
  | nil => exact absurd rfl hx
  | cons a x =>
    cases rest with
    | nil => simp [joinWith]
    | cons y rest => simp [joinWith]

theorem joinWith_getLast (sep : List Char) (ls : List (List Char))
    (hne : ∀ l ∈ ls, l ≠ []) (c : Char) (h : (joinWith sep ls).getLast? = some c) :
    ∃ l ∈ ls, l.getLast? = some c := by
  induction ls with
  | nil => simp [joinWith] at h
  | cons x rest ih =>
    cases rest with
    | nil => exact ⟨x, List.mem_cons_self _ _, by simpa [joinWith] using h⟩
    | cons y rest =>
      have hj : joinWith sep (y :: rest) ≠ [] :=
        joinWith_ne_nil sep y rest (hne y (List.mem_cons_of_mem _ (List.mem_cons_self _ _)))
      simp only [joinWith, List.getLast?_append] at h
      have hlast : (joinWith sep (y :: rest)).getLast? = some c := by
        cases hg : (joinWith sep (y :: rest)).getLast? with
        | none => exact absurd (List.getLast?_eq_none_iff.mp hg) hj
        | some d =>
          rw [hg] at h
          simpa using h
      obtain ⟨l, hl, hc⟩ := ih (fun l hl => hne l (List.mem_cons_of_mem _ hl)) hlast
      exact ⟨l, List.mem_cons_of_mem _ hl, hc⟩

theorem HasPrefix_ne_nil (tag sigil : String) (hs : sigil ≠ "") (h : HasPrefix tag sigil = true) :
    tag ≠ "" := by
  intro e
  subst e
  obtain ⟨d⟩ := sigil
  cases d with
  | nil => exact hs rfl
  | cons a d => simp [HasPrefix, List.isPrefixOf] at h

/-- The tags column of an exported row is read back as the tags of the task. -/
theorem tags_field (tags : List String)
    (h : ∀ tag ∈ tags, (HasPrefix tag "+" = true ∨ HasPrefix tag "@" = true) ∧
      ∀ c ∈ tag.data, isSpace c = false) :
    (if TrimSpace (String.mk (joinWith [' '] (tags.map String.data))) ≠ "" then
      parseTags (TrimSpace (String.mk (joinWith [' '] (tags.map String.data)))) else [])
      = tags := by
  have hne : ∀ tag ∈ tags, tag ≠ "" := by
    intro tag ht
    rcases (h tag ht).1 with hp | hp
    · exact HasPrefix_ne_nil tag "+" (by decide) hp
    · exact HasPrefix_ne_nil tag "@" (by decide) hp
  have hdata : ∀ l ∈ tags.map String.data, l ≠ [] := by
    intro l hl
    obtain ⟨tag, ht, rfl⟩ := List.mem_map.mp hl
    intro e
    exact hne tag ht (by cases tag; simp_all)
  cases tags with
  | nil =>
    have hempty : TrimSpace (String.mk (joinWith [' '] (([] : List String).map String.data)))
        = "" := by decide
    rw [hempty]
    rfl
  | cons tag rest =>
    have hjne : joinWith [' '] ((tag :: rest).map String.data) ≠ [] :=
      joinWith_ne_nil _ _ _ (hdata tag.data (List.mem_map_of_mem _ (List.mem_cons_self _ _)))
    have htrim : TrimSpace (String.mk (joinWith [' '] ((tag :: rest).map String.data)))
        = String.mk (joinWith [' '] ((tag :: rest).map String.data)) := by
      apply TrimSpace_of_ends
      · intro c hc
        rw [List.map_cons, joinWith_head _ _ _
          (hdata tag.data (List.mem_map_of_mem _ (List.mem_cons_self _ _)))] at hc
        exact (h tag (List.mem_cons_self _ _)).2 c (List.mem_of_mem_head? hc)
      · intro c hc
        obtain ⟨l, hl, hlc⟩ := joinWith_getLast _ _ hdata c hc
        obtain ⟨t2, ht2, rfl⟩ := List.mem_map.mp hl
        exact (h t2 ht2).2 c (List.mem_of_mem_getLast? hlc)
    have hnonempty : String.mk (joinWith [' '] ((tag :: rest).map String.data)) ≠ "" := by
      intro e
      exact hjne (congrArg String.data e)
    rw [htrim]
    simp only [ne_eq, hnonempty, not_false_eq_true, if_true]
    have hfields : Fields (String.mk (joinWith [' '] ((tag :: rest).map String.data)))
        = tag :: rest := by
      simp only [Fields]
      exact fieldsFrom_joined (tag :: rest) (fun x hx => ⟨hne x hx, (h x hx).2⟩)
    have hmap : (tag :: rest).map TrimSpace = tag :: rest := by
      have : (tag :: rest).map TrimSpace = (tag :: rest).map id :=
        List.map_congr_left (fun x hx => TrimSpace_of_no_space x (h x hx).2)
      rw [this, List.map_id]
    simp only [parseTags, hfields, hmap]
    apply List.filter_eq_self.mpr
    intro x hx
    have h1 := hne x hx
    rcases (h x hx).1 with hp | hp
    · simp [h1, hp]
    · simp [h1, hp]



/-! ### One exported row through createTaskFromCSVRecord -/

theorem columnMap_export (lower : Char → Char) (hl : AsciiLower lower) :
    columnMapFrom lower 0 (fun _ => none) exportHeader
      = columnMapFrom Char.toLower 0 (fun _ => none) exportHeader := by
  have e : ∀ s ∈ exportHeader, ToLower lower s = ToLower Char.toLower s := by
    intro s hs
    apply ToLower_ascii lower hl
    revert s
    decide
  simp only [exportHeader, List.mem_cons, List.mem_singleton, forall_eq_or_imp, forall_eq,
    List.not_mem_nil, false_implies, implies_true, and_true] at e
  obtain ⟨e1, e2, e3, e4, e5, e6, e7, e8, e9⟩ := e
  simp only [exportHeader, columnMapFrom, e1, e2, e3, e4, e5, e6, e7, e8, e9]

theorem lower_fixed (lower : Char → Char) (hl : AsciiLower lower) :
    ∀ s ∈ ["", "high", "medium", "low", "true", "false"],
      ToLower lower (TrimSpace s) = s := by
  intro s hs
  have h1 : TrimSpace s = s := by revert s; decide
  have h2 : ∀ c ∈ s.data, c.toNat < 128 := by revert s; decide
  rw [h1, ToLower_ascii lower hl s h2]
  revert s
  decide

/-- The task `createTaskFromCSVRecord` builds from the record of an exported
row, field by field. -/
theorem createTask_exportRecord_eq (dest : TodoManager) (lower : Char → Char)
    (hl : AsciiLower lower) (timeParse : String → String → Option Int) (t : Task)
    (htne : t.Text ≠ "") (httrim : TrimSpace t.Text = t.Text)
    (huuid : isValidUUID Char.toLower t.UUID = true)
    (hprio : ((t.Priority = "" ∨ t.Priority = "high") ∨ t.Priority = "medium") ∨
      t.Priority = "low")
    (hdue : validateDate timeParse (TrimSpace t.Due) = true)
    (htags : ∀ tag ∈ t.Tags, (HasPrefix tag "+" = true ∨ HasPrefix tag "@" = true) ∧
      ∀ c ∈ tag.data, isSpace c = false)
    (hcreated : TrimSpace t.Created = "" ∨
      isValidDateTime timeParse (TrimSpace t.Created) = true)
    (hupdated : TrimSpace t.Updated = "" ∨
      isValidDateTime timeParse (TrimSpace t.Updated) = true)
    (lineNumber : Nat) (now1 now2 : String) (rnd : Nat → Nat) :
    createTaskFromCSVRecord dest lower timeParse (exportRecord t)
        (columnMapFrom lower 0 (fun _ => none) exportHeader) 2 lineNumber now1 now2 rnd
      = some ({ ID := dest.NextID, UUID := t.UUID, Text := t.Text, Done := t.Done,
                Priority := t.Priority,
                Due := if TrimSpace t.Due ≠ "" then TrimSpace t.Due else "",
                Tags := t.Tags,
                Created := if TrimSpace t.Created ≠ "" then TrimSpace t.Created else now1,
                Updated := if TrimSpace t.Updated ≠ "" then TrimSpace t.Updated else now2 },
              []) := by
  obtain ⟨hune, hutrim, huvalid, _⟩ := uuid_facts lower hl t.UUID huuid
  have hcm := columnMap_export lower hl
  have c1 : columnMapFrom lower 0 (fun _ => none) exportHeader "uuid" = some 1 := by
    rw [hcm]; decide
  have c3 : columnMapFrom lower 0 (fun _ => none) exportHeader "done" = some 3 := by
    rw [hcm]; decide
  have c4 : columnMapFrom lower 0 (fun _ => none) exportHeader "priority" = some 4 := by
    rw [hcm]; decide
  have c5 : columnMapFrom lower 0 (fun _ => none) exportHeader "due" = some 5 := by
    rw [hcm]; decide
  have c6 : columnMapFrom lower 0 (fun _ => none) exportHeader "tags" = some 6 := by
    rw [hcm]; decide
  have c7 : columnMapFrom lower 0 (fun _ => none) exportHeader "created" = some 7 := by
    rw [hcm]; decide
  have c8 : columnMapFrom lower 0 (fun _ => none) exportHeader "updated" = some 8 := by
    rw [hcm]; decide
  have hdone : ToLower lower (TrimSpace (if t.Done then "true" else "false"))
      = (if t.Done then "true" else "false") := by
    cases t.Done
    · exact lower_fixed lower hl "false" (by decide)
    · exact lower_fixed lower hl "true" (by decide)
  have hplow : ToLower lower (TrimSpace t.Priority) = t.Priority := by
    rcases hprio with ((h | h) | h) | h
    · rw [h]; exact lower_fixed lower hl "" (by decide)
    · rw [h]; exact lower_fixed lower hl "high" (by decide)
    · rw [h]; exact lower_fixed lower hl "medium" (by decide)
    · rw [h]; exact lower_fixed lower hl "low" (by decide)
  have htagsf := tags_field t.Tags htags
  have hget : (exportRecord t)[2]? = some t.Text := rfl
  have hlen : (exportRecord t).length = 9 := rfl
  have g1 : (exportRecord t).getD 1 "" = t.UUID := rfl
  have g3 : (exportRecord t).getD 3 "" = (if t.Done then "true" else "false") := rfl
  have g4 : (exportRecord t).getD 4 "" = t.Priority := rfl
  have g5 : (exportRecord t).getD 5 "" = t.Due := rfl
  have g6 : (exportRecord t).getD 6 ""
      = String.mk (joinWith [' '] (t.Tags.map String.data)) := rfl
  have g7 : (exportRecord t).getD 7 "" = t.Created := rfl
  have g8 : (exportRecord t).getD 8 "" = t.Updated := rfl
  have hdoneval : (decide ((if t.Done then "true" else "false") = "true") ||
      decide ((if t.Done then "true" else "false") = "1")) = t.Done := by
    cases t.Done <;> decide
  have hpok : (decide (t.Priority ≠ "") &&
      (decide (t.Priority = "high") || decide (t.Priority = "medium") ||
        decide (t.Priority = "low"))) = decide (t.Priority ≠ "") := by
    rcases hprio with ((h | h) | h) | h <;> rw [h] <;> decide
  have hprioval : (if (decide ¬ t.Priority = "" &&
      (decide (t.Priority = "high") || decide (t.Priority = "medium") ||
        decide (t.Priority = "low"))) = true then t.Priority else "") = t.Priority := by
    rcases hprio with ((h | h) | h) | h <;> rw [h] <;> decide
  have hprioerr : (decide ¬ t.Priority = "" &&
      !(decide (t.Priority = "high") || decide (t.Priority = "medium") ||
        decide (t.Priority = "low"))) = false := by
    rcases hprio with ((h | h) | h) | h <;> rw [h] <;> decide
  have l1 : 1 < 9 := by decide
  have l3 : 3 < 9 := by decide
  have l4 : 4 < 9 := by decide
  have l5 : 5 < 9 := by decide
  have l6 : 6 < 9 := by decide
  have l7 : 7 < 9 := by decide
  have l8 : 8 < 9 := by decide
  unfold createTaskFromCSVRecord
  rw [hget]
  simp only [c1, c3, c4, c5, c6, c7, c8, hlen, g1, g3, g4, g5, g6, g7, g8, httrim, hutrim,
    hdone, hplow, htne, hune, huvalid, if_false, if_true, ne_eq, not_false_eq_true,
    decide_True, decide_False, Bool.true_and, Bool.and_true, Bool.not_true, Bool.and_false,
    Bool.false_eq_true, List.nil_append, List.append_nil, hdoneval, l1, l3, l4, l5, l6, l7, l8,
    hprioval, hprioerr, hdue, Bool.not_true, decide_not]
  have htagsf2 : (if ¬ TrimSpace (String.mk (joinWith [' '] (t.Tags.map String.data))) = "" then
      parseTags (TrimSpace (String.mk (joinWith [' '] (t.Tags.map String.data)))) else [])
      = t.Tags := htagsf
  rw [htagsf2]
  rcases hcreated with hc | hc <;> rcases hupdated with hu | hu <;>
    rcases hprio with ((h | h) | h) | h <;> simp [hc, hu, h]

theorem createTask_exportRecord (dest : TodoManager) (lower : Char → Char)
    (hl : AsciiLower lower) (timeParse : String → String → Option Int) (t : Task)
    (ht : roundTripReady timeParse t = true) (lineNumber : Nat) (now1 now2 : String)
    (rnd : Nat → Nat) :
    ∃ task, createTaskFromCSVRecord dest lower timeParse (exportRecord t)
        (columnMapFrom lower 0 (fun _ => none) exportHeader) 2 lineNumber now1 now2 rnd
        = some (task, []) ∧
      roundTripKey task = roundTripKey t ∧ task.Text ≠ "" := by
  simp only [roundTripReady, Bool.and_eq_true, decide_eq_true_eq, Bool.or_eq_true,
    List.all_eq_true] at ht
  obtain ⟨⟨⟨⟨⟨⟨⟨⟨⟨⟨⟨htne, httrim⟩, _⟩, huuid⟩, hprio⟩, _⟩, hdue⟩, htags⟩, _⟩, hcreated⟩, _⟩,
    hupdated⟩ := ht
  refine ⟨_, createTask_exportRecord_eq dest lower hl timeParse t htne httrim huuid hprio hdue
    ?_ hcreated hupdated lineNumber now1 now2 rnd, rfl, htne⟩
  intro tag htag
  have := htags tag htag
  simp only [Bool.and_eq_true, Bool.or_eq_true, List.all_eq_true, Bool.not_eq_true',
    decide_eq_true_eq] at this
  exact ⟨this.1, fun c hc => (this.2 c hc).1⟩

/-! ### A whole exported file through parseLoop -/

theorem plainField_mem (s : String) (h : plainField s = true) :
    ∀ c ∈ s.data, c ≠ ',' ∧ c ≠ '"' ∧ c ≠ '\n' ∧ c ≠ '\r' := by
  intro c hc
  simp only [plainField, List.all_eq_true, Bool.and_eq_true, decide_eq_true_eq] at h
  obtain ⟨⟨⟨h1, h2⟩, h3⟩, h4⟩ := h c hc
  simp only [ne_eq, decide_not, Bool.not_eq_true', decide_eq_false_iff_not] at h1 h2 h3 h4
  exact ⟨h1, h2, h3, h4⟩

theorem asciiLower_toLower : AsciiLower Char.toLower := fun _ _ => rfl

/-- A task ready for the round trip is exported as a row the reader gives back. -/
theorem readable_of_ready (timeParse : String → String → Option Int) (t : Task)
    (ht : roundTripReady timeParse t = true) : Readable t := by
  simp only [roundTripReady, Bool.and_eq_true, decide_eq_true_eq, Bool.or_eq_true,
    List.all_eq_true] at ht
  obtain ⟨⟨⟨⟨⟨⟨⟨⟨⟨⟨⟨_, _⟩, htext⟩, huuid⟩, hprio⟩, hdue⟩, _⟩, htags⟩, hcreated⟩, _⟩, hupdated⟩,
    _⟩ := ht
  refine ⟨(uuid_facts Char.toLower asciiLower_toLower t.UUID huuid).2.2.2, ?_,
    plainField_mem _ hdue, plainField_mem _ hcreated, plainField_mem _ hupdated, ?_, ?_⟩
  · rcases hprio with ((h | h) | h) | h <;> rw [h] <;> decide
  · intro tag htag c hc
    have := htags tag htag
    simp only [Bool.and_eq_true, List.all_eq_true, Bool.not_eq_true', decide_eq_true_eq] at this
    obtain ⟨hsp, hq⟩ := this.2 c hc
    refine ⟨hq, fun e => ?_⟩
    rw [e] at hsp
    revert hsp
    decide
  · intro c hc
    have := htext c hc
    simpa using this

theorem parseLoop_export (dest : TodoManager) (env : ImportEnv) (hl : AsciiLower env.lower)
    (ts : List Task) (hts : ∀ t ∈ ts, roundTripReady env.timeParse t = true) :
    ∀ (lineNumber : Nat) (tasks : List Task) (errors : List String),
      ∃ parsed,
        parseLoop dest env (columnMapFrom env.lower 0 (fun _ => none) exportHeader) 2 lineNumber
            (ts.map (fun t => .ok (exportRecord t))) tasks errors
          = some (tasks ++ parsed, errors) ∧
        parsed.map roundTripKey = ts.map roundTripKey := by
  induction ts with
  | nil => intro lineNumber tasks errors; exact ⟨[], by simp [parseLoop], rfl⟩
  | cons t rest ih =>
    intro lineNumber tasks errors
    obtain ⟨task, hcreate, hkey, htext⟩ := createTask_exportRecord dest env.lower hl
      env.timeParse t (hts t (List.mem_cons_self _ _)) (lineNumber + 1)
      (env.rowNow1 (lineNumber + 1)) (env.rowNow2 (lineNumber + 1)) (env.rowRnd (lineNumber + 1))
    obtain ⟨parsed, hparsed, hkeys⟩ := ih (fun x hx => hts x (List.mem_cons_of_mem _ hx))
      (lineNumber + 1) (tasks ++ [task]) errors
    refine ⟨task :: parsed, ?_, by simp [hkey, hkeys]⟩
    have hlen : (exportRecord t).length = 9 := rfl
    simp only [List.map_cons, parseLoop, hlen, hcreate]
    simp only [List.length_nil, gt_iff_lt, Nat.lt_irrefl, if_false, ne_eq, htext,
      not_false_eq_true, if_true]
    simp only [Nat.reduceEqDiff, decide_False, Bool.false_and, Bool.or_self, Bool.false_eq_true,
      if_false]
    rw [hparsed]
    simp

/-! ### Export then import -/

/-- C20 as stated fails: the import trims the text. A task whose text starts
with a space is exported with that space and comes back without it. -/
theorem C20_leading_space_is_lost :
    (TodoManager.empty.importCSVFile "roundtrip.csv" (readCSV sampleLeadingSpace.ExportCSV)
        "merge" "skip" ⟨false, false⟩ sampleEnv).map
        (fun r => (r.1.Tasks.map Task.Text, r.2.1.map ImportResult.NewTasks))
      = some (["Acheter du pain"], some 1) ∧
    sampleLeadingSpace.Tasks.map Task.Text = [" Acheter du pain"] := by
  decide

/-- C20, amended. For every store that holds at least one task and whose tasks
are all ready for the round trip (text not empty, without space at either end
and without carriage return; uuid of the version-4 shape; priority unset, high,
medium or low; tags starting with + or @ and free of spaces and double quotes;
due date and stamps free of comma, double quote and line break and accepted by
the validation of the import), exporting it with ExportCSV and importing the
file with mode merge and strategy skip into a store without tasks reports
every task as new, none updated or skipped, and yields, position by position,
tasks with the same text, done, priority, tags and uuid as the originals. -/
theorem C20_round_trip (tm dest : TodoManager) (filename : String) (verbose : Bool)
    (env : ImportEnv) (hex : env.fileExists = true) (hl : AsciiLower env.lower)
    (hdest : dest.Tasks = []) (hne : tm.Tasks ≠ [])
    (hready : ∀ t ∈ tm.Tasks, roundTripReady env.timeParse t = true) :
    ∃ tm2 result,
      dest.importCSVFile filename (readCSV tm.ExportCSV) "merge" "skip" ⟨false, verbose⟩ env
        = some (tm2, some result, none) ∧
      result.NewTasks = (tm.Tasks.length : Int) ∧ result.UpdatedTasks = 0 ∧
      result.SkippedTasks = 0 ∧
      tm2.Tasks.map roundTripKey = tm.Tasks.map roundTripKey := by
  have hread := readCSV_export tm (fun t ht => readable_of_ready env.timeParse t (hready t ht))
  obtain ⟨parsed, hparsed, hkeys⟩ := parseLoop_export dest env hl tm.Tasks hready 1 [] []
  have htextcol : columnMapFrom env.lower 0 (fun _ => none) exportHeader "text" = some 2 := by
    rw [columnMap_export env.lower hl]; decide
  have hparse : dest.parseCSV env (readCSV tm.ExportCSV) = some (parsed, []) := by
    rw [hread]
    simp only [TodoManager.parseCSV, htextcol]
    simpa using hparsed
  have hcand := parseCSV_candidates dest env _ parsed [] hparse
  have hlen : parsed.length = tm.Tasks.length := by
    have := congrArg List.length hkeys
    simpa using this
  have hpne : parsed ≠ [] := by
    intro e
    rw [e] at hlen
    exact hne (List.length_eq_zero.mp hlen.symm)
  obtain ⟨err, himp, herr⟩ := ImportCSV_merge_skip dest filename parsed [] verbose env.confirm
    env.spare (env.timeParse "2006-01-02 15:04:05") env.updateNow hcand
  have hf1 : parsed.filter (fun c => decide (c.UUID ∉ dest.Tasks.map Task.UUID)) = parsed := by
    apply List.filter_eq_self.mpr
    intro c _
    simp [hdest]
  have hf2 : parsed.filter (fun c => decide (c.UUID ∈ dest.Tasks.map Task.UUID)) = [] := by
    apply List.filter_eq_nil_iff.mpr
    intro c _
    simp [hdest]
  rw [hf1, hf2, herr hpne] at himp
  refine ⟨{ Tasks := dest.Tasks ++ parsed, NextID := dest.NextID + (parsed.length : Int) },
    { NewTasks := (parsed.length : Int), UpdatedTasks := 0,
      SkippedTasks := (([] : List Task).length : Int), Errors := [], Warnings := [] },
    ?_, ?_, rfl, rfl, ?_⟩
  · simp only [TodoManager.importCSVFile, hex, hparse, Bool.not_true, Bool.false_eq_true,
      if_false]
    rw [himp]
  · simp [hlen]
  · simp [hdest, hkeys]

theorem C20_round_trip_witness :
    sampleEnv.fileExists = true ∧ AsciiLower sampleEnv.lower ∧
    TodoManager.empty.Tasks = [] ∧ sampleRoundTrip.Tasks ≠ [] ∧
    (∀ t ∈ sampleRoundTrip.Tasks, roundTripReady sampleEnv.timeParse t = true) ∧
    ∃ tm2 result,
      TodoManager.empty.importCSVFile "roundtrip.csv" (readCSV sampleRoundTrip.ExportCSV)
          "merge" "skip" ⟨false, false⟩ sampleEnv
        = some (tm2, some result, none) ∧
      result.NewTasks = (sampleRoundTrip.Tasks.length : Int) ∧ result.UpdatedTasks = 0 ∧
      result.SkippedTasks = 0 ∧
      tm2.Tasks.map roundTripKey = sampleRoundTrip.Tasks.map roundTripKey :=
  ⟨rfl, asciiLower_toLower, rfl, by decide, by decide,
    C20_round_trip sampleRoundTrip TodoManager.empty "roundtrip.csv" false sampleEnv rfl
      asciiLower_toLower rfl (by decide) (by decide)⟩

/-! ## Helper lemmas: the lines of an export -/

theorem linesFrom_plain (l : List Char) (h : '\n' ∉ l) :
    ∀ cur, linesFrom l cur = [cur ++ l] := by
  induction l with
  | nil => intro cur; simp [linesFrom]
  | cons c rest ih =>
    intro cur
    have hc : c ≠ '\n' := fun e => h (by rw [e]; exact List.mem_cons_self _ _)
    have hr : '\n' ∉ rest := fun e => h (List.mem_cons_of_mem _ e)
    simp [linesFrom, hc, ih hr]

theorem linesFrom_line (l rest : List Char) (h : '\n' ∉ l) :
    ∀ cur, linesFrom (l ++ '\n' :: rest) cur = (cur ++ l) :: linesFrom rest [] := by
  induction l with
  | nil => intro cur; simp [linesFrom]
  | cons c tl ih =>
    intro cur
    have hc : c ≠ '\n' := fun e => h (by rw [e]; exact List.mem_cons_self _ _)
    have hr : '\n' ∉ tl := fun e => h (List.mem_cons_of_mem _ e)
    simp [linesFrom, hc, ih hr]

theorem linesFrom_joinWith (ls : List (List Char)) :
    ∀ (first : List Char), (∀ l ∈ first :: ls, '\n' ∉ l) →
      linesFrom (joinWith ['\n'] (first :: ls)) [] = first :: ls := by
  induction ls with
  | nil =>
    intro first h
    simp [joinWith, linesFrom_plain first (h first (List.mem_cons_self _ _))]
  | cons x rest ih =>
    intro first h
    have hf := h first (List.mem_cons_self _ _)
    have := ih x (fun l hl => h l (List.mem_cons_of_mem _ hl))
    simp only [joinWith, List.append_assoc, List.singleton_append]
    rw [linesFrom_line first _ hf, this]
    simp

theorem exportLine_no_lf (t : Task) (h : NoLineFeed t) : '\n' ∉ exportLine t := by
  have hs : ∀ s ∈ stringFields t, '\n' ∉ s.data := h
  have huuid := hs t.UUID (by simp [stringFields])
  have htext := hs t.Text (by simp [stringFields])
  have hprio := hs t.Priority (by simp [stringFields])
  have hdue := hs t.Due (by simp [stringFields])
  have hcreated := hs t.Created (by simp [stringFields])
  have hupdated := hs t.Updated (by simp [stringFields])
  have htags : ∀ tag ∈ t.Tags, '\n' ∉ tag.data := fun tag ht =>
    hs tag (by simp [stringFields, ht])
  have hid : '\n' ∉ (toString t.ID).data := fun e => (intRepr_plain t.ID _ e).2.2.1 rfl
  have hq : '\n' ∉ quoteDouble t.Text.data := by
    intro e
    rcases mem_quoteDouble _ _ e with e | e
    · revert e; decide
    · exact htext e
  have hj : '\n' ∉ joinWith [' '] (t.Tags.map String.data) := by
    intro e
    rcases mem_joinWith _ _ _ e with e | ⟨l, hl, e⟩
    · revert e; decide
    · obtain ⟨tag, htag, rfl⟩ := List.mem_map.mp hl
      exact htags tag htag e
  have hd : '\n' ∉ (if t.Done then "true" else "false").data := by
    cases t.Done <;> decide
  intro e
  simp only [exportLine, List.mem_append, List.mem_cons] at e
  have hne1 : '\n' ≠ ',' := by decide
  have hne2 : '\n' ≠ '"' := by decide
  tauto

/-! ### The exported text -/

/-- C21. The text `ExportCSV` writes is the header line followed by one row
per task in store order, the lines joined by single line feeds; an empty store
yields the header line alone; and when no string field of a task holds a line
feed, the lines of the text are exactly the header and the rows, n + 1 lines
for a store of n tasks. -/
theorem C21_export_lines (tm : TodoManager) :
    tm.ExportCSV.data = joinWith ['\n']
      ("ID,UUID,Text,Done,Priority,Due,Tags,Created,Updated".data :: tm.Tasks.map exportLine) ∧
    (tm.Tasks = [] → tm.ExportCSV = "ID,UUID,Text,Done,Priority,Due,Tags,Created,Updated") ∧
    ((∀ t ∈ tm.Tasks, NoLineFeed t) →
      textLines tm.ExportCSV
        = "ID,UUID,Text,Done,Priority,Due,Tags,Created,Updated".data :: tm.Tasks.map exportLine ∧
      (textLines tm.ExportCSV).length = tm.Tasks.length + 1) := by
  refine ⟨rfl, ?_, ?_⟩
  · intro h
    simp only [TodoManager.ExportCSV, h, List.map_nil, joinWith]
  · intro h
    have key : textLines tm.ExportCSV
        = "ID,UUID,Text,Done,Priority,Due,Tags,Created,Updated".data
            :: tm.Tasks.map exportLine := by
      apply linesFrom_joinWith
      intro l hl
      rcases List.mem_cons.mp hl with rfl | hl
      · decide
      · obtain ⟨t, ht, rfl⟩ := List.mem_map.mp hl
        exact exportLine_no_lf t (h t ht)
    rw [key]
    exact ⟨rfl, by simp⟩

theorem C21_export_lines_witness :
    (∀ t ∈ sampleRoundTrip.Tasks, NoLineFeed t) ∧
    textLines sampleRoundTrip.ExportCSV
      = "ID,UUID,Text,Done,Priority,Due,Tags,Created,Updated".data
          :: sampleRoundTrip.Tasks.map exportLine ∧
    (textLines sampleRoundTrip.ExportCSV).length = 3 + 1 :=
  ⟨by decide, (C21_export_lines sampleRoundTrip).2.2 (by decide)⟩

/-! ### The encoding of a row -/

/-- C22 fails on the tags: the double quote inside a tag is written as it is,
not doubled (only the text goes through `strings.ReplaceAll`), and the reader
of the import rejects the row. -/
theorem C22_quote_in_tag_not_doubled :
    sampleQuotedTag.ExportCSV
      = "ID,UUID,Text,Done,Priority,Due,Tags,Created,Updated\n" ++
        "1,123e4567-e89b-42d3-a456-426614174001,\"Lire\",false,,,\"+a\"b\"," ++
        "2025-07-09 10:00:00,2025-07-09 10:00:00" ∧
    (readCSV sampleQuotedTag.ExportCSV).records.map
        (fun r => match r with | .ok fields => some fields | .error _ => none)
      = [none] := by
  decide

/-! ### A file without a valid row -/

theorem columnMapFrom_none (lower : Char → Char) (name : String) (headers : List String)
    (h : ∀ x ∈ headers, TrimSpace (ToLower lower x) ≠ name) :
    ∀ (i : Nat) (m : String → Option Nat), m name = none →
      columnMapFrom lower i m headers name = none := by
  induction headers with
  | nil => intro i m hm; exact hm
  | cons x rest ih =>
    intro i m hm
    simp only [columnMapFrom]
    apply ih (fun y hy => h y (List.mem_cons_of_mem _ hy))
    have := h x (List.mem_cons_self _ _)
    simp [hm, Ne.symm this]

/-- C23. When `parseCSV` finds no valid row in a file that is there, `ImportCSV`
returns the error of a file without valid task together with a report that
counts nothing, and the store (tasks and counter) is the one it was called on,
in every mode and under every strategy and option. A header none of whose
trimmed, lower-cased names is `text` is such a file, whatever its rows. -/
theorem C23_no_valid_row (tm : TodoManager) (filename : String) (file : CsvFile)
    (mode conflict : String) (options : ImportOptions) (env : ImportEnv)
    (hex : env.fileExists = true) :
    (∀ parseErrors, tm.parseCSV env file = some ([], parseErrors) →
      tm.importCSVFile filename file mode conflict options env
        = some (tm, some { NewTasks := 0, UpdatedTasks := 0, SkippedTasks := 0,
                           Errors := parseErrors, Warnings := [] },
                some "aucune tâche valide trouvée dans le CSV")) ∧
    (∀ headers, file.openError = none → file.header = .ok headers →
      (∀ x ∈ headers, TrimSpace (ToLower env.lower x) ≠ "text") →
      tm.parseCSV env file
        = some ([], ["colonne 'Text' obligatoire manquante dans le CSV"])) := by
  constructor
  · intro parseErrors h
    simp [TodoManager.importCSVFile, hex, h, TodoManager.ImportCSV]
  · intro headers ho hh hx
    have hnone := columnMapFrom_none env.lower "text" headers hx 0 (fun _ => none) rfl
    simp only [TodoManager.parseCSV, ho, hh, hnone]

theorem C23_no_valid_row_witness :
    sampleStore.importCSVFile "sans_texte.csv" sampleFileNoText "replace" "update"
        ⟨false, false⟩ sampleEnv
      = some (sampleStore,
          some { NewTasks := 0, UpdatedTasks := 0, SkippedTasks := 0,
                 Errors := ["colonne 'Text' obligatoire manquante dans le CSV"], Warnings := [] },
          some "aucune tâche valide trouvée dans le CSV") :=
  (C23_no_valid_row sampleStore "sans_texte.csv" sampleFileNoText "replace" "update"
      ⟨false, false⟩ sampleEnv rfl).1 _
    ((C23_no_valid_row sampleStore "sans_texte.csv" sampleFileNoText "replace" "update"
      ⟨false, false⟩ sampleEnv rfl).2 _ rfl rfl (by decide))

/-! ### A row shorter than the text column -/

/-- C24 fails: a data row with fewer fields than the index of the text column
reaches `record[textCol]` (line 180) unchecked. With the header `ID,Text` and
the row `1`, `createTaskFromCSVRecord` does not return, and neither `parseCSV`
nor `ImportCSV` does: no error is recorded and the row after it is not read. -/
theorem C24_short_row_aborts :
    createTaskFromCSVRecord sampleStore sampleEnv.lower sampleEnv.timeParse ["1"]
        (columnMapFrom sampleEnv.lower 0 (fun _ => none) ["ID", "Text"]) 1 2
        (sampleEnv.rowNow1 2) (sampleEnv.rowNow2 2) (sampleEnv.rowRnd 2) = none ∧
    sampleStore.parseCSV sampleEnv sampleFileShortRow = none ∧
    sampleStore.importCSVFile "court.csv" sampleFileShortRow "merge" "skip" ⟨false, false⟩
        sampleEnv = none := by
  decide

/-! ### The order and the letter case of the columns -/

theorem columnMapFrom_absent (lower : Char → Char) (name : String) (headers : List String)
    (h : ∀ x ∈ headers, TrimSpace (ToLower lower x) ≠ name) :
    ∀ (i : Nat) (m : String → Option Nat),
      columnMapFrom lower i m headers name = m name := by
  induction headers with
  | nil => intro i m; rfl
  | cons x rest ih =>
    intro i m
    simp only [columnMapFrom]
    rw [ih (fun y hy => h y (List.mem_cons_of_mem _ hy))]
    have := h x (List.mem_cons_self _ _)
    simp [Ne.symm this]

theorem createTask_congr (tm : TodoManager) (lower : Char → Char)
    (timeParse : String → String → Option Int) (record record2 : List String)
    (columnMap columnMap2 : String → Option Nat) (textCol textCol2 lineNumber : Nat)
    (now1 now2 : String) (rnd : Nat → Nat)
    (htext : record[textCol]? = record2[textCol2]?)
    (hget : ∀ name,
      (match columnMap name with
        | some col => if col < record.length then TrimSpace (record.getD col "") else ""
        | none => "")
      = (match columnMap2 name with
        | some col => if col < record2.length then TrimSpace (record2.getD col "") else ""
        | none => "")) :
    createTaskFromCSVRecord tm lower timeParse record columnMap textCol lineNumber now1 now2 rnd
      = createTaskFromCSVRecord tm lower timeParse record2 columnMap2 textCol2 lineNumber now1
          now2 rnd := by
  unfold createTaskFromCSVRecord
  rw [htext]
  cases record2[textCol2]? with
  | none => rfl
  | some rawText =>
    simp only [hget]

/-- With pairwise distinct keys, the column map sends the key of a column to
the position of that column, where the record holds the field of the column. -/
theorem columnMapFrom_present (lower : Char → Char) (k v : String)
    (cols : List (String × String)) :
    (cols.map (fun p => TrimSpace (ToLower lower p.1))).Nodup →
    (k, v) ∈ cols.map (fun p => (TrimSpace (ToLower lower p.1), p.2)) →
    ∀ (i : Nat) (m : String → Option Nat),
      ∃ j, columnMapFrom lower i m (cols.map Prod.fst) k = some (i + j) ∧
        (cols.map Prod.snd)[j]? = some v := by
  induction cols with
  | nil => intro _ h; simp at h
  | cons p rest ih =>
    intro hnd hmem i m
    simp only [List.map_cons, List.nodup_cons, List.mem_cons, Prod.mk.injEq] at hnd hmem
    simp only [List.map_cons, columnMapFrom]
    rcases hmem with ⟨hk, hv⟩ | hmem
    · refine ⟨0, ?_, by simp [hv]⟩
      rw [columnMapFrom_absent lower k (rest.map Prod.fst)]
      · simp [hk]
      · intro x hx e
        apply hnd.1
        obtain ⟨q, hq, rfl⟩ := List.mem_map.mp hx
        rw [← hk, ← e]
        exact List.mem_map.mpr ⟨q, hq, rfl⟩
    · obtain ⟨j, h1, h2⟩ := ih hnd.2 hmem (i + 1) _
      refine ⟨j + 1, ?_, by simpa using h2⟩
      rw [h1]
      congr 1
      omega

/-- The value the closure `getValue` returns for a column name is fixed by the
set of (key, field) pairs when the keys are pairwise distinct. -/
theorem getValue_perm (lower : Char → Char) (cols cols2 : List (String × String))
    (hperm : (cols.map (fun p => (TrimSpace (ToLower lower p.1), p.2))).Perm
      (cols2.map (fun p => (TrimSpace (ToLower lower p.1), p.2))))
    (hnd : (cols.map (fun p => TrimSpace (ToLower lower p.1))).Nodup) (name : String) :
    (match columnMapFrom lower 0 (fun _ => none) (cols.map Prod.fst) name with
      | some col =>
        if col < (cols.map Prod.snd).length then TrimSpace ((cols.map Prod.snd).getD col "")
        else ""
      | none => "")
    = (match columnMapFrom lower 0 (fun _ => none) (cols2.map Prod.fst) name with
      | some col =>
        if col < (cols2.map Prod.snd).length then TrimSpace ((cols2.map Prod.snd).getD col "")
        else ""
      | none => "") := by
  have hkeys : (cols.map (fun p => TrimSpace (ToLower lower p.1))).Perm
      (cols2.map (fun p => TrimSpace (ToLower lower p.1))) := by
    have := hperm.map Prod.fst
    simpa [List.map_map, Function.comp_def] using this
  have hnd2 := hkeys.nodup_iff.mp hnd
  by_cases hin : name ∈ cols.map (fun p => TrimSpace (ToLower lower p.1))
  · obtain ⟨p, hp, hpk⟩ := List.mem_map.mp hin
    have hmem : (name, p.2) ∈ cols.map (fun p => (TrimSpace (ToLower lower p.1), p.2)) :=
      List.mem_map.mpr ⟨p, hp, by rw [hpk]⟩
    have hmem2 := hperm.mem_iff.mp hmem
    obtain ⟨j, h1, h2⟩ := columnMapFrom_present lower name p.2 cols hnd hmem 0 (fun _ => none)
    obtain ⟨j2, h3, h4⟩ := columnMapFrom_present lower name p.2 cols2 hnd2 hmem2 0
      (fun _ => none)
    have hj : j < (cols.map Prod.snd).length := by
      by_contra hc
      rw [List.getElem?_eq_none (Nat.le_of_not_lt hc)] at h2
      cases h2
    have hj2 : j2 < (cols2.map Prod.snd).length := by
      by_contra hc
      rw [List.getElem?_eq_none (Nat.le_of_not_lt hc)] at h4
      cases h4
    have g1 : (cols.map Prod.snd).getD j "" = p.2 := by
      rw [List.getD_eq_getElem?_getD, h2]; rfl
    have g2 : (cols2.map Prod.snd).getD j2 "" = p.2 := by
      rw [List.getD_eq_getElem?_getD, h4]; rfl
    rw [h1, h3]
    simp only [Nat.zero_add, hj, hj2, if_true, g1, g2]
  · have hin2 : name ∉ cols2.map (fun p => TrimSpace (ToLower lower p.1)) :=
      fun h => hin (hkeys.mem_iff.mpr h)
    rw [columnMapFrom_absent lower name (cols.map Prod.fst), columnMapFrom_absent lower name
      (cols2.map Prod.fst)]
    · intro x hx e
      obtain ⟨q, hq, rfl⟩ := List.mem_map.mp hx
      exact hin2 (List.mem_map.mpr ⟨q, hq, e⟩)
    · intro x hx e
      obtain ⟨q, hq, rfl⟩ := List.mem_map.mp hx
      exact hin (List.mem_map.mpr ⟨q, hq, e⟩)

/-- C25. A header and a record of the same length are given column by column,
as the list of (name, field) pairs. When the trimmed, lower-cased names are
pairwise distinct and `text` is one of them, any other list of columns that
holds the same (trimmed lower-cased name, field) pairs in some order — the
columns permuted together with their fields, the names in another letter case
— gives a text column, and `createTaskFromCSVRecord` returns for it the same
task and the same messages. -/
theorem C25_column_order (tm : TodoManager) (lower : Char → Char)
    (timeParse : String → String → Option Int) (cols cols2 : List (String × String))
    (hperm : (cols.map (fun p => (TrimSpace (ToLower lower p.1), p.2))).Perm
      (cols2.map (fun p => (TrimSpace (ToLower lower p.1), p.2))))
    (hnd : (cols.map (fun p => TrimSpace (ToLower lower p.1))).Nodup)
    (htext : "text" ∈ cols.map (fun p => TrimSpace (ToLower lower p.1)))
    (lineNumber : Nat) (now1 now2 : String) (rnd : Nat → Nat) :
    ∃ textCol textCol2 out,
      columnMapFrom lower 0 (fun _ => none) (cols.map Prod.fst) "text" = some textCol ∧
      columnMapFrom lower 0 (fun _ => none) (cols2.map Prod.fst) "text" = some textCol2 ∧
      createTaskFromCSVRecord tm lower timeParse (cols.map Prod.snd)
          (columnMapFrom lower 0 (fun _ => none) (cols.map Prod.fst)) textCol lineNumber now1
          now2 rnd = some out ∧
      createTaskFromCSVRecord tm lower timeParse (cols2.map Prod.snd)
          (columnMapFrom lower 0 (fun _ => none) (cols2.map Prod.fst)) textCol2 lineNumber now1
          now2 rnd = some out := by
  have hkeys : (cols.map (fun p => TrimSpace (ToLower lower p.1))).Perm
      (cols2.map (fun p => TrimSpace (ToLower lower p.1))) := by
    have := hperm.map Prod.fst
    simpa [List.map_map, Function.comp_def] using this
  have hnd2 := hkeys.nodup_iff.mp hnd
  obtain ⟨p, hp, hpk⟩ := List.mem_map.mp htext
  have hmem : ("text", p.2) ∈ cols.map (fun p => (TrimSpace (ToLower lower p.1), p.2)) :=
    List.mem_map.mpr ⟨p, hp, by rw [hpk]⟩
  have hmem2 := hperm.mem_iff.mp hmem
  obtain ⟨j, h1, h2⟩ := columnMapFrom_present lower "text" p.2 cols hnd hmem 0 (fun _ => none)
  obtain ⟨j2, h3, h4⟩ := columnMapFrom_present lower "text" p.2 cols2 hnd2 hmem2 0
    (fun _ => none)
  rw [Nat.zero_add] at h1 h3
  have hsome : ∃ out, createTaskFromCSVRecord tm lower timeParse (cols2.map Prod.snd)
      (columnMapFrom lower 0 (fun _ => none) (cols2.map Prod.fst)) j2 lineNumber now1
      now2 rnd = some out := by
    unfold createTaskFromCSVRecord
    rw [h4]
    simp only []
    split <;> exact ⟨_, rfl⟩
  obtain ⟨out, hout⟩ := hsome
  refine ⟨j, j2, out, h1, h3, ?_, hout⟩
  rw [← hout]
  exact createTask_congr tm lower timeParse _ _ _ _ j j2 lineNumber now1 now2 rnd
    (by rw [h2, h4]) (getValue_perm lower cols cols2 hperm hnd)

theorem C25_column_order_witness :
    ∃ textCol textCol2 out,
      columnMapFrom Char.toLower 0 (fun _ => none) (sampleColumns.map Prod.fst) "text"
        = some textCol ∧
      columnMapFrom Char.toLower 0 (fun _ => none) (sampleColumnsMoved.map Prod.fst) "text"
        = some textCol2 ∧
      createTaskFromCSVRecord sampleStore Char.toLower goTimeParse (sampleColumns.map Prod.snd)
          (columnMapFrom Char.toLower 0 (fun _ => none) (sampleColumns.map Prod.fst)) textCol 2
          "2025-07-10 08:00:00" "2025-07-10 08:00:00" (fun i => i) = some out ∧
      createTaskFromCSVRecord sampleStore Char.toLower goTimeParse
          (sampleColumnsMoved.map Prod.snd)
          (columnMapFrom Char.toLower 0 (fun _ => none) (sampleColumnsMoved.map Prod.fst))
          textCol2 2 "2025-07-10 08:00:00" "2025-07-10 08:00:00" (fun i => i) = some out :=
  C25_column_order sampleStore Char.toLower goTimeParse sampleColumns sampleColumnsMoved
    (by decide) (by decide) (by decide) 2 "2025-07-10 08:00:00" "2025-07-10 08:00:00"
    (fun i => i)

/-! ### A row without text -/

theorem processImportTask_unknown (c : Task) (existing : String → Option Nat)
    (conflict : String) (h1 : conflict ≠ "skip") (h2 : conflict ≠ "update")
    (h3 : conflict ≠ "newer") (parseTime : String → Option Int) (now : String)
    (st : ImportState) (w : List String) :
    processImportTask c existing conflict parseTime now
        { st with result := { st.result with Warnings := w } }
      = ({ (processImportTask c existing "skip" parseTime now st).1 with
           result :=
             { (processImportTask c existing "skip" parseTime now st).1.result with
               Warnings := w ++
                 (if (existing c.UUID).isSome then
                    ["stratégie de conflit '" ++ conflict ++ "' inconnue, tâche ignorée"]
                  else []) } },
         (processImportTask c existing "skip" parseTime now st).2) := by
  unfold processImportTask
  cases existing c.UUID with
  | none => simp
  | some i => simp [h1, h2, h3, ImportState.skip]

theorem importLoop_unknown (existing : String → Option Nat) (conflict : String)
    (h1 : conflict ≠ "skip") (h2 : conflict ≠ "update") (h3 : conflict ≠ "newer")
    (options : ImportOptions) (parseTime : String → Option Int) (now : Nat → String)
    (rows : List Task) :
    ∀ (k : Nat) (st : ImportState) (w : List String),
      importLoop existing conflict options parseTime now k rows
          { st with result := { st.result with Warnings := w } }
        = { importLoop existing "skip" options parseTime now k rows st with
            result :=
              { (importLoop existing "skip" options parseTime now k rows st).result with
                Warnings := w ++
                  List.replicate (rows.countP (fun c => (existing c.UUID).isSome))
                    ("stratégie de conflit '" ++ conflict ++ "' inconnue, tâche ignorée") } } := by
  induction rows with
  | nil => intro k st w; simp [importLoop]
  | cons c rest ih =>
    intro k st w
    simp only [importLoop]
    rw [processImportTask_unknown c existing conflict h1 h2 h3]
    simp only []
    have step : ∀ (s : ImportState) (w2 : List String) (b : Bool),
        (if b = true then
            ImportState.append { s with result := { s.result with Warnings := w2 } } c
          else { s with result := { s.result with Warnings := w2 } })
        = { (if b = true then s.append c else s) with
            result := { (if b = true then s.append c else s).result with Warnings := w2 } } := by
      intro s w2 b
      cases b <;> simp [ImportState.append]
    rw [step, ih]
    cases h : (existing c.UUID).isSome <;>
      simp [List.countP_cons, h, List.replicate_succ, List.replicate_add]

theorem importLoop_skip_counts (existing : String → Option Nat) (options : ImportOptions)
    (parseTime : String → Option Int) (now : Nat → String) (rows : List Task) :
    ∀ (k : Nat) (st : ImportState),
      (importLoop existing "skip" options parseTime now k rows st).result.SkippedTasks
          = st.result.SkippedTasks
            + ((rows.countP (fun c => (existing c.UUID).isSome) : Nat) : Int) ∧
      (importLoop existing "skip" options parseTime now k rows st).result.Warnings
          = st.result.Warnings ∧
      (importLoop existing "skip" options parseTime now k rows st).result.UpdatedTasks
          = st.result.UpdatedTasks := by
  induction rows with
  | nil => intro k st; simp [importLoop]
  | cons c rest ih =>
    intro k st
    simp only [importLoop]
    obtain ⟨ih1, ih2, ih3⟩ := ih (k + 1)
      (if ((processImportTask c existing "skip" parseTime (now k) st).2 && !options.DryRun) = true
       then (processImportTask c existing "skip" parseTime (now k) st).1.append c
       else (processImportTask c existing "skip" parseTime (now k) st).1)
    rw [ih1, ih2, ih3]
    unfold processImportTask
    cases h : existing c.UUID with
    | none =>
      cases options.DryRun <;> simp [ImportState.append, List.countP_cons, h]
    | some i =>
      simp [ImportState.skip, List.countP_cons, h]
      omega

theorem importLoop_unknown_report (existing : String → Option Nat) (conflict : String)
    (h1 : conflict ≠ "skip") (h2 : conflict ≠ "update") (h3 : conflict ≠ "newer")
    (options : ImportOptions) (parseTime : String → Option Int) (now : Nat → String)
    (rows : List Task) (st : ImportState) (hw : st.result.Warnings = [])
    (hs : st.result.SkippedTasks = 0) (hu : st.result.UpdatedTasks = 0) :
    (importLoop existing conflict options parseTime now 0 rows st).Tasks
      = (importLoop existing "skip" options parseTime now 0 rows st).Tasks ∧
    (importLoop existing conflict options parseTime now 0 rows st).NextID
      = (importLoop existing "skip" options parseTime now 0 rows st).NextID ∧
    (importLoop existing "skip" options parseTime now 0 rows st).result.UpdatedTasks = 0 ∧
    (importLoop existing conflict options parseTime now 0 rows st).result
      = { (importLoop existing "skip" options parseTime now 0 rows st).result with
          Warnings := List.replicate
            (importLoop existing "skip" options parseTime now 0 rows st).result.SkippedTasks.toNat
            ("stratégie de conflit '" ++ conflict ++ "' inconnue, tâche ignorée") } := by
  have e : ({ st with result := { st.result with Warnings := [] } } : ImportState) = st := by
    cases st with
    | mk T N c s r res =>
      cases res
      simp only at hw
      subst hw
      rfl
  have key := importLoop_unknown existing conflict h1 h2 h3 options parseTime now rows 0 st []
  rw [e] at key
  obtain ⟨c1, _, c3⟩ := importLoop_skip_counts existing options parseTime now rows 0 st
  rw [hs] at c1
  rw [hu] at c3
  rw [key, c1]
  simp [c3]

/-- C27. For every store, every list of candidate rows and every strategy
string other than skip, update and newer, `ImportCSV` leaves the store it
leaves under skip and returns the error it returns under skip; its report has
the counts and errors of the report under skip (rows with an unknown uuid
counted as new, rows whose uuid exists counted as skipped, none updated), and
its warnings are one warning per skipped row, each quoting the strategy. -/
theorem C27_unknown_strategy (tm : TodoManager) (filename : String) (fileExists : Bool)
    (tasks : List Task) (parseErrors : List String) (mode conflict : String)
    (options : ImportOptions) (confirm : Bool) (spare : Nat)
    (parseTime : String → Option Int) (now : Nat → String)
    (h1 : conflict ≠ "skip") (h2 : conflict ≠ "update") (h3 : conflict ≠ "newer") :
    (tm.ImportCSV filename fileExists tasks parseErrors mode conflict options confirm spare
        parseTime now).1
      = (tm.ImportCSV filename fileExists tasks parseErrors mode "skip" options confirm spare
          parseTime now).1 ∧
    (tm.ImportCSV filename fileExists tasks parseErrors mode conflict options confirm spare
        parseTime now).2.2
      = (tm.ImportCSV filename fileExists tasks parseErrors mode "skip" options confirm spare
          parseTime now).2.2 ∧
    ∀ report,
      (tm.ImportCSV filename fileExists tasks parseErrors mode "skip" options confirm spare
          parseTime now).2.1 = some report →
      report.UpdatedTasks = 0 ∧
      (tm.ImportCSV filename fileExists tasks parseErrors mode conflict options confirm spare
          parseTime now).2.1
        = some { report with
            Warnings := List.replicate report.SkippedTasks.toNat
              ("stratégie de conflit '" ++ conflict ++ "' inconnue, tâche ignorée") } := by
  unfold TodoManager.ImportCSV
  cases fileExists with
  | false => simp
  | true =>
    simp only [Bool.not_true, Bool.false_eq_true, if_false, List.nil_append]
    by_cases ht : tasks.length = 0
    · simp only [if_pos ht]
      refine ⟨trivial, trivial, ?_⟩
      intro report hr
      cases hr
      exact ⟨rfl, rfl⟩
    · simp only [if_neg ht]
      by_cases hcancel : (decide (mode = "replace") && !options.DryRun && !confirm) = true
      · simp only [if_pos hcancel]
        refine ⟨trivial, trivial, ?_⟩
        intro report hr
        cases hr
        exact ⟨rfl, rfl⟩
      · simp only [if_neg hcancel]
        cases hreset : (decide (mode = "replace") && !options.DryRun)
        · simp only [Bool.false_eq_true, if_false]
          obtain ⟨k1, k2, k3, k4⟩ := importLoop_unknown_report (existingTasks tm.Tasks) conflict
            h1 h2 h3 options parseTime now tasks
            { Tasks := tm.Tasks, NextID := tm.NextID, cells := tm.Tasks, shared := true,
              room := spare,
              result := { NewTasks := 0, UpdatedTasks := 0, SkippedTasks := 0,
                          Errors := parseErrors, Warnings := [] } } rfl rfl rfl
          refine ⟨by rw [k1, k2], trivial, ?_⟩
          intro report hr
          cases hr
          exact ⟨k3, by rw [k4]⟩
        · simp only [if_true]
          obtain ⟨k1, k2, k3, k4⟩ := importLoop_unknown_report (existingTasks []) conflict
            h1 h2 h3 options parseTime now tasks
            { Tasks := [], NextID := 1, cells := [], shared := true,
              room := 0,
              result := { NewTasks := 0, UpdatedTasks := 0, SkippedTasks := 0,
                          Errors := parseErrors, Warnings := [] } } rfl rfl rfl
          refine ⟨by rw [k1, k2], trivial, ?_⟩
          intro report hr
          cases hr
          exact ⟨k3, by rw [k4]⟩

theorem C27_unknown_strategy_witness :
    (sampleStore.ImportCSV "tasks.csv" true [sampleCollidingRow, sampleRow] [] "merge"
        "overwrite" ⟨false, false⟩ true 0 (goTimeParse "2006-01-02 15:04:05")
        sampleEnv.updateNow).1
      = (sampleStore.ImportCSV "tasks.csv" true [sampleCollidingRow, sampleRow] [] "merge"
          "skip" ⟨false, false⟩ true 0 (goTimeParse "2006-01-02 15:04:05")
          sampleEnv.updateNow).1 ∧
    (sampleStore.ImportCSV "tasks.csv" true [sampleCollidingRow, sampleRow] [] "merge"
        "overwrite" ⟨false, false⟩ true 0 (goTimeParse "2006-01-02 15:04:05")
        sampleEnv.updateNow).2.1
      = some { NewTasks := 1, UpdatedTasks := 0, SkippedTasks := 1, Errors := [],
               Warnings := ["stratégie de conflit 'overwrite' inconnue, tâche ignorée"] } :=
  ⟨(C27_unknown_strategy sampleStore "tasks.csv" true [sampleCollidingRow, sampleRow] []
      "merge" "overwrite" ⟨false, false⟩ true 0 (goTimeParse "2006-01-02 15:04:05")
      sampleEnv.updateNow (by decide) (by decide) (by decide)).1,
   ((C27_unknown_strategy sampleStore "tasks.csv" true [sampleCollidingRow, sampleRow] []
      "merge" "overwrite" ⟨false, false⟩ true 0 (goTimeParse "2006-01-02 15:04:05")
      sampleEnv.updateNow (by decide) (by decide) (by decide)).2.2
      { NewTasks := 1, UpdatedTasks := 0, SkippedTasks := 1, Errors := [], Warnings := [] }
      (by decide)).2⟩

/-! ### validateDate -/

theorem daysIn_eq_spec (year month : Nat) (h1 : 1 ≤ month) (h2 : month ≤ 12) :
    daysIn month year = specMonthLength year month := by
  have hleap : (decide (year % 4 = 0) && (decide (year % 100 ≠ 0) || decide (year % 400 = 0)))
      = specLeapYear year := by
    unfold specLeapYear
    by_cases a : year % 4 = 0 <;> by_cases b : year % 100 = 0 <;>
      by_cases c : year % 400 = 0 <;> simp [a, b, c] <;> omega
  unfold daysIn specMonthLength
  rw [hleap]
  interval_cases month <;> simp

theorem getnum_fixed (l : List Char) (n : Nat) (rest : List Char)
    (h : getnum l true = some (n, rest)) :
    ∃ c1 c2, l = c1 :: c2 :: rest ∧ isDigit c1 = true ∧ isDigit c2 = true ∧
      n = digitVal c1 * 10 + digitVal c2 := by
  rcases l with _ | ⟨c1, _ | ⟨c2, tl⟩⟩
  · simp [getnum] at h
  · simp [getnum] at h
  · cases h1 : isDigit c1
    · simp [getnum, h1] at h
    · cases h2 : isDigit c2
      · simp [getnum, h1, h2] at h
      · simp only [getnum, h1, h2, Bool.not_true, Bool.false_eq_true, if_false, if_true,
          Option.some.injEq, Prod.mk.injEq] at h
        exact ⟨c1, c2, by rw [h.2], h1, h2, h.1.symm⟩

theorem parseChunks_year (chunks : List LayoutChunk) (l : List Char) (t r : ParsedTime)
    (h : parseChunks (.year :: chunks) l t = some r) :
    ∃ a b c d rest, l = a :: b :: c :: d :: rest ∧
      isDigit a = true ∧ isDigit b = true ∧ isDigit c = true ∧ isDigit d = true ∧
      parseChunks chunks rest { t with year := digitsVal [a, b, c, d] } = some r := by
  rcases l with _ | ⟨a, _ | ⟨b, _ | ⟨c, _ | ⟨d, rest⟩⟩⟩⟩
  · simp [parseChunks] at h
  · simp [parseChunks] at h
  · simp [parseChunks] at h
  · simp [parseChunks] at h
  · simp only [parseChunks] at h
    split at h
    · rename_i hd
      simp only [Bool.and_eq_true] at hd
      exact ⟨a, b, c, d, rest, rfl, hd.1.1.1, hd.1.1.2, hd.1.2, hd.2, h⟩
    · cases h

theorem parseChunks_dash (chunks : List LayoutChunk) (l : List Char) (t r : ParsedTime)
    (h : parseChunks (.lit '-' :: chunks) l t = some r) :
    ∃ rest, l = '-' :: rest ∧ parseChunks chunks rest t = some r := by
  rcases l with _ | ⟨x, rest⟩
  · simp [parseChunks, skipLit] at h
  · by_cases hx : x = '-'
    · subst hx
      refine ⟨rest, rfl, ?_⟩
      simpa [parseChunks, skipLit] using h
    · simp [parseChunks, skipLit, hx] at h

theorem parseChunks_month (chunks : List LayoutChunk) (l : List Char) (t r : ParsedTime)
    (h : parseChunks (.month :: chunks) l t = some r) :
    ∃ c1 c2 rest, l = c1 :: c2 :: rest ∧ isDigit c1 = true ∧ isDigit c2 = true ∧
      1 ≤ digitVal c1 * 10 + digitVal c2 ∧ digitVal c1 * 10 + digitVal c2 ≤ 12 ∧
      parseChunks chunks rest { t with month := digitVal c1 * 10 + digitVal c2 } = some r := by
  simp only [parseChunks] at h
  cases hg : getnum l true with
  | none => simp [hg] at h
  | some p =>
    obtain ⟨n, rest⟩ := p
    obtain ⟨c1, c2, hl, h1, h2, hn⟩ := getnum_fixed l n rest hg
    simp only [hg] at h
    split at h
    · cases h
    · rename_i hr
      simp only [Bool.or_eq_true, decide_eq_true_eq, not_or, not_lt] at hr
      subst hn
      exact ⟨c1, c2, rest, hl, h1, h2, by omega, hr.2, h⟩

theorem parseChunks_day (chunks : List LayoutChunk) (l : List Char) (t r : ParsedTime)
    (h : parseChunks (.day :: chunks) l t = some r) :
    ∃ c1 c2 rest, l = c1 :: c2 :: rest ∧ isDigit c1 = true ∧ isDigit c2 = true ∧
      parseChunks chunks rest { t with day := digitVal c1 * 10 + digitVal c2 } = some r := by
  simp only [parseChunks] at h
  cases hg : getnum l true with
  | none => simp [hg] at h
  | some p =>
    obtain ⟨n, rest⟩ := p
    obtain ⟨c1, c2, hl, h1, h2, hn⟩ := getnum_fixed l n rest hg
    simp only [hg] at h
    subst hn
    exact ⟨c1, c2, rest, hl, h1, h2, h⟩

/-- What `time.Parse("2006-01-02", ·)` accepts. -/
theorem goTimeParse_date (l : List Char) :
    (goTimeParse "2006-01-02" ⟨l⟩).isSome = true ↔
      ∃ y1 y2 y3 y4 m1 m2 d1 d2, l = [y1, y2, y3, y4, '-', m1, m2, '-', d1, d2] ∧
        isDigit y1 = true ∧ isDigit y2 = true ∧ isDigit y3 = true ∧ isDigit y4 = true ∧
        isDigit m1 = true ∧ isDigit m2 = true ∧ isDigit d1 = true ∧ isDigit d2 = true ∧
        1 ≤ digitVal m1 * 10 + digitVal m2 ∧ digitVal m1 * 10 + digitVal m2 ≤ 12 ∧
        1 ≤ digitVal d1 * 10 + digitVal d2 ∧
        digitVal d1 * 10 + digitVal d2
          ≤ daysIn (digitVal m1 * 10 + digitVal m2) (digitsVal [y1, y2, y3, y4]) := by
  have hl : layoutChunks "2006-01-02" = some [.year, .lit '-', .month, .lit '-', .day] := by
    decide
  constructor
  · intro h
    simp only [goTimeParse, hl] at h
    cases hp : parseChunks [.year, .lit '-', .month, .lit '-', .day] l ⟨0, 1, 1, 0, 0, 0, 0⟩ with
    | none => simp [hp] at h
    | some r =>
      simp only [hp] at h
      obtain ⟨y1, y2, y3, y4, rest1, e1, hy1, hy2, hy3, hy4, hp⟩ := parseChunks_year _ _ _ _ hp
      obtain ⟨rest2, e2, hp⟩ := parseChunks_dash _ _ _ _ hp
      obtain ⟨m1, m2, rest3, e3, hm1, hm2, hlo, hhi, hp⟩ := parseChunks_month _ _ _ _ hp
      obtain ⟨rest4, e4, hp⟩ := parseChunks_dash _ _ _ _ hp
      obtain ⟨d1, d2, rest5, e5, hd1, hd2, hp⟩ := parseChunks_day _ _ _ _ hp
      simp only [parseChunks] at hp
      split at hp
      · rename_i e6
        cases hp
        subst e6 e5 e4 e3 e2 e1
        split at h
        · cases h
        · rename_i hr
          simp only [Bool.or_eq_true, decide_eq_true_eq, not_or, not_lt] at hr
          exact ⟨y1, y2, y3, y4, m1, m2, d1, d2, rfl, hy1, hy2, hy3, hy4, hm1, hm2, hd1, hd2,
            hlo, hhi, hr.1, hr.2⟩
      · cases hp
  · rintro ⟨y1, y2, y3, y4, m1, m2, d1, d2, rfl, hy1, hy2, hy3, hy4, hm1, hm2, hd1, hd2, hlo,
      hhi, hdlo, hdhi⟩
    have hm : (decide (digitVal m1 * 10 + digitVal m2 = 0) ||
        decide (12 < digitVal m1 * 10 + digitVal m2)) = false := by
      simp only [Bool.or_eq_false_iff, decide_eq_false_iff_not]
      omega
    have hd : (decide (digitVal d1 * 10 + digitVal d2 < 1) ||
        decide (daysIn (digitVal m1 * 10 + digitVal m2) (digitsVal [y1, y2, y3, y4])
          < digitVal d1 * 10 + digitVal d2)) = false := by
      simp only [Bool.or_eq_false_iff, decide_eq_false_iff_not]
      omega
    simp only [goTimeParse, hl, parseChunks, skipLit, getnum, hy1, hy2, hy3, hy4, hm1, hm2, hd1,
      hd2, hm, hd, Bool.and_self, if_true, if_false, Bool.not_true, Bool.false_eq_true,
      Char.reduceEq, Option.isSome_some]

theorem digitsVal_two (a b : Char) : digitsVal [a, b] = digitVal a * 10 + digitVal b := by
  simp only [digitsVal, List.foldl_cons, List.foldl_nil]
  omega

/-- On every string, `validateDate` over the model of `time.Parse` and the rule
of the specification agree. -/
theorem validateDate_spec (s : String) : validateDate goTimeParse s = specValidDate s := by
  rcases s with ⟨l⟩
  by_cases he : l = []
  · subst he; decide
  · have hne : (⟨l⟩ : String) ≠ "" := by
      intro h; apply he; exact congrArg String.data h
    simp only [validateDate, specValidDate, hne, if_false, decide_False, Bool.false_or]
    rw [Bool.eq_iff_iff, goTimeParse_date]
    constructor
    · rintro ⟨y1, y2, y3, y4, m1, m2, d1, d2, rfl, hy1, hy2, hy3, hy4, hm1, hm2, hd1, hd2, hlo,
        hhi, hdlo, hdhi⟩
      rw [daysIn_eq_spec _ _ hlo hhi] at hdhi
      simp only [hy1, hy2, hy3, hy4, hm1, hm2, hd1, hd2, digitsVal_two, hlo, hhi, hdlo, hdhi,
        decide_True, Bool.and_self]
    · intro h
      split at h
      · rename_i x y1 y2 y3 y4 s1 m1 m2 s2 d1 d2
        simp only [Bool.and_eq_true, decide_eq_true_eq, digitsVal_two] at h
        obtain ⟨⟨⟨⟨⟨⟨⟨⟨⟨⟨⟨⟨⟨hy1, hy2⟩, hy3⟩, hy4⟩, hs1⟩, hm1⟩, hm2⟩, hs2⟩, hd1⟩, hd2⟩, hlo⟩, hhi⟩,
          hdlo⟩, hdhi⟩ := h
        rw [← daysIn_eq_spec _ _ hlo hhi] at hdhi
        subst hs1 hs2
        exact ⟨y1, y2, y3, y4, m1, m2, d1, d2, rfl, hy1, hy2, hy3, hy4, hm1, hm2, hd1, hd2, hlo,
          hhi, hdlo, hdhi⟩
      · cases h

/-- C28. `validateDate`, with the library function `time.Parse` as modelled by
`goTimeParse`, accepts exactly what the specification describes: the empty
string, and the strings of the form YYYY-MM-DD that name a day of the
Gregorian calendar, leap years included. The samples of the specification and
of the test are accepted and rejected as stated. -/
theorem C28_validateDate :
    (∀ s : String, validateDate goTimeParse s = specValidDate s) ∧
    validateDate goTimeParse "" = true ∧
    validateDate goTimeParse "2025-07-20" = true ∧
    validateDate goTimeParse "2025-01-01" = true ∧
    validateDate goTimeParse "2024-02-29" = true ∧
    validateDate goTimeParse "2025-02-29" = false ∧
    validateDate goTimeParse "2025-13-01" = false ∧
    validateDate goTimeParse "2025-07-32" = false ∧
    validateDate goTimeParse "2025/07/20" = false ∧
    validateDate goTimeParse "invalid" = false := by
  refine ⟨validateDate_spec, by decide, by decide, by decide, by decide, by decide, by decide,
    by decide, by decide, by decide⟩

/-! ### parsePriority -/

theorem lower_word (lower : Char → Char) (hl : AsciiLower lower) :
    ∀ s ∈ ["h", "high", "haute", "m", "medium", "moyenne", "l", "low", "basse", ""],
      ToLower lower s = s := by
  intro s hs
  have hascii : ∀ c ∈ s.data, c.toNat < 128 := by
    revert s
    decide
  rw [ToLower_ascii lower hl s hascii]
  revert s
  decide

theorem prioritySwitch (q : String) :
    ((if (q = "h" || q = "high" || q = "haute") = true then "high"
      else if (q = "m" || q = "medium" || q = "moyenne") = true then "medium"
      else if (q = "l" || q = "low" || q = "basse") = true then "low" else "") = "high" ↔
      q = "h" ∨ q = "high" ∨ q = "haute") ∧
    ((if (q = "h" || q = "high" || q = "haute") = true then "high"
      else if (q = "m" || q = "medium" || q = "moyenne") = true then "medium"
      else if (q = "l" || q = "low" || q = "basse") = true then "low" else "") = "medium" ↔
      q = "m" ∨ q = "medium" ∨ q = "moyenne") ∧
    ((if (q = "h" || q = "high" || q = "haute") = true then "high"
      else if (q = "m" || q = "medium" || q = "moyenne") = true then "medium"
      else if (q = "l" || q = "low" || q = "basse") = true then "low" else "") = "low" ↔
      q = "l" ∨ q = "low" ∨ q = "basse") ∧
    ((if (q = "h" || q = "high" || q = "haute") = true then "high"
      else if (q = "m" || q = "medium" || q = "moyenne") = true then "medium"
      else if (q = "l" || q = "low" || q = "basse") = true then "low" else "") = "" ↔
      ¬ (q = "h" ∨ q = "high" ∨ q = "haute" ∨ q = "m" ∨ q = "medium" ∨ q = "moyenne" ∨
         q = "l" ∨ q = "low" ∨ q = "basse")) ∧
    (if (q = "h" || q = "high" || q = "haute") = true then "high"
      else if (q = "m" || q = "medium" || q = "moyenne") = true then "medium"
      else if (q = "l" || q = "low" || q = "basse") = true then "low" else "")
      ∈ ["", "low", "medium", "high"] := by
  by_cases e1 : q = "h"
  · subst e1; decide
  by_cases e2 : q = "high"
  · subst e2; decide
  by_cases e3 : q = "haute"
  · subst e3; decide
  by_cases e4 : q = "m"
  · subst e4; decide
  by_cases e5 : q = "medium"
  · subst e5; decide
  by_cases e6 : q = "moyenne"
  · subst e6; decide
  by_cases e7 : q = "l"
  · subst e7; decide
  by_cases e8 : q = "low"
  · subst e8; decide
  by_cases e9 : q = "basse"
  · subst e9; decide
  simp only [e1, e2, e3, e4, e5, e6, e7, e8, e9, decide_False, Bool.or_self, Bool.false_eq_true,
    if_false, or_self, not_false_eq_true, iff_true, iff_false]
  decide

/-- C29. With `unicode.ToLower` acting on ASCII as ASCII lower-casing,
`parsePriority` returns high exactly for the strings that, compared without
regard to letter case, are h, high or haute; medium exactly for m, medium or
moyenne; low exactly for l, low or basse; and the empty string for every other
string, the empty one included. Its result is always one of the empty string,
low, medium and high, and applying it twice is the same as applying it once. -/
theorem C29_parsePriority (lower : Char → Char) (hl : AsciiLower lower) (p : String) :
    (parsePriority lower p = "high" ↔
      equalFold lower p "h" ∨ equalFold lower p "high" ∨ equalFold lower p "haute") ∧
    (parsePriority lower p = "medium" ↔
      equalFold lower p "m" ∨ equalFold lower p "medium" ∨ equalFold lower p "moyenne") ∧
    (parsePriority lower p = "low" ↔
      equalFold lower p "l" ∨ equalFold lower p "low" ∨ equalFold lower p "basse") ∧
    (parsePriority lower p = "" ↔
      ¬ (equalFold lower p "h" ∨ equalFold lower p "high" ∨ equalFold lower p "haute" ∨
         equalFold lower p "m" ∨ equalFold lower p "medium" ∨ equalFold lower p "moyenne" ∨
         equalFold lower p "l" ∨ equalFold lower p "low" ∨ equalFold lower p "basse")) ∧
    parsePriority lower "" = "" ∧
    parsePriority lower p ∈ ["", "low", "medium", "high"] ∧
    parsePriority lower (parsePriority lower p) = parsePriority lower p := by
  have w := lower_word lower hl
  have w1 := w "h" (by decide)
  have w2 := w "high" (by decide)
  have w3 := w "haute" (by decide)
  have w4 := w "m" (by decide)
  have w5 := w "medium" (by decide)
  have w6 := w "moyenne" (by decide)
  have w7 := w "l" (by decide)
  have w8 := w "low" (by decide)
  have w9 := w "basse" (by decide)
  have fix : ∀ r ∈ ["", "low", "medium", "high"], parsePriority lower r = r := by
    intro r hr
    have hr2 : ToLower lower r = r := by
      simp only [List.mem_cons, List.mem_singleton, List.not_mem_nil, or_false] at hr
      rcases hr with rfl | rfl | rfl | rfl
      · exact w "" (by decide)
      · exact w8
      · exact w5
      · exact w2
    unfold parsePriority
    simp only [hr2]
    clear hr2 w w1 w2 w3 w4 w5 w6 w7 w8 w9 hl
    revert r
    decide
  obtain ⟨s1, s2, s3, s4, s5⟩ := prioritySwitch (ToLower lower p)
  have hmem : parsePriority lower p ∈ ["", "low", "medium", "high"] := s5
  exact ⟨by simp only [equalFold, w1, w2, w3]; exact s1,
    by simp only [equalFold, w4, w5, w6]; exact s2,
    by simp only [equalFold, w7, w8, w9]; exact s3,
    by simp only [equalFold, w1, w2, w3, w4, w5, w6, w7, w8, w9]; exact s4,
    fix "" (by decide), hmem, fix _ hmem⟩

theorem C29_parsePriority_witness :
    AsciiLower Char.toLower ∧
    parsePriority Char.toLower "HIGH" ∈ ["", "low", "medium", "high"] ∧
    parsePriority Char.toLower (parsePriority Char.toLower "HIGH")
      = parsePriority Char.toLower "HIGH" :=
  ⟨asciiLower_toLower, (C29_parsePriority Char.toLower asciiLower_toLower "HIGH").2.2.2.2.2⟩

/-! ### generateUUID -/

theorem hexDigit_class : ∀ n < 16, isHexLower (hexDigit n) = true ∧
    (hexDigit n).toLower = hexDigit n := by
  decide

theorem version_nibble (b : Nat) : ((b &&& 0x0f) ||| 0x40) / 16 % 16 = 4 := by
  have h : b &&& 0x0f < 16 := Nat.lt_succ_of_le Nat.and_le_right
  have key : ∀ x < 16, (x ||| 0x40) / 16 % 16 = 4 := by decide
  exact key _ h

set_option maxRecDepth 4000 in
theorem variant_nibble (b : Nat) :
    ((b &&& 0x3f) ||| 0x80) / 16 % 16 = 8 ∨ ((b &&& 0x3f) ||| 0x80) / 16 % 16 = 9 ∨
    ((b &&& 0x3f) ||| 0x80) / 16 % 16 = 10 ∨ ((b &&& 0x3f) ||| 0x80) / 16 % 16 = 11 := by
  have h : b &&& 0x3f < 64 := Nat.lt_succ_of_le Nat.and_le_right
  have key : ∀ x < 64, (x ||| 0x80) / 16 % 16 = 8 ∨ (x ||| 0x80) / 16 % 16 = 9 ∨
      (x ||| 0x80) / 16 % 16 = 10 ∨ (x ||| 0x80) / 16 % 16 = 11 := by decide
  exact key _ h

/-- The value `generateUUID` returns matches the pattern of `isValidUUID` as it
stands, whatever the sixteen bytes drawn. -/
theorem generateUUID_pattern (rnd : Nat → Nat) :
    matchClasses uuidPattern (generateUUID rnd).data = true := by
  have hx : ∀ n, isHexLower (hexDigit (n % 16)) = true :=
    fun n => (hexDigit_class (n % 16) (Nat.mod_lt _ (by decide))).1
  have h4 : isChar '4' (hexDigit 4) = true := by decide
  have hd : isChar '-' '-' = true := by decide
  have hv : (isChar '8' (hexDigit ((rnd 8 % 256 &&& 63 ||| 128) / 16 % 16)) ||
      isChar '9' (hexDigit ((rnd 8 % 256 &&& 63 ||| 128) / 16 % 16)) ||
      isChar 'a' (hexDigit ((rnd 8 % 256 &&& 63 ||| 128) / 16 % 16)) ||
      isChar 'b' (hexDigit ((rnd 8 % 256 &&& 63 ||| 128) / 16 % 16))) = true := by
    rcases variant_nibble (rnd 8 % 256) with h | h | h | h <;> rw [h] <;> decide
  simp only [generateUUID, List.range, List.range.loop, hexBytes, hexByte, uuidPattern,
    matchClasses, List.replicate, List.map, List.set, List.getD, List.take, List.drop,
    List.flatMap, List.flatten, List.append, List.cons_append, List.nil_append, List.get?,
    Option.getD, hx, version_nibble, h4, hd, hv, Bool.and_self]

/-- C30. For every sixteen bytes drawn from the random source, `generateUUID`
returns a string of 36 characters that matches, as it stands, the pattern of
lowercase hexadecimal groups of 8, 4, 4, 4 and 12 digits separated by dashes,
the third group starting with 4 and the fourth with 8, 9, a or b; with
`unicode.ToLower` acting on ASCII as ASCII lower-casing, `isValidUUID` accepts
the string. -/
theorem C30_generated_uuid_valid (lower : Char → Char) (hl : AsciiLower lower)
    (rnd : Nat → Nat) :
    (generateUUID rnd).data.length = 36 ∧
    matchClasses uuidPattern (generateUUID rnd).data = true ∧
    isValidUUID lower (generateUUID rnd) = true := by
  have hp := generateUUID_pattern rnd
  have hlen : (generateUUID rnd).data.length = 36 := by
    rw [matchClasses_length _ _ hp]
    rfl
  have hfix : ToLower Char.toLower (generateUUID rnd) = generateUUID rnd := by
    have hall := matchClasses_all (fun d => isHexLower d = true ∨ d = '-') uuidPattern
      (generateUUID rnd).data uuidPattern_classes hp
    have hmap : ∀ l : List Char, (∀ d ∈ l, isHexLower d = true ∨ d = '-') →
        l.map Char.toLower = l := by
      intro l h
      induction l with
      | nil => rfl
      | cons d tl ih =>
        have hd : d.toLower = d := by
          have key : ∀ c : Char, isHexLower c = true ∨ c = '-' → c.toLower = c := by
            intro c hc
            rcases hc with hc | hc
            · simp only [isHexLower, Bool.or_eq_true, Bool.and_eq_true, decide_eq_true_eq] at hc
              have : ¬ (c.toNat ≥ 65 ∧ c.toNat ≤ 90) := by omega
              simp only [Char.toLower, this, if_false]
            · rw [hc]; decide
          exact key d (h d (List.mem_cons_self _ _))
        simp only [List.map_cons, hd, ih (fun x hx => h x (List.mem_cons_of_mem _ hx))]
    show String.mk ((generateUUID rnd).data.map Char.toLower) = generateUUID rnd
    rw [hmap _ hall]
  have hvalid : isValidUUID Char.toLower (generateUUID rnd) = true := by
    unfold isValidUUID
    rw [hfix]
    exact hp
  exact ⟨hlen, hp, (uuid_facts lower hl _ hvalid).2.2.1⟩

theorem C30_generated_uuid_valid_witness :
    AsciiLower sampleEnv.lower ∧
    generateUUID (sampleEnv.rowRnd 2) = "02030405-0607-4809-8a0b-0c0d0e0f1011" ∧
    isValidUUID sampleEnv.lower (generateUUID (sampleEnv.rowRnd 2)) = true :=
  ⟨asciiLower_toLower, by decide,
    (C30_generated_uuid_valid sampleEnv.lower asciiLower_toLower (sampleEnv.rowRnd 2)).2.2⟩

/-! ## The report counts, a refused replace, the uniqueness of uuids -/

theorem modifyAt_length (f : Task → Task) : ∀ (i : Nat) (l : List Task),
    (modifyAt f i l).length = l.length := by
  intro i l
  induction l generalizing i with
  | nil => cases i <;> rfl
  | cons t rest ih =>
    cases i with
    | zero => rfl
    | succ j => simp [modifyAt, ih]

theorem processImportTask_counts (c : Task) (existing : String → Option Nat)
    (conflict : String) (parseTime : String → Option Int) (now : String) (st : ImportState) :
    (processImportTask c existing conflict parseTime now st).1.result.NewTasks
        + (processImportTask c existing conflict parseTime now st).1.result.UpdatedTasks
        + (processImportTask c existing conflict parseTime now st).1.result.SkippedTasks
      = st.result.NewTasks + st.result.UpdatedTasks + st.result.SkippedTasks + 1 ∧
    (processImportTask c existing conflict parseTime now st).1.Tasks.length = st.Tasks.length ∧
    (processImportTask c existing conflict parseTime now st).1.result.NewTasks
      = st.result.NewTasks
        + (if (processImportTask c existing conflict parseTime now st).2 then 1 else 0) := by
  unfold processImportTask
  cases existing c.UUID with
  | none => simp; omega
  | some i =>
    simp only []
    by_cases h1 : conflict = "skip"
    · simp [h1, ImportState.skip]; omega
    · by_cases h2 : conflict = "update"
      · simp only [if_neg h1, if_pos h2, ImportState.update]
        refine ⟨by omega, ?_, by simp⟩
        cases st.shared <;> simp [modifyAt_length]
      · by_cases h3 : conflict = "newer"
        · simp only [if_neg h1, if_neg h2, if_pos h3]
          cases st.cells.get? i with
          | none => simp [ImportState.skip]; omega
          | some e =>
            simp only []
            by_cases hn : isNewer parseTime c.Updated e.Updated = true
            · simp only [if_pos hn, ImportState.update]
              refine ⟨by omega, ?_, by simp⟩
              cases st.shared <;> simp [modifyAt_length]
            · simp [hn, ImportState.skip]; omega
        · simp [h1, h2, h3]; omega

theorem importLoop_counts (existing : String → Option Nat) (conflict : String)
    (options : ImportOptions) (parseTime : String → Option Int) (now : Nat → String)
    (rows : List Task) :
    ∀ (k : Nat) (st : ImportState),
      (importLoop existing conflict options parseTime now k rows st).result.NewTasks
          + (importLoop existing conflict options parseTime now k rows st).result.UpdatedTasks
          + (importLoop existing conflict options parseTime now k rows st).result.SkippedTasks
        = st.result.NewTasks + st.result.UpdatedTasks + st.result.SkippedTasks
          + (rows.length : Int) ∧
      (options.DryRun = false →
        ((importLoop existing conflict options parseTime now k rows st).Tasks.length : Int)
            - (importLoop existing conflict options parseTime now k rows st).result.NewTasks
          = (st.Tasks.length : Int) - st.result.NewTasks) := by
  induction rows with
  | nil => intro k st; simp [importLoop]
  | cons c rest ih =>
    intro k st
    simp only [importLoop]
    obtain ⟨p1, p2, p3⟩ := processImportTask_counts c existing conflict parseTime (now k) st
    generalize processImportTask c existing conflict parseTime (now k) st = r at p1 p2 p3 ⊢
    obtain ⟨s1, b⟩ := r
    simp only at p1 p2 p3 ⊢
    obtain ⟨i1, i2⟩ := ih (k + 1) (if (b && !options.DryRun) = true then s1.append c else s1)
    constructor
    · rw [i1]
      have e : (if (b && !options.DryRun) = true then s1.append c else s1).result = s1.result := by
        split <;> rfl
      rw [e, List.length_cons]
      push_cast
      omega
    · intro hd
      rw [i2 hd]
      cases b
      · simp only [Bool.false_and, Bool.false_eq_true, if_false] at p3 ⊢
        simp only [p2]
        omega
      · simp only [hd, Bool.not_false, Bool.and_self, if_true, ImportState.append,
          List.length_append, List.length_singleton] at p3 ⊢
        push_cast
        omega

/-- C39. Whenever `ImportCSV` returns a report and no error, in any mode, under
any strategy, dry run or not, the counts of new, updated and skipped tasks add
up to the number of candidate rows `parseCSV` handed over; and when the mode is
not replace and the run is not a dry run, the store ends with as many tasks
more as the report counts new ones. -/
theorem C39_counts_add_up (tm : TodoManager) (filename : String) (fileExists : Bool)
    (tasks : List Task) (parseErrors : List String) (mode conflict : String)
    (options : ImportOptions) (confirm : Bool) (spare : Nat)
    (parseTime : String → Option Int) (now : Nat → String)
    (tm2 : TodoManager) (report : ImportResult)
    (h : tm.ImportCSV filename fileExists tasks parseErrors mode conflict options confirm spare
      parseTime now = (tm2, some report, none)) :
    report.NewTasks + report.UpdatedTasks + report.SkippedTasks = (tasks.length : Int) ∧
    (mode ≠ "replace" → options.DryRun = false →
      (tm2.Tasks.length : Int) = (tm.Tasks.length : Int) + report.NewTasks) := by
  unfold TodoManager.ImportCSV at h
  cases fileExists with
  | false => simp at h
  | true =>
    simp only [Bool.not_true, Bool.false_eq_true, if_false, List.nil_append] at h
    by_cases ht : tasks.length = 0
    · rw [if_pos ht] at h
      simp at h
    · simp only [if_neg ht] at h
      by_cases hcancel : (decide (mode = "replace") && !options.DryRun && !confirm) = true
      · rw [if_pos hcancel] at h
        simp at h
      · simp only [if_neg hcancel] at h
        cases hreset : (decide (mode = "replace") && !options.DryRun)
        · simp only [hreset, Bool.false_eq_true, if_false, Prod.mk.injEq, Option.some.injEq,
            and_true] at h
          obtain ⟨c1, c2⟩ := importLoop_counts (existingTasks tm.Tasks) conflict options
            parseTime now tasks 0
            { Tasks := tm.Tasks, NextID := tm.NextID, cells := tm.Tasks, shared := true,
              room := spare,
              result := { NewTasks := 0, UpdatedTasks := 0, SkippedTasks := 0,
                          Errors := parseErrors, Warnings := [] } }
          obtain ⟨e1, e2⟩ := h
          subst e1 e2
          refine ⟨by simpa using c1, fun _ hd => ?_⟩
          have := c2 hd
          simp only at this ⊢
          omega
        · simp only [hreset, if_true, Prod.mk.injEq, Option.some.injEq, and_true] at h
          obtain ⟨c1, _⟩ := importLoop_counts (existingTasks []) conflict options
            parseTime now tasks 0
            { Tasks := [], NextID := 1, cells := [], shared := true, room := 0,
              result := { NewTasks := 0, UpdatedTasks := 0, SkippedTasks := 0,
                          Errors := parseErrors, Warnings := [] } }
          obtain ⟨e1, e2⟩ := h
          subst e1 e2
          refine ⟨by simpa using c1, fun hm hd => ?_⟩
          simp [hm, hd] at hreset

theorem C39_counts_add_up_witness :
    (1 : Int) + 1 + 0 = (([sampleCollidingRow, sampleRow] : List Task).length : Int) ∧
    ("merge" ≠ "replace" → (⟨false, false⟩ : ImportOptions).DryRun = false →
      (([⟨1, "123e4567-e89b-42d3-a456-426614174000", "Tâche importée 1", false, "high",
           "2025-07-25", ["+import", "@test"], "2025-07-09 10:00:00",
           "2025-07-10 08:00:01"⟩, sampleRow] : List Task).length : Int)
        = (sampleStore.Tasks.length : Int) + 1) :=
  C39_counts_add_up sampleStore "tasks.csv" true [sampleCollidingRow, sampleRow] [] "merge"
    "update" ⟨false, false⟩ true 0 (goTimeParse "2006-01-02 15:04:05") sampleEnv.updateNow
    { Tasks := [⟨1, "123e4567-e89b-42d3-a456-426614174000", "Tâche importée 1", false, "high",
                 "2025-07-25", ["+import", "@test"], "2025-07-09 10:00:00",
                 "2025-07-10 08:00:01"⟩, sampleRow],
      NextID := 3 }
    { NewTasks := 1, UpdatedTasks := 1, SkippedTasks := 0, Errors := [], Warnings := [] }
    (by decide)

/-- C40. For every store and every list of at least one candidate row, a call
of `ImportCSV` in replace mode that is not a dry run and whose confirmation is
refused returns the error of a cancelled import with a report that counts no
new, no updated and no skipped task, and the store (tasks and counter) is the
one the call started from. -/
theorem C40_refused_replace (tm : TodoManager) (filename : String) (tasks : List Task)
    (parseErrors : List String) (conflict : String) (verbose : Bool) (spare : Nat)
    (parseTime : String → Option Int) (now : Nat → String) (hrows : tasks ≠ []) :
    tm.ImportCSV filename true tasks parseErrors "replace" conflict ⟨false, verbose⟩ false spare
        parseTime now
      = (tm, some { NewTasks := 0, UpdatedTasks := 0, SkippedTasks := 0,
                    Errors := parseErrors, Warnings := [] },
         some "import annulé par l'utilisateur") := by
  have hlen : tasks.length ≠ 0 := fun e => hrows (List.length_eq_zero.mp e)
  simp [TodoManager.ImportCSV, hlen]

theorem C40_refused_replace_witness :
    sampleStore.ImportCSV "tasks.csv" true [sampleRow] [] "replace" "skip" ⟨false, false⟩ false 0
        (goTimeParse "2006-01-02 15:04:05") sampleEnv.updateNow
      = (sampleStore, some { NewTasks := 0, UpdatedTasks := 0, SkippedTasks := 0,
                             Errors := [], Warnings := [] },
         some "import annulé par l'utilisateur") :=
  C40_refused_replace sampleStore "tasks.csv" [sampleRow] [] "skip" false 0
    (goTimeParse "2006-01-02 15:04:05") sampleEnv.updateNow (by decide)

/-- C36 fails: the map of existing uuids is built once, before the loop, and a
row appended by the loop is not entered in it. Two rows that carry the same
uuid, unknown to the store, are both found new and both appended: after the
merge the store holds that uuid twice. -/
theorem C36_twin_rows_both_appended :
    (sampleStore.Tasks.map Task.UUID).Nodup ∧
    (sampleStore.importCSVFile "jumeaux.csv" sampleFileTwins "merge" "skip" ⟨false, false⟩
        sampleEnv).map (fun r => (r.1.Tasks.map Task.UUID, r.2.1.map ImportResult.NewTasks, r.2.2))
      = some (["123e4567-e89b-42d3-a456-426614174000",
               "123e4567-e89b-42d3-a456-426614174005",
               "123e4567-e89b-42d3-a456-426614174005"], some 2, none) := by
  decide

/-! ## isValidDateTime and isNewer -/

theorem isDigit_ne_space (c : Char) (h : isDigit c = true) : c ≠ ' ' := by
  intro e
  rw [e] at h
  revert h
  decide

/-- The date part of a layout consumes a well-formed date and records it. -/
theorem parseChunks_date_ok (chunks : List LayoutChunk) (y1 y2 y3 y4 m1 m2 d1 d2 : Char)
    (rest : List Char) (t : ParsedTime)
    (hy1 : isDigit y1 = true) (hy2 : isDigit y2 = true) (hy3 : isDigit y3 = true)
    (hy4 : isDigit y4 = true) (hm1 : isDigit m1 = true) (hm2 : isDigit m2 = true)
    (hd1 : isDigit d1 = true) (hd2 : isDigit d2 = true)
    (hlo : 1 ≤ digitVal m1 * 10 + digitVal m2) (hhi : digitVal m1 * 10 + digitVal m2 ≤ 12) :
    parseChunks (.year :: .lit '-' :: .month :: .lit '-' :: .day :: chunks)
        (y1 :: y2 :: y3 :: y4 :: '-' :: m1 :: m2 :: '-' :: d1 :: d2 :: rest) t
      = parseChunks chunks rest
          { t with year := digitsVal [y1, y2, y3, y4], month := digitVal m1 * 10 + digitVal m2,
                   day := digitVal d1 * 10 + digitVal d2 } := by
  have hm : (decide (digitVal m1 * 10 + digitVal m2 = 0) ||
      decide (12 < digitVal m1 * 10 + digitVal m2)) = false := by
    simp only [Bool.or_eq_false_iff, decide_eq_false_iff_not]
    omega
  simp only [parseChunks, skipLit, getnum, hy1, hy2, hy3, hy4, hm1, hm2, hd1, hd2, hm,
    Bool.and_self, if_true, if_false, Bool.not_true, Bool.false_eq_true, Char.reduceEq]

/-- The hour and minute part of a layout consumes a well-formed time of day. -/
theorem parseChunks_hm_ok (chunks : List LayoutChunk) (h1 h2 n1 n2 : Char)
    (rest : List Char) (t : ParsedTime)
    (k1 : isDigit h1 = true) (k2 : isDigit h2 = true) (k4 : isDigit n1 = true)
    (k5 : isDigit n2 = true) (k6 : digitVal h1 * 10 + digitVal h2 < 24)
    (k7 : digitVal n1 * 10 + digitVal n2 < 60) :
    parseChunks (.hour :: .lit ':' :: .minute :: chunks) (h1 :: h2 :: ':' :: n1 :: n2 :: rest) t
      = parseChunks chunks rest
          { t with hour := digitVal h1 * 10 + digitVal h2,
                   min := digitVal n1 * 10 + digitVal n2 } := by
  have hh : ¬ 24 ≤ digitVal h1 * 10 + digitVal h2 := by omega
  have hn : ¬ 60 ≤ digitVal n1 * 10 + digitVal n2 := by omega
  simp only [parseChunks, skipLit, getnum, k1, k2, k4, k5, hh, hn, Bool.and_self, if_true,
    if_false, Bool.not_true, Bool.false_eq_true, Char.reduceEq]

/-- The seconds part of a layout consumes a colon and two digits below 60. -/
theorem parseChunks_sec_ok (e1 e2 : Char) (t : ParsedTime)
    (k1 : isDigit e1 = true) (k2 : isDigit e2 = true) (k3 : digitVal e1 * 10 + digitVal e2 < 60) :
    parseChunks [.lit ':', .second] [':', e1, e2] t
      = some { t with sec := digitVal e1 * 10 + digitVal e2, nsec := 0 } := by
  have hn : ¬ 60 ≤ digitVal e1 * 10 + digitVal e2 := by omega
  simp only [parseChunks, skipLit, getnum, k1, k2, hn, fracSecond, Bool.and_self, if_true,
    if_false, Bool.not_true, Bool.false_eq_true, Char.reduceEq]

/-- The separator of a layout, a space or the letter T, consumes the same
character in front of a digit. -/
theorem parseChunks_sep_ok (chunks : List LayoutChunk) (sep h1 : Char) (rest : List Char)
    (t : ParsedTime) (hs : sep = ' ' ∨ sep = 'T') (k1 : isDigit h1 = true) :
    parseChunks (.lit sep :: chunks) (sep :: h1 :: rest) t = parseChunks chunks (h1 :: rest) t := by
  have hsp := isDigit_ne_space h1 k1
  rcases hs with rfl | rfl
  · simp [parseChunks, skipLit, List.dropWhile_cons, hsp]
  · simp [parseChunks, skipLit]

/-- The model of `time.Parse` accepts a well-formed date followed by a space
or a T and a well-formed time of day, under the layout without seconds, and
with a colon and well-formed seconds after it, under the layout with seconds. -/
theorem goTimeParse_timestamp (y1 y2 y3 y4 m1 m2 d1 d2 sep h1 h2 n1 n2 : Char)
    (hy1 : isDigit y1 = true) (hy2 : isDigit y2 = true) (hy3 : isDigit y3 = true)
    (hy4 : isDigit y4 = true) (hm1 : isDigit m1 = true) (hm2 : isDigit m2 = true)
    (hd1 : isDigit d1 = true) (hd2 : isDigit d2 = true)
    (hlo : 1 ≤ digitVal m1 * 10 + digitVal m2) (hhi : digitVal m1 * 10 + digitVal m2 ≤ 12)
    (hdlo : 1 ≤ digitVal d1 * 10 + digitVal d2)
    (hdhi : digitVal d1 * 10 + digitVal d2
      ≤ daysIn (digitVal m1 * 10 + digitVal m2) (digitsVal [y1, y2, y3, y4]))
    (hs : sep = ' ' ∨ sep = 'T')
    (k1 : isDigit h1 = true) (k2 : isDigit h2 = true) (k4 : isDigit n1 = true)
    (k5 : isDigit n2 = true) (k6 : digitVal h1 * 10 + digitVal h2 < 24)
    (k7 : digitVal n1 * 10 + digitVal n2 < 60) :
    (goTimeParse (String.mk ("2006-01-02".data ++ sep :: "15:04".data))
        ⟨[y1, y2, y3, y4, '-', m1, m2, '-', d1, d2, sep, h1, h2, ':', n1, n2]⟩).isSome = true ∧
    ∀ e1 e2, isDigit e1 = true → isDigit e2 = true → digitVal e1 * 10 + digitVal e2 < 60 →
      (goTimeParse (String.mk ("2006-01-02".data ++ sep :: "15:04:05".data))
        ⟨[y1, y2, y3, y4, '-', m1, m2, '-', d1, d2, sep, h1, h2, ':', n1, n2, ':', e1, e2]⟩).isSome
        = true := by
  have hdd : (decide (digitVal d1 * 10 + digitVal d2 < 1) ||
      decide (daysIn (digitVal m1 * 10 + digitVal m2) (digitsVal [y1, y2, y3, y4])
        < digitVal d1 * 10 + digitVal d2)) = false := by
    simp only [Bool.or_eq_false_iff, decide_eq_false_iff_not]
    omega
  have hl1 : layoutChunks (String.mk ("2006-01-02".data ++ sep :: "15:04".data))
      = some [.year, .lit '-', .month, .lit '-', .day, .lit sep, .hour, .lit ':', .minute] := by
    rcases hs with rfl | rfl <;> decide
  have hl2 : layoutChunks (String.mk ("2006-01-02".data ++ sep :: "15:04:05".data))
      = some [.year, .lit '-', .month, .lit '-', .day, .lit sep, .hour, .lit ':', .minute,
              .lit ':', .second] := by
    rcases hs with rfl | rfl <;> decide
  constructor
  · simp only [goTimeParse, hl1]
    rw [parseChunks_date_ok _ y1 y2 y3 y4 m1 m2 d1 d2 _ _ hy1 hy2 hy3 hy4 hm1 hm2 hd1 hd2 hlo hhi,
      parseChunks_sep_ok _ sep h1 _ _ hs k1,
      parseChunks_hm_ok _ h1 h2 n1 n2 _ _ k1 k2 k4 k5 k6 k7]
    simp only [parseChunks, if_true, hdd, Bool.false_eq_true, if_false, Option.isSome_some]
  · intro e1 e2 j1 j2 j3
    simp only [goTimeParse, hl2]
    rw [parseChunks_date_ok _ y1 y2 y3 y4 m1 m2 d1 d2 _ _ hy1 hy2 hy3 hy4 hm1 hm2 hd1 hd2 hlo hhi,
      parseChunks_sep_ok _ sep h1 _ _ hs k1,
      parseChunks_hm_ok _ h1 h2 n1 n2 _ _ k1 k2 k4 k5 k6 k7,
      parseChunks_sec_ok e1 e2 _ j1 j2 j3]
    simp only [hdd, Bool.false_eq_true, if_false, Option.isSome_some]

theorem isValidDateTime_of_layout (timeParse : String → String → Option Int) (s layout : String)
    (hl : layout ∈ ["2006-01-02 15:04:05", "2006-01-02T15:04:05", "2006-01-02 15:04",
      "2006-01-02T15:04"])
    (h : (timeParse layout s).isSome = true) : isValidDateTime timeParse s = true := by
  unfold isValidDateTime
  rw [List.any_eq_true]
  exact ⟨layout, hl, h⟩

/-- Every timestamp of one of the four shapes of the specification is accepted
by `isValidDateTime` over the model of `time.Parse`. -/
theorem isValidDateTime_spec (s : String) (h : specValidDateTime s = true) :
    isValidDateTime goTimeParse s = true := by
  rcases s with ⟨l⟩
  unfold specValidDateTime at h
  split at h
  · rename_i x y1 y2 y3 y4 s1 m1 m2 s2 d1 d2 sep h1 h2 c n1 n2 rest hx
    simp only at hx
    subst hx
    simp only [specValidDate, specHourMinute, Bool.and_eq_true, Bool.or_eq_true,
      decide_eq_true_eq, digitsVal_two] at h
    obtain ⟨⟨⟨hdate, hsep⟩, ⟨⟨⟨⟨⟨⟨k1, k2⟩, k3⟩, k4⟩, k5⟩, k6⟩, k7⟩⟩, hrest⟩ := h
    rcases hdate with hdate | hdate
    · have := congrArg String.data hdate
      simp at this
    obtain ⟨⟨⟨⟨⟨⟨⟨⟨⟨⟨⟨⟨⟨hy1, hy2⟩, hy3⟩, hy4⟩, hs1⟩, hm1⟩, hm2⟩, hs2⟩, hd1⟩, hd2⟩, hlo⟩, hhi⟩,
      hdlo⟩, hdhi⟩ := hdate
    rw [← daysIn_eq_spec _ _ hlo hhi] at hdhi
    subst hs1 hs2 k3
    obtain ⟨a1, a2⟩ := goTimeParse_timestamp y1 y2 y3 y4 m1 m2 d1 d2 sep h1 h2 n1 n2 hy1 hy2 hy3
      hy4 hm1 hm2 hd1 hd2 hlo hhi hdlo hdhi hsep k1 k2 k4 k5 k6 k7
    split at hrest
    · apply isValidDateTime_of_layout goTimeParse _
        (String.mk ("2006-01-02".data ++ sep :: "15:04".data)) _ a1
      rcases hsep with rfl | rfl <;> decide
    · rename_i c2 e1 e2
      simp only [Bool.and_eq_true, decide_eq_true_eq, digitsVal_two] at hrest
      obtain ⟨⟨⟨j0, j1⟩, j2⟩, j3⟩ := hrest
      subst j0
      apply isValidDateTime_of_layout goTimeParse _
        (String.mk ("2006-01-02".data ++ sep :: "15:04:05".data)) _ (a2 e1 e2 j1 j2 j3)
      rcases hsep with rfl | rfl <;> decide
    · cases hrest
  · cases h

/-- C34. Over the model of `time.Parse`, `isValidDateTime` accepts every string
of the shapes YYYY-MM-DD HH:MM:SS, YYYY-MM-DDTHH:MM:SS, YYYY-MM-DD HH:MM and
YYYY-MM-DDTHH:MM that names a day of the calendar and a time of day (hours
below 24, minutes and seconds below 60); the samples of the test are accepted,
and a date without a time, the empty string and the word invalid are rejected. -/
theorem C34_isValidDateTime :
    (∀ s : String, specValidDateTime s = true → isValidDateTime goTimeParse s = true) ∧
    isValidDateTime goTimeParse "2025-07-09 15:04:05" = true ∧
    isValidDateTime goTimeParse "2025-07-09T15:04:05" = true ∧
    isValidDateTime goTimeParse "2025-07-09 15:04" = true ∧
    isValidDateTime goTimeParse "2025-07-09T15:04" = true ∧
    isValidDateTime goTimeParse "2025-07-09" = false ∧
    isValidDateTime goTimeParse "" = false ∧
    isValidDateTime goTimeParse "invalid" = false := by
  refine ⟨isValidDateTime_spec, by decide, by decide, by decide, by decide, by decide, by decide,
    by decide⟩

theorem C34_isValidDateTime_witness :
    specValidDateTime "2024-02-29T23:59:59" = true ∧
    isValidDateTime goTimeParse "2024-02-29T23:59:59" = true :=
  ⟨by decide, C34_isValidDateTime.1 "2024-02-29T23:59:59" (by decide)⟩

/-- C33. Whatever `time.Parse` does with the layout `2006-01-02 15:04:05`,
`isNewer(a, b)` is true exactly when the call succeeds on both arguments and
the instant of `a` is strictly after the instant of `b`; it is false as soon as
one call fails; `isNewer(a, a)` is false; and `isNewer(a, b)` and
`isNewer(b, a)` are never both true. Over the model of `time.Parse` the samples
of the test come out as stated. -/
theorem C33_isNewer :
    (∀ (parseTime : String → Option Int) (a b : String),
      (isNewer parseTime a b = true ↔
        ∃ ta tb, parseTime a = some ta ∧ parseTime b = some tb ∧ tb < ta) ∧
      (parseTime a = none ∨ parseTime b = none → isNewer parseTime a b = false) ∧
      isNewer parseTime a a = false ∧
      ¬ (isNewer parseTime a b = true ∧ isNewer parseTime b a = true)) ∧
    isNewer (goTimeParse "2006-01-02 15:04:05") "2025-07-09 15:00:00" "2025-07-09 14:00:00"
      = true ∧
    isNewer (goTimeParse "2006-01-02 15:04:05") "2025-07-09 14:00:00" "2025-07-09 15:00:00"
      = false ∧
    isNewer (goTimeParse "2006-01-02 15:04:05") "2025-07-09 15:00:00" "2025-07-09 15:00:00"
      = false ∧
    isNewer (goTimeParse "2006-01-02 15:04:05") "invalid" "2025-07-09 15:00:00" = false ∧
    isNewer (goTimeParse "2006-01-02 15:04:05") "2025-07-09 15:00:00" "invalid" = false := by
  refine ⟨?_, by decide, by decide, by decide, by decide, by decide⟩
  intro parseTime a b
  unfold isNewer
  cases ha : parseTime a with
  | none => simp
  | some ta =>
    cases hb : parseTime b with
    | none => simp
    | some tb =>
      simp only [decide_eq_true_eq, Option.some.injEq, exists_and_left, exists_eq_left',
        reduceCtorEq, or_self, false_implies, decide_eq_false_iff_not, lt_self_iff_false,
        not_false_eq_true, true_and, not_and, not_lt]
      exact fun h => le_of_lt h

theorem C33_isNewer_witness :
    goTimeParse "2006-01-02 15:04:05" "2025-13-09 15:00:00" = none ∧
    isNewer (goTimeParse "2006-01-02 15:04:05") "2025-13-09 15:00:00" "2025-07-09 15:00:00"
      = false :=
  ⟨by decide,
   (C33_isNewer.1 (goTimeParse "2006-01-02 15:04:05") "2025-13-09 15:00:00"
      "2025-07-09 15:00:00").2.1 (Or.inl (by decide))⟩

/-! ### A row found newer: the write through the pointer and the stored task -/

theorem matchClasses_append (cs1 cs2 : List (Char → Bool)) :
    ∀ l : List Char, matchClasses (cs1 ++ cs2) l = true ↔
      ∃ l1 l2, l = l1 ++ l2 ∧ matchClasses cs1 l1 = true ∧ matchClasses cs2 l2 = true := by
  induction cs1 with
  | nil =>
    intro l
    constructor
    · intro h; exact ⟨[], l, rfl, rfl, h⟩
    · rintro ⟨l1, l2, rfl, h1, h2⟩
      cases l1 with
      | nil => exact h2
      | cons c tl => simp [matchClasses] at h1
  | cons cls rest ih =>
    intro l
    cases l with
    | nil =>
      constructor
      · intro h; simp [matchClasses] at h
      · rintro ⟨l1, l2, e, h1, h2⟩
        cases l1 with
        | nil => simp [matchClasses] at h1
        | cons c tl => simp at e
    | cons c tl =>
      have hdef : matchClasses ((cls :: rest) ++ cs2) (c :: tl)
          = (cls c && matchClasses (rest ++ cs2) tl) := rfl
      rw [hdef, Bool.and_eq_true, ih tl]
      constructor
      · rintro ⟨hc, l1, l2, rfl, h1, h2⟩
        exact ⟨c :: l1, l2, rfl, by simp [matchClasses, hc, h1], h2⟩
      · rintro ⟨l1, l2, e, h1, h2⟩
        cases l1 with
        | nil => simp [matchClasses] at h1
        | cons d tl1 =>
          simp only [List.cons_append, List.cons.injEq] at e
          obtain ⟨rfl, rfl⟩ := e
          simp only [matchClasses, Bool.and_eq_true] at h1
          exact ⟨h1.1, tl1, l2, rfl, h1.2, h2⟩

theorem matchClasses_replicate (P : Char → Bool) : ∀ (n : Nat) (l : List Char),
    matchClasses (List.replicate n P) l = true ↔ l.length = n ∧ ∀ c ∈ l, P c = true := by
  intro n
  induction n with
  | zero =>
    intro l
    cases l with
    | nil => simp [matchClasses]
    | cons c tl => simp [matchClasses]
  | succ k ih =>
    intro l
    cases l with
    | nil => simp [matchClasses, List.replicate]
    | cons c tl =>
      simp only [List.replicate, matchClasses, Bool.and_eq_true, ih tl, List.length_cons,
        Nat.add_right_cancel_iff, List.mem_cons, forall_eq_or_imp]
      tauto

theorem matchClasses_single (P : Char → Bool) (l : List Char) :
    matchClasses [P] l = true ↔ ∃ c, l = [c] ∧ P c = true := by
  cases l with
  | nil => simp [matchClasses]
  | cons c tl =>
    cases tl with
    | nil => simp [matchClasses]
    | cons d tl2 => simp [matchClasses]

theorem isChar_iff (x c : Char) : isChar x c = true ↔ c = x := by
  simp [isChar]

/-- The pattern of `isValidUUID` describes the shape the specification words. -/
theorem uuidPattern_spec (l : List Char) :
    matchClasses uuidPattern l = true ↔ SpecUUIDShape l := by
  simp only [uuidPattern, matchClasses_append, matchClasses_replicate, matchClasses_single,
    Bool.or_eq_true, isChar_iff]
  constructor
  · rintro ⟨_, g5, rfl, ⟨_, _, rfl, ⟨_, d3, rfl, ⟨_, _, rfl, ⟨_, _, rfl, ⟨_, c3, rfl,
      ⟨_, _, rfl, ⟨_, _, rfl, ⟨_, g2, rfl, ⟨g1, _, rfl, ⟨n1, a1⟩, _, rfl, rfl⟩, n2, a2⟩,
      _, rfl, rfl⟩, _, rfl, rfl⟩, n3, a3⟩, _, rfl, rfl⟩, v, rfl, hv⟩, n4, a4⟩, _, rfl, rfl⟩,
      n5, a5⟩
    refine ⟨g1, g2, '4' :: c3, v :: d3, g5, by simp, n1, n2, by simp [n3], by simp [n4], n5, ?_,
      rfl, ?_⟩
    · intro c hc
      simp only [List.mem_append, List.mem_cons] at hc
      rcases hc with (((hc | hc) | hc | hc) | hc | hc) | hc
      · exact a1 c hc
      · exact a2 c hc
      · rw [hc]; decide
      · exact a3 c hc
      · rw [hc]
        rcases hv with ((h | h) | h) | h <;> rw [h] <;> decide
      · exact a4 c hc
      · exact a5 c hc
    · simp only [List.head?_cons, Option.some.injEq]
      tauto
  · rintro ⟨g1, g2, g3, g4, g5, rfl, n1, n2, n3, n4, n5, hall, h3, h4⟩
    rcases g3 with _ | ⟨c4, c3⟩
    · simp at n3
    rcases g4 with _ | ⟨v, d3⟩
    · simp at n4
    simp only [List.head?_cons, Option.some.injEq] at h3 h4
    subst h3
    have m3 : c3.length = 3 := by simpa using n3
    have m4 : d3.length = 3 := by simpa using n4
    have a : ∀ g : List Char, (∀ c ∈ g, c ∈ g1 ++ g2 ++ '4' :: c3 ++ v :: d3 ++ g5) →
        ∀ c ∈ g, isHexLower c = true := fun g hg c hc => hall c (hg c hc)
    refine ⟨g1 ++ '-' :: g2 ++ '-' :: '4' :: c3 ++ '-' :: v :: d3 ++ ['-'], g5, by simp,
      ⟨g1 ++ '-' :: g2 ++ '-' :: '4' :: c3 ++ '-' :: v :: d3, ['-'], rfl,
        ⟨g1 ++ '-' :: g2 ++ '-' :: '4' :: c3 ++ '-' :: [v], d3, by simp,
          ⟨g1 ++ '-' :: g2 ++ '-' :: '4' :: c3 ++ ['-'], [v], by simp,
            ⟨g1 ++ '-' :: g2 ++ '-' :: '4' :: c3, ['-'], rfl,
              ⟨g1 ++ '-' :: g2 ++ '-' :: ['4'], c3, by simp,
                ⟨g1 ++ '-' :: g2 ++ ['-'], ['4'], by simp,
                  ⟨g1 ++ '-' :: g2, ['-'], rfl,
                    ⟨g1 ++ ['-'], g2, by simp,
                      ⟨g1, ['-'], rfl, ⟨n1, a g1 (by intro c hc; simp [hc])⟩, '-', rfl, rfl⟩,
                      n2, a g2 (by intro c hc; simp [hc])⟩,
                    '-', rfl, rfl⟩,
                  '4', rfl, rfl⟩,
                m3, a c3 (by intro c hc; simp [hc])⟩,
              '-', rfl, rfl⟩,
            v, rfl, by tauto⟩,
          m4, a d3 (by intro c hc; simp [hc])⟩,
        '-', rfl, rfl⟩,
      n5, a g5 (by intro c hc; simp [hc])⟩

/-- C31. `isValidUUID(s)` is true exactly when `s`, lower-cased, is made of
five groups of 8, 4, 4, 4 and 12 hexadecimal digits separated by dashes, the
third group starting with 4 and the fourth with 8, 9, a or b. The samples of
the test are accepted and rejected as stated; a version-4 uuid written in
capitals is accepted. -/
theorem C31_isValidUUID :
    (∀ (lower : Char → Char) (s : String),
      isValidUUID lower s = true ↔ SpecUUIDShape (ToLower lower s).data) ∧
    isValidUUID Char.toLower "123e4567-e89b-42d3-a456-426614174000" = true ∧
    isValidUUID Char.toLower "550e8400-e29b-41d4-a716-446655440000" = true ∧
    isValidUUID Char.toLower "123E4567-E89B-42D3-A456-426614174000" = true ∧
    isValidUUID Char.toLower "123e4567-e89b-12d3-a456-426614174000" = false ∧
    isValidUUID Char.toLower "invalid-uuid" = false ∧
    isValidUUID Char.toLower "" = false ∧
    isValidUUID Char.toLower "123e4567-e89b-12d3-g456-426614174000" = false ∧
    isValidUUID Char.toLower "123e4567-e89b-42d3-a456-42661417400g" = false := by
  refine ⟨fun lower s => ?_, by decide, by decide, by decide, by decide, by decide, by decide,
    by decide, by decide⟩
  unfold isValidUUID
  exact uuidPattern_spec _

/-! ## parseTags -/

theorem fieldsFrom_splitOnP : ∀ (l cur : List Char), (∀ c ∈ cur, isSpace c = false) →
    (∀ w ∈ fieldsFrom l cur, w ≠ "" ∧ ∀ c ∈ w.data, isSpace c = false) ∧
    fieldsFrom l cur
      = (((l.splitOnP isSpace).modifyHead (fun w => cur ++ w)).filter (fun w => w ≠ [])).map
          String.mk := by
  intro l
  induction l with
  | nil =>
    intro cur hcur
    by_cases hc : cur = []
    · subst hc; simp [fieldsFrom]
    · refine ⟨?_, by simp [fieldsFrom, hc]⟩
      intro w hw
      simp only [fieldsFrom, hc, if_false, List.mem_singleton] at hw
      subst hw
      exact ⟨fun e => hc (congrArg String.data e), hcur⟩
  | cons c rest ih =>
    intro cur hcur
    obtain ⟨first, others, hsplit⟩ : ∃ first others, rest.splitOnP isSpace = first :: others := by
      cases h : rest.splitOnP isSpace with
      | nil => exact absurd h (List.splitOnP_ne_nil _ _)
      | cons a b => exact ⟨a, b, rfl⟩
    cases hsp : isSpace c
    · have hcur2 : ∀ d ∈ cur ++ [c], isSpace d = false := by
        intro d hd
        rcases List.mem_append.mp hd with h | h
        · exact hcur d h
        · rw [List.mem_singleton.mp h]; exact hsp
      obtain ⟨i1, i2⟩ := ih (cur ++ [c]) hcur2
      simp only [fieldsFrom, hsp, Bool.false_eq_true, if_false]
      refine ⟨i1, ?_⟩
      rw [i2, List.splitOnP_cons, hsplit]
      simp [hsp]
    · obtain ⟨i1, i2⟩ := ih [] (by simp)
      simp only [fieldsFrom, hsp, if_true]
      rw [List.splitOnP_cons, hsplit] at *
      by_cases hc : cur = []
      · subst hc
        simp only [if_true]
        refine ⟨i1, ?_⟩
        rw [i2]
        simp [hsp, hsplit]
      · simp only [hc, if_false]
        constructor
        · intro w hw
          rcases List.mem_cons.mp hw with rfl | hw
          · exact ⟨fun e => hc (congrArg String.data e), hcur⟩
          · exact i1 w hw
        · rw [i2]
          simp [hsp, hsplit, hc]

theorem Fields_spec (s : String) :
    Fields s = specTokens s ∧ ∀ w ∈ Fields s, w ≠ "" ∧ ∀ c ∈ w.data, isSpace c = false := by
  obtain ⟨h1, h2⟩ := fieldsFrom_splitOnP s.data [] (by simp)
  refine ⟨?_, h1⟩
  unfold Fields specTokens
  rw [h2]
  cases h : s.data.splitOnP isSpace with
  | nil => rfl
  | cons a b => simp

theorem parseTags_spec (s : String) : parseTags s = specParseTags s := by
  obtain ⟨h1, h2⟩ := Fields_spec s
  unfold parseTags specParseTags
  rw [← h1]
  have hmap : (Fields s).map TrimSpace = Fields s := by
    conv_rhs => rw [← List.map_id (Fields s)]
    apply List.map_congr_left
    intro w hw
    exact TrimSpace_of_no_space w (h2 w hw).2
  rw [hmap]
  apply List.filter_congr
  intro w _
  by_cases hw : w = ""
  · subst hw; decide
  · simp [hw]

/-- C32. For every string, `parseTags` returns the whitespace-separated tokens
that start with `+` or `@`, in their order of appearance, a token that occurs
twice being returned twice; every element of the result starts with `+` or
`@`; a string without such a token, the empty string among them, gives the
empty list. The samples of the test come out as stated. -/
theorem C32_parseTags :
    (∀ s : String,
      parseTags s = specParseTags s ∧
      (∀ t ∈ parseTags s, HasPrefix t "+" = true ∨ HasPrefix t "@" = true) ∧
      ((∀ w ∈ specTokens s, HasPrefix w "+" = false ∧ HasPrefix w "@" = false) →
        parseTags s = [])) ∧
    parseTags "" = [] ∧
    parseTags "invalid tag +valid @valid" = ["+valid", "@valid"] ∧
    parseTags "+dev @bureau" = ["+dev", "@bureau"] ∧
    parseTags "+projet1 +projet2 @context" = ["+projet1", "+projet2", "@context"] ∧
    parseTags "no tags here" = [] ∧
    parseTags " +a\tb  +a\n" = ["+a", "+a"] := by
  refine ⟨fun s => ⟨parseTags_spec s, ?_, ?_⟩, by decide, by decide, by decide, by decide,
    by decide, by decide⟩
  · intro t ht
    rw [parseTags_spec] at ht
    have := (List.mem_filter.mp ht).2
    simpa using this
  · intro h
    rw [parseTags_spec]
    apply List.filter_eq_nil_iff.mpr
    intro w hw
    simp [h w hw]

theorem C32_parseTags_witness :
    (∀ w ∈ specTokens "no tags here", HasPrefix w "+" = false ∧ HasPrefix w "@" = false) ∧
    parseTags "no tags here" = [] :=
  ⟨by decide, (C32_parseTags.1 "no tags here").2.2 (by decide)⟩

/-! ## One exported row through createTaskFromCSVRecord, field by field -/

theorem isDigit_not_space (c : Char) (h : isDigit c = true) : isSpace c = false := by
  simp only [isDigit, Bool.and_eq_true, decide_eq_true_eq] at h
  simp only [isSpace, Bool.or_eq_false_iff, Bool.and_eq_false_imp, decide_eq_true_eq,
    decide_eq_false_iff_not]
  omega

theorem isValidUUID_ascii (lower : Char → Char) (hl : AsciiLower lower)
    (hx : HexFromAscii lower) (u : String) (h : isValidUUID lower u = true) :
    isValidUUID Char.toLower u = true := by
  unfold isValidUUID at h ⊢
  have hall := matchClasses_all (fun d => isHexLower d = true ∨ d = '-') uuidPattern
    (ToLower lower u).data uuidPattern_classes h
  have hascii : ∀ c ∈ u.data, c.toNat < 128 := by
    intro c hc
    apply hx c
    apply hall
    show lower c ∈ u.data.map lower
    exact List.mem_map.mpr ⟨c, hc, rfl⟩
  rw [← ToLower_ascii lower hl u hascii]
  exact h

theorem specValidDate_facts (s : String) (h : specValidDate s = true) :
    validateDate goTimeParse (TrimSpace s) = true ∧
      (if TrimSpace s ≠ "" then TrimSpace s else "") = s := by
  have htrim : TrimSpace s = s := by
    rcases s with ⟨l⟩
    unfold specValidDate at h
    simp only [Bool.or_eq_true, decide_eq_true_eq] at h
    rcases h with h | h
    · rw [h]; decide
    · split at h
      · rename_i x y1 y2 y3 y4 s1 m1 m2 s2 d1 d2
        simp only [Bool.and_eq_true] at h
        apply TrimSpace_of_ends
        · intro c hc
          simp only [List.head?_cons, Option.some.injEq] at hc
          subst hc
          exact isDigit_not_space _ h.1.1.1.1.1.1.1.1.1.1.1.1.1
        · intro c hc
          simp only [List.getLast?_cons_cons, List.getLast?_singleton, Option.some.injEq] at hc
          subst hc
          exact isDigit_not_space _ h.1.1.1.1.2
      · cases h
  rw [htrim, validateDate_spec]
  refine ⟨h, ?_⟩
  by_cases he : s = ""
  · simp [he]
  · simp [he]

theorem specStamp_facts (s : String) (h : specStamp s = true) :
    isValidDateTime goTimeParse (TrimSpace s) = true ∧
      ∀ now : String, (if TrimSpace s ≠ "" then TrimSpace s else now) = s := by
  simp only [specStamp, Bool.and_eq_true, decide_eq_true_eq] at h
  obtain ⟨⟨hv, hlen⟩, _⟩ := h
  have hne : s ≠ "" := by
    intro e
    rw [e] at hlen
    simp at hlen
  have htrim : TrimSpace s = s := by
    rcases s with ⟨l⟩
    have hv2 := hv
    unfold specValidDateTime at hv2
    split at hv2
    · rename_i x y1 y2 y3 y4 s1 m1 m2 s2 d1 d2 sep h1 h2 c n1 n2 rest hx
      simp only at hx
      subst hx
      simp only [specValidDate, specHourMinute, Bool.and_eq_true, Bool.or_eq_true,
        decide_eq_true_eq] at hv2
      obtain ⟨⟨⟨hdate, _⟩, _⟩, hrest⟩ := hv2
      rcases hdate with hdate | hdate
      · have := congrArg String.data hdate
        simp at this
      split at hrest
      · simp at hlen
      · rename_i c2 e1 e2
        simp only [Bool.and_eq_true] at hrest
        apply TrimSpace_of_ends
        · intro c hc
          simp only [List.head?_cons, Option.some.injEq] at hc
          subst hc
          exact isDigit_not_space _ hdate.1.1.1.1.1.1.1.1.1.1.1.1.1
        · intro c hc
          simp only [List.getLast?_cons_cons, List.getLast?_singleton, Option.some.injEq] at hc
          subst hc
          exact isDigit_not_space _ hrest.1.2
      · cases hrest
    · cases hv2
  rw [htrim]
  exact ⟨isValidDateTime_spec s hv, fun now => by simp [hne]⟩

theorem hexFromAscii_toLower : HexFromAscii Char.toLower :=
  fun c h => (char_of_toLower_hex c h).1

/-- C38. Take a task whose text is not empty and neither starts nor ends with
whitespace, whose uuid `isValidUUID` accepts, whose priority is unset, high,
medium or low, whose due date is empty or a valid date, whose tags each start
with `+` or `@` and hold no whitespace, and whose creation and update stamps
have the form YYYY-MM-DD HH:MM:SS. Under the export header, whose text column
is the third, `createTaskFromCSVRecord` turns the record of the exported row
into no message and a task that differs from the original in its id only.
(`time.Parse` as modelled; `unicode.ToLower` acting on ASCII as ASCII
lower-casing and sending no other character to a hexadecimal digit or a dash.) -/
theorem C38_row_round_trip (dest : TodoManager) (lower : Char → Char) (hl : AsciiLower lower)
    (hx : HexFromAscii lower) (t : Task)
    (htne : t.Text ≠ "")
    (hhead : ∀ c, t.Text.data.head? = some c → isSpace c = false)
    (hlast : ∀ c, t.Text.data.getLast? = some c → isSpace c = false)
    (huuid : isValidUUID lower t.UUID = true)
    (hprio : t.Priority ∈ ["", "high", "medium", "low"])
    (hdue : specValidDate t.Due = true)
    (htags : ∀ tag ∈ t.Tags, (HasPrefix tag "+" = true ∨ HasPrefix tag "@" = true) ∧
      ∀ c ∈ tag.data, isSpace c = false)
    (hcreated : specStamp t.Created = true) (hupdated : specStamp t.Updated = true)
    (lineNumber : Nat) (now1 now2 : String) (rnd : Nat → Nat) :
    columnMapFrom lower 0 (fun _ => none) exportHeader "text" = some 2 ∧
    createTaskFromCSVRecord dest lower goTimeParse (exportRecord t)
        (columnMapFrom lower 0 (fun _ => none) exportHeader) 2 lineNumber now1 now2 rnd
      = some ({ t with ID := dest.NextID }, []) := by
  have htextcol : columnMapFrom lower 0 (fun _ => none) exportHeader "text" = some 2 := by
    rw [columnMap_export lower hl]; decide
  have httrim : TrimSpace t.Text = t.Text := TrimSpace_of_ends t.Text.data hhead hlast
  have hp : ((t.Priority = "" ∨ t.Priority = "high") ∨ t.Priority = "medium") ∨
      t.Priority = "low" := by
    simp only [List.mem_cons, List.mem_singleton, List.not_mem_nil, or_false] at hprio
    rcases hprio with h | h | h | h
    · exact Or.inl (Or.inl (Or.inl h))
    · exact Or.inl (Or.inl (Or.inr h))
    · exact Or.inl (Or.inr h)
    · exact Or.inr h
  obtain ⟨d1, d2⟩ := specValidDate_facts t.Due hdue
  obtain ⟨c1, c2⟩ := specStamp_facts t.Created hcreated
  obtain ⟨u1, u2⟩ := specStamp_facts t.Updated hupdated
  refine ⟨htextcol, ?_⟩
  rw [createTask_exportRecord_eq dest lower hl goTimeParse t htne httrim
    (isValidUUID_ascii lower hl hx t.UUID huuid) hp d1 htags (Or.inr c1) (Or.inr u1)
    lineNumber now1 now2 rnd, d2, c2 now1, u2 now2]

theorem C38_row_round_trip_witness :
    createTaskFromCSVRecord sampleStore Char.toLower goTimeParse (exportRecord sampleExported)
        (columnMapFrom Char.toLower 0 (fun _ => none) exportHeader) 2 2 "2025-07-10 08:00:00"
        "2025-07-10 08:00:00" (fun i => i)
      = some ({ sampleExported with ID := sampleStore.NextID }, []) :=
  (C38_row_round_trip sampleStore Char.toLower asciiLower_toLower hexFromAscii_toLower
    sampleExported (by decide) (fun c hc => by simp [sampleExported] at hc; subst hc; decide)
    (fun c hc => by simp [sampleExported] at hc; subst hc; decide)
    (by decide) (by decide) (by decide) (by decide) (by decide) (by decide) 2
    "2025-07-10 08:00:00" "2025-07-10 08:00:00" (fun i => i)).2

/-! ## Loading the store -/

/-- C35 fails for a well-formed text of the wrong structure. The decoder saves
a type error and goes on with the other members, and `load` drops the error:
from the text `{"nextId": 5, "tasks": "abc"}` the fresh manager comes out with
no task and counter 5, and from `{"tasks": [1]}` with one task, all of whose
fields are zero. A missing file and a text that is not JSON do leave the
manager with no task and counter 1. -/
theorem C35_wrong_structure_is_loaded (foldEq : String → String → Bool) :
    NewTodoManager foldEq
        (.document (.object [("nextId", .number "5"), ("tasks", .string "abc")]))
      = some { Tasks := [], NextID := 5 } ∧
    NewTodoManager foldEq (.document (.object [("tasks", .array [.number "1"])]))
      = some { Tasks := [zeroTask], NextID := 1 } ∧
    NewTodoManager foldEq .missing = some { Tasks := [], NextID := 1 } ∧
    NewTodoManager foldEq .notJson = some { Tasks := [], NextID := 1 } := by
  refine ⟨rfl, rfl, rfl, rfl⟩

end Todo
